import Mathlib

/-!
Verification development for the procedural dungeon generator
(DungeonGenerator class: room placement on an occupancy grid, greedy
nearest-neighbour corridor construction, content population, floor/dungeon
assembly, and JSON export/import).

The JavaScript source is shallowly embedded as follows.

* `Math.random()` draws are modelled as exact rationals in `[0, 1)`, one
  per call site, supplied through oracle records (`RoomO`, `CorrO`, ...).
  A draw is a fraction `n/d` with `n < d` (`U01`), and every
  `Math.floor(Math.random() * k)` becomes exact integer arithmetic on the
  fraction, so the whole pipeline is executable in the kernel.
* `uuidv4()` is modelled by a monotone counter threaded through the
  generator; identifiers are `Nat`.
* A thrown `TypeError` (e.g. reading a property of `undefined`) is
  modelled by `Option`: `none` means the generation call throws and the
  caller receives no value.  `EventBus.emit` is a side effect with no
  bearing on the returned structure and is dropped.
* `DataManager.getAllItems` is an external read-only collaborator and is
  passed in as explicit lists (`monsters`, `items`).
* `JSON.stringify(dungeon, null, 2)` / `JSON.parse` are platform
  functions; they are modelled by an executable printer and recursive
  descent reader over a JSON value tree (`JsValue`), restricted to
  integer numerals (the generator only ever produces integers).
-/

/-- A uniform draw from `[0, 1)`, kept as an exact fraction `n / d`. -/
structure U01 where
  n : Nat
  d : Nat
  isLt : n < d

/-- `Math.floor(q * m)` for a draw `q` and a natural scale `m`:
exact integer computation `q.n * m / q.d`. -/
def jsFloorMulNat (q : U01) (m : Nat) : Nat := q.n * m / q.d

/-- `Math.floor(q * m)` for a draw `q` and an integer scale `m`
(floor division, as `Math.floor` rounds toward negative infinity). -/
def jsFloorMulInt (q : U01) (m : Int) : Int := Int.fdiv (q.n * m) q.d

/-- `q < cn / cd` for a draw `q`: models comparisons such as
`Math.random() < 0.5` (exact on the idealised real draw). -/
def u01LtFrac (q : U01) (cn cd : Nat) : Bool := q.n * cd < cn * q.d

/-- `arr[Math.floor(Math.random() * arr.length)]` for a nonempty array:
uniform selection, total because the floored index is below the length. -/
def pickUniform {α : Type} (l : List α) (q : U01) (h : 0 < l.length) : α :=
  l.get ⟨jsFloorMulNat q l.length, by
    show q.n * l.length / q.d < l.length
    have hd : 0 < q.d := Nat.lt_of_le_of_lt (Nat.zero_le _) q.isLt
    rw [Nat.div_lt_iff_lt_mul hd]
    exact Nat.lt_of_lt_of_le ((Nat.mul_lt_mul_right h).mpr q.isLt)
      (Nat.le_of_eq (Nat.mul_comm _ _))⟩

/-- Decimal digit character. -/
def digitChar (n : Nat) : Char := Char.ofNat (48 + n)

/-- Decimal digits of `n`, most significant first (fuel-structured so that
it reduces in the kernel; `natDigits` supplies sufficient fuel). -/
def natDigitsGo : Nat → Nat → List Char
  | 0, _ => []
  | fuel + 1, n => if n < 10 then [digitChar n] else natDigitsGo fuel (n / 10) ++ [digitChar (n % 10)]

/-- Decimal digits of a natural number. -/
def natDigits (n : Nat) : List Char := natDigitsGo (n + 1) n

/-- Decimal string of a natural number (JS number-to-string for naturals). -/
def natToString (n : Nat) : String := ⟨natDigits n⟩

/-- Numeric value of a list of decimal digit characters. -/
def digitsVal (ds : List Char) : Nat := ds.foldl (fun a c => a * 10 + (c.toNat - 48)) 0

/-! ## Data model -/

/-- A width/height pair (the `minSize`/`maxSize` records). -/
structure Size2 where
  width : Nat
  height : Nat
deriving DecidableEq

/-- A registered room type definition.  The builtin `generate` callbacks all
just set the room's `ambience` and `lighting`; that pair is the `hook`
field (`none` models a definition without a callback). -/
structure RoomTypeDef where
  name : String
  weight : Nat
  minSize : Size2
  maxSize : Size2
  features : List String
  hook : Option (String × String)
deriving DecidableEq

/-- An entry of the external monster registry (`DataManager` collaborator). -/
structure Monster where
  id : String
  name : String
  cr : Int
  hp : String
  description : String
deriving DecidableEq

/-- An entry of the external item registry. -/
structure Item where
  id : String
  name : String
  description : String
deriving DecidableEq

/-- An item reference stored inside a treasure content entry. -/
structure ItemRef where
  id : String
  name : String
  description : String
deriving DecidableEq

/-- A room content entry (`room.contents` elements). -/
inductive Content where
  | monster (id name : String) (hp : Sum String Int) (description : String)
  | treasure (gold : Int) (items : List ItemRef)
  | puzzle (difficulty : Int) (description : String)
deriving DecidableEq

/-- A connection record pushed onto a room (JS `{to, via}`; `to` is a Lean
keyword, hence `toRoom`). -/
structure Conn where
  toRoom : Nat
  via : Nat
deriving DecidableEq

/-- A placed room. -/
structure Room where
  id : Nat
  type : String
  x : Int
  y : Int
  width : Int
  height : Int
  level : Int
  contents : List Content
  features : List String
  description : Option String
  connections : List Conn
  ambience : Option String
  lighting : Option String
deriving DecidableEq

/-- A corridor endpoint (JS `{x, y, room}`). -/
structure CorridorEnd where
  x : Int
  y : Int
  room : Nat
deriving DecidableEq

/-- A corridor (JS fields `from`/`to` are Lean keywords, hence
`fromE`/`toE`). -/
structure Corridor where
  id : Nat
  type : String
  fromE : CorridorEnd
  toE : CorridorEnd
  path : List (Int × Int)
  features : List String
deriving DecidableEq

/-- An entrance or exit record (JS `{type, roomId, description}`). -/
structure Portal where
  type : String
  roomId : Nat
  description : String
deriving DecidableEq

/-- A generated floor. -/
structure Floor where
  id : Nat
  floorNumber : Nat
  level : Int
  theme : String
  rooms : List Room
  corridors : List Corridor
  entrances : List Portal
  exits : List Portal
  description : String
deriving DecidableEq

/-- A generated dungeon. -/
structure Dungeon where
  id : Nat
  name : String
  level : Int
  theme : String
  floors : List Floor
  createdAt : String
deriving DecidableEq

/-- The occupancy grid: bounded 2D map from cell coordinates to the id of
the room occupying the cell (`null` cells are `none`).  The JS grid is a
row array of column arrays; it is modelled by its lookup function
`cells row column`. -/
structure Grid where
  width : Int
  height : Int
  cells : Int → Int → Option Nat

/-! ## Generator definitions (translated from the DungeonGenerator class) -/

/-- `registerBuiltinRoomTypes`: the five builtin room type definitions, in
registration (= `Map` iteration) order. -/
def builtinRoomTypes : List (String × RoomTypeDef) :=
  [ ("combat",
      { name := "Combat Room", weight := 40,
        minSize := ⟨3, 3⟩, maxSize := ⟨8, 8⟩,
        features := ["cover", "obstacles", "traps"],
        hook := some ("tense", "dim") }),
    ("treasure",
      { name := "Treasure Room", weight := 15,
        minSize := ⟨2, 2⟩, maxSize := ⟨5, 5⟩,
        features := ["chest", "loot", "traps"],
        hook := some ("mysterious", "faint_glow") }),
    ("puzzle",
      { name := "Puzzle Room", weight := 10,
        minSize := ⟨3, 3⟩, maxSize := ⟨6, 6⟩,
        features := ["mechanism", "clues", "traps"],
        hook := some ("ancient", "magical") }),
    ("rest",
      { name := "Rest Area", weight := 10,
        minSize := ⟨2, 2⟩, maxSize := ⟨4, 4⟩,
        features := ["fountain", "benches", "healing"],
        hook := some ("peaceful", "warm") }),
    ("special",
      { name := "Special Room", weight := 10,
        minSize := ⟨3, 3⟩, maxSize := ⟨6, 6⟩,
        features := ["unique", "story", "boss"],
        hook := some ("powerful", "dramatic") }) ]

/-- `getGridSize`: the size class table with the `|| sizes.medium`
fallback for unknown classes. -/
def getGridSize (size : String) : Size2 :=
  if size = "small" then ⟨10, 10⟩
  else if size = "medium" then ⟨15, 15⟩
  else if size = "large" then ⟨20, 20⟩
  else if size = "huge" then ⟨30, 30⟩
  else ⟨15, 15⟩

/-- `createGrid`: a fresh all-`null` grid. -/
def createGrid (width height : Nat) : Grid :=
  { width := width, height := height, cells := fun _ _ => none }

/-- `randomInRange(min, max)`: `Math.floor(Math.random() * (max - min + 1)) + min`. -/
def randomInRange (min max : Int) (q : U01) : Int :=
  jsFloorMulInt q (max - min + 1) + min

/-- `canPlaceRoom`: rejects rectangles leaving the grid and any candidate
whose cells, together with a 1-cell margin ring (clamped to the grid),
touch an occupied cell.  The JS loops run `dy` from `-1` to `height` and
`dx` from `-1` to `width`; here `dyn`/`dxn` range over `0 .. height+1`
shifted by one. -/
def canPlaceRoom (grid : Grid) (x y width height : Int) : Bool :=
  if x + width ≥ grid.width ∨ y + height ≥ grid.height then false
  else
    (List.range (height + 2).toNat).all fun dyn =>
      (List.range (width + 2).toNat).all fun dxn =>
        let checkX := x + dxn - 1
        let checkY := y + dyn - 1
        if 0 ≤ checkY ∧ checkY < grid.height ∧ 0 ≤ checkX ∧ checkX < grid.width then
          (grid.cells checkY checkX).isNone
        else true

/-- `markGrid`: occupy every cell of the room's rectangle with its id. -/
def markGrid (grid : Grid) (room : Room) : Grid :=
  { grid with
    cells := fun cy cx =>
      if room.y ≤ cy ∧ cy < room.y + room.height ∧ room.x ≤ cx ∧ cx < room.x + room.width
      then some room.id else grid.cells cy cx }

/-- The attempt loop of `findRoomPosition`: each attempt draws
`x = Math.floor(Math.random() * (gridWidth - width - 2)) + 1` (same for
`y`) and accepts the first position passing `canPlaceRoom`. -/
def findRoomPositionGo (grid : Grid) (width height : Int) (posR : Nat → U01 × U01) :
    Nat → Nat → Option (Int × Int)
  | _, 0 => none
  | attempt, rem + 1 =>
    let x := jsFloorMulInt (posR attempt).1 (grid.width - width - 2) + 1
    let y := jsFloorMulInt (posR attempt).2 (grid.height - height - 2) + 1
    if canPlaceRoom grid x y width height then some (x, y)
    else findRoomPositionGo grid width height posR (attempt + 1) rem

/-- `findRoomPosition`: up to `maxAttempts = 100` random placements. -/
def findRoomPosition (grid : Grid) (width height : Int) (posR : Nat → U01 × U01) :
    Option (Int × Int) :=
  findRoomPositionGo grid width height posR 0 100

/-- The subtraction loop of `selectWeightedRoomType`; the remaining
`random` value is the fraction `num / den` (`den` is the draw's
denominator, kept fixed). -/
def selectWeightedGo (den : Nat) : List (String × RoomTypeDef) → Int → Option String
  | [], _ => none
  | (t, d) :: rest, num =>
    if num - d.weight * den ≤ 0 then some t
    else selectWeightedGo den rest (num - d.weight * den)

/-- `selectWeightedRoomType`: roulette-wheel selection over the registry;
the draw is `Math.random() * totalWeight`.  The JS fallback
`return roomTypes[0]` is the `registry.head?` case (an empty registry
yields `undefined`, i.e. `none`). -/
def selectWeightedRoomType (registry : List (String × RoomTypeDef)) (q : U01) :
    Option String :=
  let total := (registry.map (fun p => p.2.weight)).sum
  match selectWeightedGo q.d registry (q.n * total) with
  | some t => some t
  | none => registry.head?.map (·.1)

/-- `this.roomTypes.get(t)` on the insertion-ordered registry. -/
def lookupType (registry : List (String × RoomTypeDef)) (t : String) : Option RoomTypeDef :=
  (registry.find? (fun p => p.1 = t)).map (·.2)

/-- Per-element filter with an indexed draw:
`list.filter(() => Math.random() < cn/cd)`. -/
def filterIdxLt (draw : Nat → U01) (cn cd : Nat) : List String → Nat → List String
  | [], _ => []
  | f :: rest, i =>
    if u01LtFrac (draw i) cn cd then f :: filterIdxLt draw cn cd rest (i + 1)
    else filterIdxLt draw cn cd rest (i + 1)

/-- `generateRoomFeatures`: keep each feature tag with probability 1/2. -/
def generateRoomFeatures (td : RoomTypeDef) (featR : Nat → U01) : List String :=
  filterIdxLt featR 1 2 td.features 0

/-- The fixed description table of `generateRoomDescription`
(`descriptions[roomType] || []`). -/
def descriptionsFor (roomType : String) : List String :=
  if roomType = "combat" then
    ["The air smells of dampness and decay",
     "Weapons and armor litter the floor",
     "Scratches cover the walls"]
  else if roomType = "treasure" then
    ["Golden coins sparkle in the dim light",
     "A chest sits in the center of the room",
     "Precious items are scattered about"]
  else if roomType = "puzzle" then
    ["Ancient runes cover the walls",
     "A mysterious device hums with energy",
     "Strange symbols glow faintly"]
  else if roomType = "rest" then
    ["A peaceful sanctuary",
     "The sound of trickling water echoes",
     "Soft light fills the room"]
  else if roomType = "special" then
    ["An otherworldly presence fills the air",
     "Ancient magic permeates the chamber",
     "Something powerful resides here"]
  else []

/-- `generateRoomDescription`: a uniform pick from the type's table
(an unknown type indexes an empty array, i.e. `undefined` = `none`). -/
def generateRoomDescription (roomType : String) (q : U01) : Option String :=
  (descriptionsFor roomType).get? (jsFloorMulNat q (descriptionsFor roomType).length)

/-- Model of the `/(\d+)d(\d+)([+-]\d+)?/` pattern tried at one position:
digits, `d`, digits, then an optional signed modifier. -/
def tryDiceAt (cs : List Char) : Option (Nat × Nat × Int) :=
  let d1 := cs.takeWhile Char.isDigit
  if d1.isEmpty then none
  else
    match cs.drop d1.length with
    | 'd' :: cs2 =>
      let d2 := cs2.takeWhile Char.isDigit
      if d2.isEmpty then none
      else
        let rest := cs2.drop d2.length
        let modifier : Int :=
          match rest with
          | '+' :: cs3 =>
            let d3 := cs3.takeWhile Char.isDigit
            if d3.isEmpty then 0 else (digitsVal d3 : Int)
          | '-' :: cs3 =>
            let d3 := cs3.takeWhile Char.isDigit
            if d3.isEmpty then 0 else -(digitsVal d3 : Int)
          | _ => 0
        some (digitsVal d1, digitsVal d2, modifier)
    | _ => none

/-- Unanchored search for the dice pattern (model of `String.match` with
the dice regex, for well-formed dice strings). -/
def diceScan : List Char → Option (Nat × Nat × Int)
  | [] => none
  | c :: rest =>
    match tryDiceAt (c :: rest) with
    | some r => some r
    | none => diceScan rest

/-- The dice-rolling loop of `calculateMonsterHP`: `count` rolls of
`Math.floor(Math.random() * sides) + 1`. -/
def diceSumGo (sides : Nat) (dice : Nat → U01) : Nat → Nat
  | 0 => 0
  | c + 1 => diceSumGo sides dice c + (jsFloorMulNat (dice c) sides + 1)

/-- `calculateMonsterHP`: parse the dice notation and roll; a string that
does not match is returned unchanged (the JS function returns the `hp`
string itself, hence the sum type). -/
def calculateMonsterHP (m : Monster) (dice : Nat → U01) : Sum String Int :=
  match diceScan m.hp.data with
  | none => Sum.inl m.hp
  | some (count, sides, modifier) => Sum.inr (modifier + (diceSumGo sides dice count : Int))

/-- Oracle for one `generateMonstersForRoom` call. -/
structure MonstersO where
  countR : U01
  pickR : Nat → U01
  hpR : Nat → Nat → U01

/-- The selection loop of `generateMonstersForRoom`: each iteration picks a
monster only when the filtered pool is nonempty. -/
def monstersGo (appropriate : List Monster) (o : MonstersO) : Nat → Nat → List Content
  | _, 0 => []
  | i, rem + 1 =>
    (if h : 0 < appropriate.length then
      let m := pickUniform appropriate (o.pickR i) h
      [Content.monster m.id m.name (calculateMonsterHP m (o.hpR i)) m.description]
    else []) ++ monstersGo appropriate o (i + 1) rem

/-- `generateMonstersForRoom`: filter the monster registry by
`m.cr <= level`, then draw `Math.floor(Math.random() * 3) + 1` entries. -/
def generateMonstersForRoom (monsters : List Monster) (level : Int) (o : MonstersO) :
    List Content :=
  let appropriate := monsters.filter (fun m => m.cr ≤ level)
  monstersGo appropriate o 0 (jsFloorMulNat o.countR 3 + 1)

/-- Oracle for one `generateTreasure` call. -/
structure TreasureO where
  goldR : U01
  numR : U01
  itemR : Nat → U01

/-- The item loop of `generateTreasure`.  The JS loop indexes
`items[Math.floor(Math.random() * items.length)]` without an emptiness
guard: on an empty catalog the element is `undefined` and reading `.id`
throws, modelled as `none`. -/
def treasureGo (items : List Item) (o : TreasureO) : Nat → Nat → Option (List ItemRef)
  | _, 0 => some []
  | i, rem + 1 =>
    if h : 0 < items.length then
      let item := pickUniform items (o.itemR i) h
      (treasureGo items o (i + 1) rem).map
        (fun rest => ⟨item.id, item.name, item.description⟩ :: rest)
    else none

/-- `generateTreasure`: gold `Math.floor(Math.random() * level * 100) + 50`
plus `Math.floor(Math.random() * 3) + 1` catalog items. -/
def generateTreasure (level : Int) (items : List Item) (o : TreasureO) : Option Content :=
  let gold := jsFloorMulInt o.goldR (level * 100) + 50
  (treasureGo items o 0 (jsFloorMulNat o.numR 3 + 1)).map (fun its => Content.treasure gold its)

/-- Oracle for one `generateRoomContents` call. -/
structure ContentsO where
  mo : MonstersO
  tr : TreasureO

/-- `generateRoomContents`: dispatch on the room type. -/
def generateRoomContents (roomType : String) (level : Int)
    (monsters : List Monster) (items : List Item) (o : ContentsO) :
    Option (List Content) :=
  if roomType = "combat" then some (generateMonstersForRoom monsters level o.mo)
  else if roomType = "treasure" then
    (generateTreasure level items o.tr).map (fun t => [t])
  else if roomType = "puzzle" then
    some [Content.puzzle level "A complex mechanism blocks your path"]
  else some []

/-- The builtin `generate` callback of the room's type: sets `ambience`
and `lighting`. -/
def applyHook (td : RoomTypeDef) (room : Room) : Room :=
  match td.hook with
  | some (a, l) => { room with ambience := some a, lighting := some l }
  | none => room

/-- Oracle for one iteration of the `placeRooms` loop. -/
structure RoomO where
  typeR : U01
  wR : U01
  hR : U01
  posR : Nat → U01 × U01
  featR : Nat → U01
  descR : U01
  contentsO : ContentsO

/-- The `placeRooms` loop.  Each iteration draws a type, a size and a
position; a position failure drops the room (no id is consumed), a success
marks the grid, applies the type's callback and appends the room. -/
def placeRoomsGo (registry : List (String × RoomTypeDef)) (monsters : List Monster)
    (items : List Item) (level : Int) (roomO : Nat → RoomO) :
    Nat → Nat → Grid → Nat → List Room → Option (List Room × Grid × Nat)
  | _, 0, grid, counter, acc => some (acc, grid, counter)
  | i, rem + 1, grid, counter, acc =>
    let o := roomO i
    match selectWeightedRoomType registry o.typeR with
    | none => none
    | some roomType =>
      match lookupType registry roomType with
      | none => none
      | some typeDef =>
        let width := randomInRange typeDef.minSize.width typeDef.maxSize.width o.wR
        let height := randomInRange typeDef.minSize.height typeDef.maxSize.height o.hR
        match findRoomPosition grid width height o.posR with
        | none => placeRoomsGo registry monsters items level roomO (i + 1) rem grid counter acc
        | some (x, y) =>
          match generateRoomContents roomType level monsters items o.contentsO with
          | none => none
          | some contents =>
            let room : Room :=
              { id := counter, type := roomType, x := x, y := y,
                width := width, height := height, level := level,
                contents := contents,
                features := generateRoomFeatures typeDef o.featR,
                description := generateRoomDescription roomType o.descR,
                connections := [], ambience := none, lighting := none }
            placeRoomsGo registry monsters items level roomO (i + 1) rem
              (markGrid grid room) (counter + 1) (acc ++ [applyHook typeDef room])

/-- `placeRooms(grid, count, level)`. -/
def placeRooms (registry : List (String × RoomTypeDef)) (monsters : List Monster)
    (items : List Item) (grid : Grid) (count : Int) (level : Int)
    (roomO : Nat → RoomO) (counter : Nat) : Option (List Room × Grid × Nat) :=
  placeRoomsGo registry monsters items level roomO 0 count.toNat grid counter []

/-- `Math.floor(room.x + room.width / 2)` (the x coordinate of the room
center; floor division since `Math.floor` rounds down). -/
def centerX (r : Room) : Int := r.x + Int.fdiv r.width 2

/-- `Math.floor(room.y + room.height / 2)`. -/
def centerY (r : Room) : Int := r.y + Int.fdiv r.height 2

/-- `calculateDistance`: Manhattan distance between room centers. -/
def calculateDistance (room1 room2 : Room) : Nat :=
  (centerX room2 - centerX room1).natAbs + (centerY room2 - centerY room1).natAbs

/-- Oracle for one corridor creation. -/
structure CorrO where
  tR1 : U01
  tR2 : U01
  featR : Nat → U01

/-- `selectCorridorType`: geometric classification with probabilistic
relabelling. -/
def selectCorridorType (x1 y1 x2 y2 : Int) (o : CorrO) : String :=
  let dx := (x2 - x1).natAbs
  let dy := (y2 - y1).natAbs
  if dx = 0 ∨ dy = 0 then "straight"
  else if u01LtFrac o.tR1 3 10 then "cross"
  else if u01LtFrac o.tR2 1 2 then "L_shaped"
  else "T_shaped"

/-- The horizontal walk of `generateCorridorPath`: the cells visited while
stepping `x` by `±1` toward `x2` (start cell excluded), in order. -/
def xSweep (x1 x2 y : Int) : List (Int × Int) :=
  (List.range (x2 - x1).natAbs).map
    (fun (i : Nat) => (x1 + (if x1 < x2 then 1 else -1) * ((i : Int) + 1), y))

/-- The vertical walk of `generateCorridorPath` (at fixed `x`). -/
def ySweep (x y1 y2 : Int) : List (Int × Int) :=
  (List.range (y2 - y1).natAbs).map
    (fun (i : Nat) => (x, y1 + (if y1 < y2 then 1 else -1) * ((i : Int) + 1)))

/-- `generateCorridorPath`: start cell, then all horizontal steps, then
all vertical steps (L-shaped Manhattan walk). -/
def generateCorridorPath (x1 y1 x2 y2 : Int) : List (Int × Int) :=
  (x1, y1) :: (xSweep x1 x2 y1 ++ ySweep x2 y1 y2)

/-- `generateCorridorFeatures`: each decorative feature kept with
probability 0.3. -/
def generateCorridorFeatures (featR : Nat → U01) : List String :=
  filterIdxLt featR 3 10 ["torches", "debris", "bones", "traps"] 0

/-- `createCorridor(room1, room2)`. -/
def createCorridor (room1 room2 : Room) (counter : Nat) (o : CorrO) : Corridor :=
  let x1 := centerX room1
  let y1 := centerY room1
  let x2 := centerX room2
  let y2 := centerY room2
  { id := counter,
    type := selectCorridorType x1 y1 x2 y2 o,
    fromE := ⟨x1, y1, room1.id⟩,
    toE := ⟨x2, y2, room2.id⟩,
    path := generateCorridorPath x1 y1 x2 y2,
    features := generateCorridorFeatures featR }
  where featR := o.featR

/-- Inner scan of `connectRooms`' pair search: walk the unconnected ids,
look the room up (a failed lookup would make the JS distance computation
throw: outer `none`), and keep the strictly closest pair seen so far
(`minDist` starts at `Infinity`, modelled by the `none` accumulator). -/
def scanUnconnected (rooms : List Room) (cRoom : Room) :
    List Nat → Option (Nat × Room × Room) → Option (Option (Nat × Room × Room))
  | [], best => some best
  | uid :: rest, best =>
    match rooms.find? (fun r => r.id = uid) with
    | none => none
    | some uRoom =>
      let dist := calculateDistance cRoom uRoom
      let best2 :=
        match best with
        | none => some (dist, cRoom, uRoom)
        | some (minDist, bf, bt) =>
          if dist < minDist then some (dist, cRoom, uRoom) else some (minDist, bf, bt)
      scanUnconnected rooms cRoom rest best2

/-- Outer scan of `connectRooms`' pair search, over the connected ids in
insertion order. -/
def scanConnected (rooms : List Room) (unconnected : List Nat) :
    List Nat → Option (Nat × Room × Room) → Option (Option (Nat × Room × Room))
  | [], best => some best
  | cid :: rest, best =>
    match rooms.find? (fun r => r.id = cid) with
    | none => none
    | some cRoom =>
      match scanUnconnected rooms cRoom unconnected best with
      | none => none
      | some best2 => scanConnected rooms unconnected rest best2

/-- Append a `{to, via}` record to the connections of the room with the
given id (the JS code pushes onto the found room object). -/
def pushConnection (rooms : List Room) (rid : Nat) (c : Conn) : List Room :=
  rooms.map (fun r => if r.id = rid then { r with connections := r.connections ++ [c] } else r)

/-- The `while (unconnected.size > 0)` loop of `connectRooms`.  Each
iteration selects the closest (connected, unconnected) pair, creates a
corridor, records the connection on both rooms, and moves the joined room
into the connected set.  `fuel` bounds the iterations (one id is removed
per iteration, so `connectRooms` passes enough); a scan finding no pair
would make the JS loop spin forever and is modelled as failure. -/
def connectGo (corrO : Nat → CorrO) :
    Nat → List Room → List Nat → List Nat → List Corridor → Nat → Nat →
    Option (List Room × List Corridor × Nat)
  | 0, roomsState, _, unconnected, corridors, counter, _ =>
    if unconnected.isEmpty then some (roomsState, corridors, counter) else none
  | fuel + 1, roomsState, connected, unconnected, corridors, counter, iter =>
    if unconnected.isEmpty then some (roomsState, corridors, counter)
    else
      match scanConnected roomsState unconnected connected none with
      | none => none
      | some none => none
      | some (some (_, fromRoom, toRoom)) =>
        let corridor := createCorridor fromRoom toRoom counter (corrO iter)
        let rooms2 :=
          pushConnection (pushConnection roomsState fromRoom.id ⟨toRoom.id, corridor.id⟩)
            toRoom.id ⟨fromRoom.id, corridor.id⟩
        connectGo corrO fuel rooms2 (connected ++ [toRoom.id])
          (unconnected.erase toRoom.id) (corridors ++ [corridor]) (counter + 1) (iter + 1)

/-- `connectRooms(rooms, floor)`: seed the connected set with the first
room (on an empty list `rooms[0].id` throws: `none`) and run the loop;
returns the rooms with their connection records, the corridors, and the
advanced id counter. -/
def connectRooms (corrO : Nat → CorrO) (rooms : List Room) (counter : Nat) :
    Option (List Room × List Corridor × Nat) :=
  match rooms with
  | [] => none
  | r0 :: rest =>
    connectGo corrO (rest.length + 1) (r0 :: rest) [r0.id] (rest.map (·.id)) [] counter 0

/-- `setEntrancesAndExits`: entrance at the first placed room, exit at the
last (on an empty list `rooms[0].id` throws: `none`). -/
def setEntrancesAndExits (floor : Floor) (rooms : List Room) : Option Floor :=
  match rooms.head?, rooms.getLast? with
  | some first, some last =>
    some { floor with
      entrances := floor.entrances ++
        [⟨"stairs_down", first.id, "A staircase leading down into the dungeon"⟩],
      exits := floor.exits ++
        [⟨"stairs_up", last.id, "A staircase leading up to the surface"⟩] }
  | _, _ => none

/-- `generateFloorDescription`. -/
def generateFloorDescription (theme : String) (floorNumber : Nat) : String :=
  "Floor " ++ natToString floorNumber ++ " of the " ++ theme ++ " dungeon"

/-- Oracle for one `generateFloor` call. -/
structure FloorO where
  roomO : Nat → RoomO
  corrO : Nat → CorrO

/-- `generateFloor`: build the grid, place the rooms, connect them, set
entrance and exit, and attach the final room list.  The floor takes the
first fresh id; rooms and corridors take the following ones. -/
def generateFloor (registry : List (String × RoomTypeDef)) (monsters : List Monster)
    (items : List Item) (floorNumber : Nat) (roomsCount : Int) (level : Int)
    (theme size : String) (o : FloorO) (counter : Nat) : Option (Floor × Nat) :=
  let floor0 : Floor :=
    { id := counter, floorNumber := floorNumber, level := level, theme := theme,
      rooms := [], corridors := [], entrances := [], exits := [],
      description := generateFloorDescription theme floorNumber }
  let gridSize := getGridSize size
  let grid := createGrid gridSize.width gridSize.height
  match placeRooms registry monsters items grid roomsCount level o.roomO (counter + 1) with
  | none => none
  | some (placedRooms, _, counter2) =>
    match connectRooms o.corrO placedRooms counter2 with
    | none => none
    | some (rooms2, corridors, counter3) =>
      match setEntrancesAndExits { floor0 with corridors := corridors } rooms2 with
      | none => none
      | some floor2 => some ({ floor2 with rooms := rooms2 }, counter3)

/-- The `generateDungeon` options record (after destructuring defaults). -/
structure DungeonOptions where
  name : String
  level : Int
  floors : Int
  roomsPerFloor : Int
  theme : String
  size : String

/-- The floor loop of `generateDungeon`: floor `i` (0-indexed) is built at
effective level `level + i` with floor number `i + 1`. -/
def generateFloorsGo (registry : List (String × RoomTypeDef)) (monsters : List Monster)
    (items : List Item) (opts : DungeonOptions) (o : Nat → FloorO) :
    Nat → Nat → Nat → List Floor → Option (List Floor × Nat)
  | _, 0, counter, acc => some (acc, counter)
  | i, rem + 1, counter, acc =>
    match generateFloor registry monsters items (i + 1) opts.roomsPerFloor
        (opts.level + i) opts.theme opts.size (o i) counter with
    | none => none
    | some (floor, counter2) =>
      generateFloorsGo registry monsters items opts o (i + 1) rem counter2 (acc ++ [floor])

/-- `generateDungeon(options)`: the dungeon takes the first fresh id, then
the floors are generated sequentially (a non-positive `floors` count runs
the loop zero times).  `createdAt` is the caller-supplied clock reading;
the `dungeon_generated` event emission is a dropped side effect. -/
def generateDungeon (registry : List (String × RoomTypeDef)) (monsters : List Monster)
    (items : List Item) (opts : DungeonOptions) (createdAt : String)
    (o : Nat → FloorO) : Option Dungeon :=
  match generateFloorsGo registry monsters items opts o 0 opts.floors.toNat 1 [] with
  | none => none
  | some (floors, _) =>
    some { id := 0, name := opts.name, level := opts.level, theme := opts.theme,
           floors := floors, createdAt := createdAt }

/-! ## JSON model (`JSON.stringify(dungeon, null, 2)` / `JSON.parse`)

The platform JSON functions are modelled over a JSON value tree,
restricted to the fragment the generator produces: numbers are integers.
The printer follows the ECMA serialization with gap two spaces; the
reader is a whitespace-tolerant recursive descent with explicit fuel so
that it reduces in the kernel. -/

/-- A JSON value (integer numerals only). -/
inductive JsValue where
  | str (s : String)
  | num (n : Int)
  | bool (b : Bool)
  | null
  | arr (elems : List JsValue)
  | obj (members : List (String × JsValue))

/-- Lower-case hexadecimal digit character. -/
def hexDigitChar (n : Nat) : Char := if n < 10 then digitChar n else Char.ofNat (87 + n)

/-- Four hexadecimal digits (for `\u00XX` control escapes). -/
def hex4 (n : Nat) : List Char :=
  [hexDigitChar (n / 4096 % 16), hexDigitChar (n / 256 % 16),
   hexDigitChar (n / 16 % 16), hexDigitChar (n % 16)]

/-- ECMA `QuoteJSONString` escaping of one character. -/
def escapeChar (c : Char) : List Char :=
  if c = '"' then ['\\', '"']
  else if c = '\\' then ['\\', '\\']
  else if c = '\x08' then ['\\', 'b']
  else if c = '\x0c' then ['\\', 'f']
  else if c = '\n' then ['\\', 'n']
  else if c = '\r' then ['\\', 'r']
  else if c = '\t' then ['\\', 't']
  else if c.toNat < 32 then '\\' :: 'u' :: hex4 c.toNat
  else [c]

/-- Escape a character sequence. -/
def escString : List Char → List Char
  | [] => []
  | c :: cs => escapeChar c ++ escString cs

/-- A double-quoted JSON string literal. -/
def quoteString (s : String) : List Char := '"' :: (escString s.data ++ ['"'])

/-- Decimal notation of an integer. -/
def intDigits (n : Int) : List Char :=
  if n < 0 then '-' :: natDigits (-n).toNat else natDigits n.toNat

/-- The two-space gap of `JSON.stringify(dungeon, null, 2)`. -/
def jsonGap : List Char := [' ', ' ']

mutual
/-- Serialize a JSON value at the given indentation (ECMA
`SerializeJSONProperty` with gap two spaces). -/
def printVal (ind : List Char) : JsValue → List Char
  | .str s => quoteString s
  | .num n => intDigits n
  | .bool b => if b then ['t','r','u','e'] else ['f','a','l','s','e']
  | .null => ['n','u','l','l']
  | .arr [] => ['[', ']']
  | .arr (v :: vs) =>
    '[' :: '\n' :: ((ind ++ jsonGap) ++ (printVal (ind ++ jsonGap) v ++
      (printElems (ind ++ jsonGap) vs ++ ('\n' :: (ind ++ [']'])))))
  | .obj [] => ['\x7b', '\x7d']
  | .obj ((k, v) :: ms) =>
    '\x7b' :: '\n' :: ((ind ++ jsonGap) ++ (quoteString k ++ (':' :: ' ' ::
      (printVal (ind ++ jsonGap) v ++
        (printMembers (ind ++ jsonGap) ms ++ ('\n' :: (ind ++ ['\x7d'])))))))
/-- Serialize the remaining array elements, each preceded by a comma,
newline and indentation. -/
def printElems (ind : List Char) : List JsValue → List Char
  | [] => []
  | v :: vs => ',' :: '\n' :: (ind ++ (printVal ind v ++ printElems ind vs))
/-- Serialize the remaining object members. -/
def printMembers (ind : List Char) : List (String × JsValue) → List Char
  | [] => []
  | (k, v) :: ms =>
    ',' :: '\n' :: (ind ++ (quoteString k ++ (':' :: ' ' ::
      (printVal ind v ++ printMembers ind ms))))
end

mutual
/-- Node-count measure used for reader fuel. -/
def jsonSize : JsValue → Nat
  | .arr vs => 1 + sizeElems vs
  | .obj ms => 1 + sizeMembers ms
  | _ => 1
/-- Measure of an element list. -/
def sizeElems : List JsValue → Nat
  | [] => 0
  | v :: vs => jsonSize v + 1 + sizeElems vs
/-- Measure of a member list. -/
def sizeMembers : List (String × JsValue) → Nat
  | [] => 0
  | (_, v) :: ms => jsonSize v + 1 + sizeMembers ms
end

/-- JSON insignificant whitespace. -/
def isJsonWs (c : Char) : Bool := c = ' ' ∨ c = '\n' ∨ c = '\t' ∨ c = '\r'

/-- Drop leading whitespace. -/
def skipWs : List Char → List Char
  | [] => []
  | c :: rest => if isJsonWs c then skipWs rest else c :: rest

/-- Hexadecimal digit value. -/
def hexVal (c : Char) : Option Nat :=
  if 48 ≤ c.toNat ∧ c.toNat ≤ 57 then some (c.toNat - 48)
  else if 97 ≤ c.toNat ∧ c.toNat ≤ 102 then some (c.toNat - 87)
  else if 65 ≤ c.toNat ∧ c.toNat ≤ 70 then some (c.toNat - 55)
  else none

/-- Short escape decoding. -/
def unescapeChar (c : Char) : Option Char :=
  if c = '"' then some '"'
  else if c = '\\' then some '\\'
  else if c = '/' then some '/'
  else if c = 'b' then some '\x08'
  else if c = 'f' then some '\x0c'
  else if c = 'n' then some '\n'
  else if c = 'r' then some '\r'
  else if c = 't' then some '\t'
  else none

/-- Read a string body up to the closing quote.  Raw control characters
are invalid; `\uXXXX` escapes are decoded for code points below the
surrogate range (the printed fragment only uses `\u00XX`). -/
def parseStringBody : Nat → List Char → Option (List Char × List Char)
  | 0, _ => none
  | _ + 1, [] => none
  | fuel + 1, c :: rest =>
    if c = '"' then some ([], rest)
    else if c = '\\' then
      match rest with
      | [] => none
      | e :: rest2 =>
        if e = 'u' then
          match rest2 with
          | h1 :: h2 :: h3 :: h4 :: rest3 =>
            match hexVal h1, hexVal h2, hexVal h3, hexVal h4 with
            | some a, some b, some c2, some d =>
              let code := ((a * 16 + b) * 16 + c2) * 16 + d
              if code < 55296 then
                (parseStringBody fuel rest3).map (fun p => (Char.ofNat code :: p.1, p.2))
              else none
            | _, _, _, _ => none
          | _ => none
        else
          match unescapeChar e with
          | some ch => (parseStringBody fuel rest2).map (fun p => (ch :: p.1, p.2))
          | none => none
    else if c.toNat < 32 then none
    else (parseStringBody fuel rest).map (fun p => (c :: p.1, p.2))

/-- Read an unsigned decimal numeral. -/
def parseNatNum (cs : List Char) : Option (Nat × List Char) :=
  let ds := cs.takeWhile Char.isDigit
  if ds.isEmpty then none else some (digitsVal ds, cs.drop ds.length)

/-- Read an integer numeral (the modelled numeric fragment). -/
def parseNumber (cs : List Char) : Option (Int × List Char) :=
  match cs with
  | c :: rest =>
    if c = '-' then (parseNatNum rest).map (fun p => (-(p.1 : Int), p.2))
    else (parseNatNum cs).map (fun p => ((p.1 : Int), p.2))
  | [] => none

mutual
/-- Read one JSON value (leading whitespace allowed). -/
def parseVal : Nat → List Char → Option (JsValue × List Char)
  | 0, _ => none
  | fuel + 1, cs =>
    match skipWs cs with
    | [] => none
    | c :: rest =>
      if c = '"' then
        (parseStringBody (rest.length + 1) rest).map (fun p => (.str ⟨p.1⟩, p.2))
      else if c = '[' then
        match skipWs rest with
        | ']' :: r2 => some (.arr [], r2)
        | cs2 => (parseElems fuel cs2).map (fun p => (.arr p.1, p.2))
      else if c = '\x7b' then
        match skipWs rest with
        | '\x7d' :: r2 => some (.obj [], r2)
        | cs2 => (parseMembers fuel cs2).map (fun p => (.obj p.1, p.2))
      else if c = 't' then
        match rest with
        | 'r' :: 'u' :: 'e' :: r => some (.bool true, r)
        | _ => none
      else if c = 'f' then
        match rest with
        | 'a' :: 'l' :: 's' :: 'e' :: r => some (.bool false, r)
        | _ => none
      else if c = 'n' then
        match rest with
        | 'u' :: 'l' :: 'l' :: r => some (.null, r)
        | _ => none
      else (parseNumber (c :: rest)).map (fun p => (.num p.1, p.2))
/-- Read the elements of a nonempty array (after the opening bracket). -/
def parseElems : Nat → List Char → Option (List JsValue × List Char)
  | 0, _ => none
  | fuel + 1, cs =>
    match parseVal fuel cs with
    | none => none
    | some (v, r) =>
      match skipWs r with
      | ',' :: r2 => (parseElems fuel r2).map (fun p => (v :: p.1, p.2))
      | ']' :: r2 => some ([v], r2)
      | _ => none
/-- Read the members of a nonempty object (after the opening brace). -/
def parseMembers : Nat → List Char → Option (List (String × JsValue) × List Char)
  | 0, _ => none
  | fuel + 1, cs =>
    match skipWs cs with
    | '"' :: r =>
      match parseStringBody (r.length + 1) r with
      | none => none
      | some (k, r2) =>
        match skipWs r2 with
        | ':' :: r3 =>
          match parseVal fuel r3 with
          | none => none
          | some (v, r4) =>
            match skipWs r4 with
            | ',' :: r5 => (parseMembers fuel r5).map (fun p => ((⟨k⟩, v) :: p.1, p.2))
            | '\x7d' :: r5 => some ([(⟨k⟩, v)], r5)
            | _ => none
        | _ => none
    | _ => none
end

/-- `JSON.parse` on the modelled fragment: read one value and require
only whitespace to follow. -/
def jsonParse (s : String) : Option JsValue :=
  match parseVal (s.data.length + 1) s.data with
  | some (v, rest) => if (skipWs rest).isEmpty then some v else none
  | none => none

/-! ### The JSON tree of a generated dungeon (JS object layout) -/

/-- The JSON value of an item reference. -/
def itemRefToJs (it : ItemRef) : JsValue :=
  .obj [("id", .str it.id), ("name", .str it.name), ("description", .str it.description)]

/-- The JSON value of a monster hp (the JS field holds either the rolled
number or the unparsed string). -/
def hpToJs : Sum String Int → JsValue
  | .inl s => .str s
  | .inr n => .num n

/-- The JSON value of a content entry, keys in construction order. -/
def contentToJs : Content → JsValue
  | .monster id name hp desc =>
    .obj [("type", .str "monster"), ("id", .str id), ("name", .str name),
          ("hp", hpToJs hp), ("description", .str desc)]
  | .treasure gold items =>
    .obj [("type", .str "treasure"), ("gold", .num gold),
          ("items", .arr (items.map itemRefToJs))]
  | .puzzle difficulty desc =>
    .obj [("type", .str "puzzle"), ("difficulty", .num difficulty),
          ("description", .str desc)]

/-- The JSON value of a connection record. -/
def connToJs (c : Conn) : JsValue := .obj [("to", .num c.toRoom), ("via", .num c.via)]

/-- The JSON value of a room.  `description` is omitted when `undefined`
(unknown type), and the `ambience`/`lighting` keys appended by the type
callback come last; identifiers (JS uuid strings) are modelled as
numbers. -/
def roomToJs (r : Room) : JsValue :=
  .obj ([("id", .num r.id), ("type", .str r.type), ("x", .num r.x), ("y", .num r.y),
         ("width", .num r.width), ("height", .num r.height), ("level", .num r.level),
         ("contents", .arr (r.contents.map contentToJs)),
         ("features", .arr (r.features.map JsValue.str))] ++
    (match r.description with
     | some d => [("description", JsValue.str d)]
     | none => []) ++
    [("connections", .arr (r.connections.map connToJs))] ++
    (match r.ambience with
     | some a => [("ambience", JsValue.str a)]
     | none => []) ++
    (match r.lighting with
     | some l => [("lighting", JsValue.str l)]
     | none => []))

/-- The JSON value of a corridor endpoint. -/
def endToJs (e : CorridorEnd) : JsValue :=
  .obj [("x", .num e.x), ("y", .num e.y), ("room", .num e.room)]

/-- The JSON value of a path cell. -/
def cellToJs (p : Int × Int) : JsValue := .obj [("x", .num p.1), ("y", .num p.2)]

/-- The JSON value of a corridor. -/
def corridorToJs (c : Corridor) : JsValue :=
  .obj [("id", .num c.id), ("type", .str c.type), ("from", endToJs c.fromE),
        ("to", endToJs c.toE), ("path", .arr (c.path.map cellToJs)),
        ("features", .arr (c.features.map JsValue.str))]

/-- The JSON value of an entrance/exit record. -/
def portalToJs (p : Portal) : JsValue :=
  .obj [("type", .str p.type), ("roomId", .num p.roomId), ("description", .str p.description)]

/-- The JSON value of a floor, keys in construction order. -/
def floorToJs (f : Floor) : JsValue :=
  .obj [("id", .num f.id), ("floorNumber", .num f.floorNumber), ("level", .num f.level),
        ("theme", .str f.theme), ("rooms", .arr (f.rooms.map roomToJs)),
        ("corridors", .arr (f.corridors.map corridorToJs)),
        ("entrances", .arr (f.entrances.map portalToJs)),
        ("exits", .arr (f.exits.map portalToJs)),
        ("description", .str f.description)]

/-- The JSON value of a dungeon. -/
def dungeonToJs (d : Dungeon) : JsValue :=
  .obj [("id", .num d.id), ("name", .str d.name), ("level", .num d.level),
        ("theme", .str d.theme), ("floors", .arr (d.floors.map floorToJs)),
        ("createdAt", .str d.createdAt)]

/-- `exportDungeon`: `JSON.stringify(dungeon, null, 2)`. -/
def exportDungeon (d : Dungeon) : String := ⟨printVal [] (dungeonToJs d)⟩

/-- `importDungeon`: `JSON.parse(dungeonData)` inside `try/catch`; a parse
failure is caught and `null` is returned (modelled `none`); the parsed
value is returned with no structural validation. -/
def importDungeon (s : String) : Option JsValue := jsonParse s

/-! ## Claim-support definitions -/

/-- The undirected edge list of a floor's corridor graph: one endpoint
pair per corridor. -/
def corridorEdges (cs : List Corridor) : List (Nat × Nat) :=
  cs.map (fun c => (c.fromE.room, c.toE.room))

/-- Reachability in the undirected graph on room ids whose edges are the
given pairs (either orientation may be traversed). -/
inductive Reach (E : List (Nat × Nat)) : Nat → Nat → Prop where
  | refl (a : Nat) : Reach E a a
  | stepF {a b c : Nat} : Reach E a b → (b, c) ∈ E → Reach E a c
  | stepB {a b c : Nat} : Reach E a b → (c, b) ∈ E → Reach E a c

/-- A closed integer rectangle `[lox, hix] × [loy, hiy]` of grid cells. -/
structure IRect where
  lox : Int
  hix : Int
  loy : Int
  hiy : Int

/-- The cell rectangle of a room expanded by `m` cells on every side. -/
def roomRect (r : Room) (m : Int) : IRect :=
  ⟨r.x - m, r.x + r.width - 1 + m, r.y - m, r.y + r.height - 1 + m⟩

/-- Disjointness of two cell rectangles. -/
def IRect.disjointB (a b : IRect) : Bool :=
  a.hix < b.lox ∨ b.hix < a.lox ∨ a.hiy < b.loy ∨ b.hiy < a.loy

/-- A cell lies in a rectangle. -/
def IRect.memB (a : IRect) (cx cy : Int) : Bool :=
  a.lox ≤ cx ∧ cx ≤ a.hix ∧ a.loy ≤ cy ∧ cy ≤ a.hiy

/-- The no-overlap property exactly as the claim states it: bare
rectangles disjoint and both 1-cell-expanded rectangles disjoint. -/
def pairC2Stated (r1 r2 : Room) : Bool :=
  (roomRect r1 0).disjointB (roomRect r2 0) && (roomRect r1 1).disjointB (roomRect r2 1)

/-- A floor containing a distinct pair of rooms violating the stated
no-overlap property. -/
def floorViolatesC2 (f : Floor) : Bool :=
  f.rooms.any (fun r1 => f.rooms.any (fun r2 => r1.id ≠ r2.id && !(pairC2Stated r1 r2)))

/-- Well-formed size bounds for one room type relative to grid
dimensions: positive minimum, ordered bounds, and maxima leaving room for
the placement margin. -/
def RoomTypeWf (d : RoomTypeDef) (gw gh : Int) : Prop :=
  1 ≤ d.minSize.width ∧ (d.minSize.width : Nat) ≤ d.maxSize.width ∧ (d.maxSize.width : Int) + 2 ≤ gw ∧
  1 ≤ d.minSize.height ∧ (d.minSize.height : Nat) ≤ d.maxSize.height ∧ (d.maxSize.height : Int) + 2 ≤ gh

/-- Well-formedness of a whole registry relative to grid dimensions. -/
def RegistryWf (registry : List (String × RoomTypeDef)) (gw gh : Int) : Prop :=
  ∀ p ∈ registry, RoomTypeWf p.2 gw gh

/-! ### Concrete draws, oracles and scenarios used by witnesses and
counterexamples -/

/-- The draw 0. -/
def q0 : U01 := ⟨0, 1, by decide⟩

/-- The draw 1/2. -/
def qHalf : U01 := ⟨1, 2, by decide⟩

/-- The draw 4/5. -/
def q45 : U01 := ⟨4, 5, by decide⟩

/-- All-zero monster oracle. -/
def zMonstersO : MonstersO := ⟨q0, fun _ => q0, fun _ _ => q0⟩

/-- All-zero treasure oracle. -/
def zTreasureO : TreasureO := ⟨q0, q0, fun _ => q0⟩

/-- All-zero contents oracle. -/
def zContentsO : ContentsO := ⟨zMonstersO, zTreasureO⟩

/-- Base room oracle: first type (combat), minimum size, position draws 0
(placing at `(1,1)`), features dropped, first description. -/
def zRoomO : RoomO := ⟨q0, q0, q0, fun _ => (q0, q0), fun _ => qHalf, q0, zContentsO⟩

/-- Corridor oracle with all draws 1/2 (drops all decorative features). -/
def zCorrO : CorrO := ⟨qHalf, qHalf, fun _ => qHalf⟩

/-- Room oracles for the buffer counterexample: room 0 at `(1,1)`, room 1
at `(5,1)` (x draw 4/5 over the 10-wide small grid), both 3×3 combat
rooms, leaving exactly a one-cell gap. -/
def cexRoomO : Nat → RoomO := fun i =>
  if i = 0 then zRoomO else { zRoomO with posR := fun _ => (q45, q0) }

/-- Floor oracle for the buffer counterexample. -/
def cexFloorO : FloorO := ⟨cexRoomO, fun _ => zCorrO⟩

/-- Room oracle whose type draw 1/2 lands on the treasure type
(`0.5 * 85 = 42.5`, past combat's 40, within treasure's 55). -/
def trRoomO : RoomO := { zRoomO with typeR := qHalf }

/-- Floor oracle forcing a treasure room first. -/
def trFloorO : FloorO := ⟨fun _ => trRoomO, fun _ => zCorrO⟩

/-- All-zero floor oracle. -/
def zFloorO : FloorO := ⟨fun _ => zRoomO, fun _ => zCorrO⟩

/-- A sample monster registry entry. -/
def goblin : Monster := ⟨"m1", "Goblin", 1, "2d6+1", "A small goblin"⟩

/-- A sample item registry entry. -/
def potion : Item := ⟨"i1", "Potion", "A healing potion"⟩

/-- A list of insignificant-whitespace characters (such as the printed
indentation runs). -/
def WsList (w : List Char) : Prop := ∀ c ∈ w, isJsonWs c = true

/-- The character sequence does not begin with a decimal digit (so a
numeral read just before it cannot absorb it). -/
def numSafe (cs : List Char) : Prop := ∀ c, cs.head? = some c → c.isDigit = false

/-- The concrete dungeon of the three-floor scenario (floors 3, level 1),
used by witnesses. -/
def c9dungeon : Dungeon :=
  (generateDungeon builtinRoomTypes [] [] ⟨"d", 1, 3, 1, "generic", "small"⟩ "t"
    (fun _ => zFloorO)).getD ⟨0, "", 0, "", [], ""⟩

/-- The geometric identity of a room: id, type tag and rectangle (the
fields the connection phase never changes). -/
def roomGeom (r : Room) : Nat × String × Int × Int × Int × Int :=
  (r.id, r.type, r.x, r.y, r.width, r.height)

/-- Soundness of a candidate produced by the pair scan: the rooms exist
and their ids lie in the respective id sets. -/
def pairOK (rooms : List Room) (connected unconnected : List Nat) :
    Option (Nat × Room × Room) → Prop
  | none => True
  | some (_, bf, bt) => bf ∈ rooms ∧ bf.id ∈ connected ∧ bt ∈ rooms ∧ bt.id ∈ unconnected

/-- The connection-record bookkeeping of a floor: every corridor joins two
distinct existing rooms, the records carrying its id are exactly one
record on each endpoint room (pointing at the opposite endpoint), and
every record belongs to some corridor. -/
def corridorRecordsOK (rooms : List Room) (corridors : List Corridor) : Prop :=
  (∀ c ∈ corridors, c.fromE.room ≠ c.toE.room ∧
    (∃ r1 ∈ rooms, r1.id = c.fromE.room) ∧ (∃ r2 ∈ rooms, r2.id = c.toE.room) ∧
    ∀ r ∈ rooms, r.connections.filter (fun conn => conn.via = c.id) =
      (if r.id = c.fromE.room then [⟨c.toE.room, c.id⟩]
       else if r.id = c.toE.room then [⟨c.fromE.room, c.id⟩] else [])) ∧
  (∀ r ∈ rooms, ∀ conn ∈ r.connections, ∃ c ∈ corridors, c.id = conn.via)

/-- A cell covered by the room's rectangle. -/
def inRect (r : Room) (cx cy : Int) : Prop :=
  r.x ≤ cx ∧ cx < r.x + r.width ∧ r.y ≤ cy ∧ cy < r.y + r.height

/-- The buffer relation placement establishes: bare rectangles disjoint
and the 1-cell-expanded rectangle of the first disjoint from the bare
rectangle of the second. -/
def Buffered (r1 r2 : Room) : Prop :=
  (roomRect r1 0).disjointB (roomRect r2 0) = true ∧
  (roomRect r1 1).disjointB (roomRect r2 0) = true

/-- A room lying strictly inside the grid (with the strict bound
`canPlaceRoom` enforces). -/
def roomBoundsOK (gw gh : Int) (r : Room) : Prop :=
  0 ≤ r.x ∧ 0 ≤ r.y ∧ 1 ≤ r.width ∧ 1 ≤ r.height ∧ r.x + r.width < gw ∧ r.y + r.height < gh

/-- All path cells of a corridor lie on the grid. -/
def pathOK (gw gh : Int) (c : Corridor) : Prop :=
  ∀ p ∈ c.path, 0 ≤ p.1 ∧ p.1 < gw ∧ 0 ≤ p.2 ∧ p.2 < gh

/-- The placement-loop invariant: grid dimensions fixed, every placed room
in bounds and within its type definition bounds, marked cells are
exactly the room cells, and rooms pairwise buffered. -/
def PlacedInv (gw gh : Int) (registry : List (String × RoomTypeDef))
    (grid : Grid) (rooms : List Room) : Prop :=
  grid.width = gw ∧ grid.height = gh ∧
  (∀ r ∈ rooms, roomBoundsOK gw gh r) ∧
  (∀ r ∈ rooms, ∃ td, lookupType registry r.type = some td ∧
    (td.minSize.width : Int) ≤ r.width ∧ r.width ≤ (td.maxSize.width : Int) ∧
    (td.minSize.height : Int) ≤ r.height ∧ r.height ≤ (td.maxSize.height : Int)) ∧
  (∀ r ∈ rooms, ∀ cx cy : Int, inRect r cx cy → grid.cells cy cx = some r.id) ∧
  (∀ cx cy : Int, (grid.cells cy cx).isSome → ∃ r ∈ rooms, inRect r cx cy) ∧
  List.Pairwise (fun r1 r2 => Buffered r1 r2 ∧ Buffered r2 r1) rooms

/-! # Theorems -/

/-! ## Draw arithmetic -/

theorem jsFloorMulNat_lt (q : U01) (m : Nat) (h : 0 < m) : jsFloorMulNat q m < m := by
  show q.n * m / q.d < m
  have hd : 0 < q.d := Nat.lt_of_le_of_lt (Nat.zero_le _) q.isLt
  rw [Nat.div_lt_iff_lt_mul hd]
  exact Nat.lt_of_lt_of_le ((Nat.mul_lt_mul_right h).mpr q.isLt)
    (Nat.le_of_eq (Nat.mul_comm _ _))

theorem u01_d_pos (q : U01) : 0 < q.d :=
  Nat.lt_of_le_of_lt (Nat.zero_le _) q.isLt

theorem jsFloorMulInt_nonneg (q : U01) (m : Int) (hm : 0 ≤ m) : 0 ≤ jsFloorMulInt q m := by
  unfold jsFloorMulInt
  have : (0 : Int) ≤ q.n * m := mul_nonneg (by exact_mod_cast Nat.zero_le q.n) hm
  exact Int.fdiv_nonneg this (by exact_mod_cast Nat.zero_le q.d)

theorem jsFloorMulInt_lt (q : U01) (m : Int) (hm : 0 < m) : jsFloorMulInt q m < m := by
  unfold jsFloorMulInt
  have hd : (0 : Int) < q.d := by exact_mod_cast u01_d_pos q
  rw [Int.fdiv_eq_ediv _ (le_of_lt hd)]
  rw [Int.ediv_lt_iff_lt_mul hd]
  have hq : (q.n : Int) ≤ q.d - 1 := by
    have := q.isLt
    omega
  calc (q.n : Int) * m ≤ (q.d - 1) * m := mul_le_mul_of_nonneg_right hq (le_of_lt hm)
    _ = q.d * m - m := by ring
    _ < q.d * m := by omega
    _ = m * q.d := mul_comm _ _

theorem jsFloorMulInt_zero (q : U01) : jsFloorMulInt q 0 = 0 := by
  unfold jsFloorMulInt
  rw [mul_zero, Int.zero_fdiv]

theorem randomInRange_mem (min max : Int) (q : U01) (h : min ≤ max) :
    min ≤ randomInRange min max q ∧ randomInRange min max q ≤ max := by
  unfold randomInRange
  have h1 : 0 ≤ jsFloorMulInt q (max - min + 1) := jsFloorMulInt_nonneg q _ (by omega)
  have h2 : jsFloorMulInt q (max - min + 1) < max - min + 1 := jsFloorMulInt_lt q _ (by omega)
  omega

/-! ## C3: configuration validation -/

/-- Claim C3 counterexample: generation with an unknown size class AND a
non-positive floor count succeeds silently (no error is raised before or
during grid work), returning a dungeon with no floors, and the unknown
size class is silently substituted by the medium grid — refuting that
invalid configurations fail fast with a descriptive error. -/
theorem c3_counterexample :
    generateDungeon builtinRoomTypes [] [] ⟨"d", 1, 0, 5, "generic", "gargantuan"⟩ "t0"
      (fun _ => zFloorO) = some ⟨0, "d", 1, "generic", [], "t0"⟩ ∧
    getGridSize "gargantuan" = getGridSize "medium" :=
  ⟨rfl, rfl⟩

/-- Claim C3 amended: the generator performs no configuration validation.
An unknown size class silently falls back to the medium 15×15 grid; a
non-positive floor count yields a floorless dungeon without error; and a
positive floor count with a non-positive room count makes generation
throw inside room connection (modelled `none`) after the grid has been
created, rather than failing fast with a descriptive error. -/
theorem c3_amended (registry : List (String × RoomTypeDef)) (monsters : List Monster)
    (items : List Item) (opts : DungeonOptions) (createdAt : String) (o : Nat → FloorO) :
    (opts.size ≠ "small" → opts.size ≠ "medium" → opts.size ≠ "large" →
      opts.size ≠ "huge" → getGridSize opts.size = ⟨15, 15⟩) ∧
    (opts.floors ≤ 0 →
      generateDungeon registry monsters items opts createdAt o =
        some ⟨0, opts.name, opts.level, opts.theme, [], createdAt⟩) ∧
    (1 ≤ opts.floors → opts.roomsPerFloor ≤ 0 →
      generateDungeon registry monsters items opts createdAt o = none) := by
  refine ⟨?_, ?_, ?_⟩
  · intro h1 h2 h3 h4
    simp only [getGridSize, if_neg h1, if_neg h2, if_neg h3, if_neg h4]
  · intro hf
    unfold generateDungeon
    rw [show opts.floors.toNat = 0 by omega]
    rfl
  · intro hf hr
    unfold generateDungeon
    obtain ⟨k, hk⟩ : ∃ k, opts.floors.toNat = k + 1 := ⟨opts.floors.toNat - 1, by omega⟩
    rw [hk]
    have hfloor : ∀ c, generateFloor registry monsters items (0 + 1) opts.roomsPerFloor
        (opts.level + ((0 : Nat) : Int)) opts.theme opts.size (o 0) c = none := by
      intro c
      unfold generateFloor placeRooms
      rw [show opts.roomsPerFloor.toNat = 0 by omega]
      rfl
    unfold generateFloorsGo
    rw [hfloor]

/-- Claim C3 amended, witness instance: unknown size class defaults, a
zero floor count succeeds with no floors, and one floor with zero rooms
throws. -/
theorem c3_amended_witness :
    (("??" : String) ≠ "small" → ("??" : String) ≠ "medium" → ("??" : String) ≠ "large" →
      ("??" : String) ≠ "huge" → getGridSize "??" = ⟨15, 15⟩) ∧
    ((0 : Int) ≤ 0 →
      generateDungeon builtinRoomTypes [] [] ⟨"d", 1, 0, 5, "g", "??"⟩ "t" (fun _ => zFloorO) =
        some ⟨0, "d", 1, "g", [], "t"⟩) ∧
    ((1 : Int) ≤ 1 → (0 : Int) ≤ 0 →
      generateDungeon builtinRoomTypes [] [] ⟨"d", 1, 1, 0, "g", "small"⟩ "t" (fun _ => zFloorO) =
        none) := by
  have h := c3_amended builtinRoomTypes [] [] ⟨"d", 1, 0, 5, "g", "??"⟩ "t" (fun _ => zFloorO)
  have h2 := c3_amended builtinRoomTypes [] [] ⟨"d", 1, 1, 0, "g", "small"⟩ "t" (fun _ => zFloorO)
  exact ⟨fun a b c d => h.1 a b c d, fun hf => h.2.1 hf, fun hf hr => h2.2.2 hf hr⟩

/-! ## C9: difficulty monotonicity -/

/-- The level and shape of the floor returned by one `generateFloor`
call. -/
theorem generateFloor_level (registry : List (String × RoomTypeDef)) (monsters : List Monster)
    (items : List Item) (floorNumber : Nat) (roomsCount : Int) (level : Int)
    (theme size : String) (o : FloorO) (counter : Nat) (f : Floor) (c2 : Nat)
    (h : generateFloor registry monsters items floorNumber roomsCount level theme size o counter =
      some (f, c2)) : f.level = level ∧ f.floorNumber = floorNumber := by
  simp only [generateFloor] at h
  cases hp : placeRooms registry monsters items
      (createGrid (getGridSize size).width (getGridSize size).height) roomsCount level
      o.roomO (counter + 1) with
  | none => rw [hp] at h; exact absurd h (by simp)
  | some pr =>
    rw [hp] at h
    obtain ⟨placed, grid2, counter2⟩ := pr
    dsimp only at h
    cases hc : connectRooms o.corrO placed counter2 with
    | none => rw [hc] at h; exact absurd h (by simp)
    | some cr =>
      rw [hc] at h
      obtain ⟨rooms2, corridors, counter3⟩ := cr
      dsimp only at h
      simp only [setEntrancesAndExits] at h
      cases hh : rooms2.head? with
      | none => rw [hh] at h; exact absurd h (by simp)
      | some first =>
        cases hl : rooms2.getLast? with
        | none => rw [hh, hl] at h; exact absurd h (by simp)
        | some last =>
          rw [hh, hl] at h
          simp only [Option.some.injEq, Prod.mk.injEq] at h
          obtain ⟨hf, _⟩ := h
          subst hf
          exact ⟨rfl, rfl⟩

/-- The floor loop: levels increase by one per floor index. -/
theorem generateFloorsGo_levels (registry : List (String × RoomTypeDef))
    (monsters : List Monster) (items : List Item) (opts : DungeonOptions)
    (o : Nat → FloorO) :
    ∀ rem i counter acc floors c2,
      generateFloorsGo registry monsters items opts o i rem counter acc = some (floors, c2) →
      floors.map (fun f => f.level) =
        acc.map (fun f => f.level) ++ (List.range rem).map (fun j => opts.level + (i + j : Nat)) := by
  intro rem
  induction rem with
  | zero =>
    intro i counter acc floors c2 h
    simp only [generateFloorsGo, Option.some.injEq, Prod.mk.injEq] at h
    obtain ⟨h1, _⟩ := h
    subst h1
    simp
  | succ rem ih =>
    intro i counter acc floors c2 h
    simp only [generateFloorsGo] at h
    cases hf : generateFloor registry monsters items (i + 1) opts.roomsPerFloor
        (opts.level + i) opts.theme opts.size (o i) counter with
    | none => rw [hf] at h; exact absurd h (by simp)
    | some fc =>
      rw [hf] at h
      obtain ⟨floor, counter2⟩ := fc
      have hlev := (generateFloor_level _ _ _ _ _ _ _ _ _ _ _ _ hf).1
      dsimp only at h
      have := ih (i + 1) counter2 (acc ++ [floor]) floors c2 h
      rw [this]
      rw [List.map_append, List.append_assoc]
      congr 1
      rw [List.range_succ_eq_map, List.map_cons, List.map_nil, List.map_cons,
        List.map_map, List.singleton_append]
      -- the head cells agree by hlev (closed by congr via assumption);
      -- the tails agree elementwise
      congr 1
      all_goals apply List.map_congr_left
      all_goals intro a _
      all_goals simp only [Function.comp_apply]
      all_goals congr 1
      all_goals omega

/-- Claim C9: for a dungeon generated with base level `L` and `F` floors,
the floor at 0-indexed position `i` has effective level `L + i`; the
floor list has one entry per requested floor, so generating with
`floors = 3, level = 1` yields levels `1, 2, 3` in order. -/
theorem c9_difficulty_monotonicity (registry : List (String × RoomTypeDef))
    (monsters : List Monster) (items : List Item) (opts : DungeonOptions)
    (createdAt : String) (o : Nat → FloorO) (d : Dungeon)
    (h : generateDungeon registry monsters items opts createdAt o = some d) :
    d.floors.map (fun f => f.level) =
      (List.range opts.floors.toNat).map (fun i => opts.level + (i : Nat)) := by
  unfold generateDungeon at h
  cases hg : generateFloorsGo registry monsters items opts o 0 opts.floors.toNat 1 [] with
  | none => rw [hg] at h; exact absurd h (by simp)
  | some fc =>
    rw [hg] at h
    obtain ⟨floors, c2⟩ := fc
    simp only [Option.some.injEq] at h
    subst h
    have := generateFloorsGo_levels registry monsters items opts o opts.floors.toNat 0 1 []
      floors c2 hg
    simpa using this

set_option maxHeartbeats 1000000 in
/-- Claim C9 witness: a concrete three-floor generation at base level 1
whose floor levels are `1, 2, 3`. -/
theorem c9_witness :
    generateDungeon builtinRoomTypes [] [] ⟨"d", 1, 3, 1, "generic", "small"⟩ "t"
      (fun _ => zFloorO) = some c9dungeon ∧
    c9dungeon.floors.map (fun f => f.level) =
      (List.range (3 : Int).toNat).map (fun i => 1 + (i : Nat)) :=
  ⟨by decide, c9_difficulty_monotonicity builtinRoomTypes [] [] ⟨"d", 1, 3, 1, "generic", "small"⟩
    "t" (fun _ => zFloorO) c9dungeon (by decide)⟩

/-! ## C5: registry lookup misses -/

theorem monstersGo_nil (o : MonstersO) : ∀ rem i, monstersGo [] o i rem = [] := by
  intro rem
  induction rem with
  | zero => intro i; rfl
  | succ rem ih =>
    intro i
    simp only [monstersGo, List.length_nil, lt_irrefl, dite_false, List.nil_append]
    exact ih (i + 1)

theorem treasureGo_some (items : List Item) (o : TreasureO) (h : items ≠ []) :
    ∀ rem i, ∃ l, treasureGo items o i rem = some l ∧ l.length = rem := by
  intro rem
  induction rem with
  | zero => intro i; exact ⟨[], rfl, rfl⟩
  | succ rem ih =>
    intro i
    obtain ⟨l, hl, hlen⟩ := ih (i + 1)
    have hpos : 0 < items.length := List.length_pos.mpr h
    refine ⟨⟨(pickUniform items (o.itemR i) hpos).id, (pickUniform items (o.itemR i) hpos).name,
      (pickUniform items (o.itemR i) hpos).description⟩ :: l, ?_, by simp [hlen]⟩
    simp only [treasureGo, hpos, dite_true, hl]
    rfl

/-- Claim C5 counterexample: for a treasure room generated against an
empty item catalog, the lookup miss is NOT resolved locally — the JS code
indexes the empty catalog, reads a property of `undefined` and throws, so
the error propagates: `generateTreasure` fails, `generateRoomContents`
fails, and a whole `generateFloor` call that draws a treasure room
produces no floor at all. -/
theorem c5_counterexample :
    generateTreasure 1 [] zTreasureO = none ∧
    generateRoomContents "treasure" 1 [] [] zContentsO = none ∧
    generateFloor builtinRoomTypes [] [] 1 1 1 "generic" "small" trFloorO 0 = none :=
  ⟨rfl, rfl, rfl⟩

/-- Claim C5 amended: a combat room whose filtered monster pool is empty
receives an empty content list with no error, as claimed; but for
treasure rooms the code assumes a nonempty item catalog — with a nonempty
catalog it draws 1–3 items, while an empty catalog makes content
generation throw (see the counterexample). -/
theorem c5_amended (monsters : List Monster) (items : List Item) (level : Int)
    (o : ContentsO) :
    ((monsters.filter (fun m => m.cr ≤ level)) = [] →
      generateRoomContents "combat" level monsters items o = some []) ∧
    (items ≠ [] → ∃ gold its,
      generateRoomContents "treasure" level monsters items o =
        some [Content.treasure gold its] ∧ 1 ≤ its.length ∧ its.length ≤ 3) := by
  constructor
  · intro hf
    simp only [generateRoomContents, if_true, generateMonstersForRoom, hf, Option.some.injEq]
    exact monstersGo_nil o.mo _ 0
  · intro hne
    obtain ⟨l, hl, hlen⟩ := treasureGo_some items o.tr hne (jsFloorMulNat o.tr.numR 3 + 1) 0
    refine ⟨jsFloorMulInt o.tr.goldR (level * 100) + 50, l, ?_, ?_, ?_⟩
    · simp only [generateRoomContents, generateTreasure, hl, if_true]
      rfl
    · omega
    · have := jsFloorMulNat_lt o.tr.numR 3 (by omega)
      omega

/-- Claim C5 amended, witness: a nonempty monster registry whose filter
at level 0 is empty yields an empty combat content list, and a one-item
catalog yields a treasure with 1–3 items. -/
theorem c5_witness :
    (([goblin].filter (fun m => m.cr ≤ 0)) = [] ∧
      generateRoomContents "combat" 0 [goblin] [potion] zContentsO = some []) ∧
    (([potion] : List Item) ≠ [] ∧ ∃ gold its,
      generateRoomContents "treasure" 0 [goblin] [potion] zContentsO =
        some [Content.treasure gold its] ∧ 1 ≤ its.length ∧ its.length ≤ 3) :=
  ⟨⟨by decide, (c5_amended [goblin] [potion] 0 zContentsO).1 (by decide)⟩,
   ⟨by decide, (c5_amended [goblin] [potion] 0 zContentsO).2 (by decide)⟩⟩

/-! ## C2: the no-overlap claim as stated -/

/-- Claim C2 counterexample: a generated small floor whose two rooms sit
at `(1,1)` and `(5,1)` (both 3×3).  Their bare rectangles are disjoint
with a one-cell gap — which is all `canPlaceRoom` enforces — but their
1-cell-expanded rectangles share the column `x = 4`, so the claim that
both expanded rectangles never intersect is false of generated floors. -/
theorem c2_counterexample :
    (generateFloor builtinRoomTypes [] [] 1 2 1 "generic" "small" cexFloorO 0).map
      (fun p => floorViolatesC2 p.1) = some true := by decide

/-! ## JSON reader/printer round trip -/

theorem stringMk_data (s : String) : String.mk s.data = s := rfl

theorem wsList_append {w1 w2 : List Char} (h1 : WsList w1) (h2 : WsList w2) :
    WsList (w1 ++ w2) := by
  intro c hc
  rcases List.mem_append.mp hc with h | h
  · exact h1 c h
  · exact h2 c h

theorem wsList_gap : WsList jsonGap := by intro c hc; fin_cases hc <;> rfl

theorem wsList_nil : WsList [] := by intro c hc; cases hc

theorem wsList_cons {c : Char} {w : List Char} (hc : isJsonWs c = true) (hw : WsList w) :
    WsList (c :: w) := by
  intro x hx
  rcases List.mem_cons.mp hx with h | h
  · subst h; exact hc
  · exact hw x h

theorem skipWs_ws_append {w : List Char} (cs : List Char) (h : WsList w) :
    skipWs (w ++ cs) = skipWs cs := by
  induction w with
  | nil => rfl
  | cons c w ih =>
    simp only [List.cons_append, skipWs, h c (List.mem_cons_self c w), if_true]
    exact ih (fun x hx => h x (List.mem_cons_of_mem c hx))

theorem skipWs_not_ws {c : Char} (cs : List Char) (h : isJsonWs c = false) :
    skipWs (c :: cs) = c :: cs := by
  simp only [skipWs, h]
  exact if_neg (by simp)

theorem digit_not_ws {c : Char} (h : c.isDigit = true) : isJsonWs c = false := by
  by_contra hne
  have hws : isJsonWs c = true := by
    cases hx : isJsonWs c
    · exact absurd hx hne
    · rfl
  unfold isJsonWs at hws
  have := of_decide_eq_true hws
  rcases this with rfl | rfl | rfl | rfl <;> simp at h

theorem digitChar_isDigit {n : Nat} (h : n < 10) : (digitChar n).isDigit = true := by
  interval_cases n <;> decide

theorem digitChar_toNat {n : Nat} (h : n < 10) : (digitChar n).toNat = 48 + n := by
  interval_cases n <;> decide

theorem digitsVal_append_one (l : List Char) (c : Char) :
    digitsVal (l ++ [c]) = digitsVal l * 10 + (c.toNat - 48) := by
  unfold digitsVal
  rw [List.foldl_append]
  rfl

theorem natDigitsGo_spec :
    ∀ fuel n, n < fuel →
      natDigitsGo fuel n ≠ [] ∧ (∀ c ∈ natDigitsGo fuel n, c.isDigit = true) ∧
      digitsVal (natDigitsGo fuel n) = n := by
  intro fuel
  induction fuel with
  | zero => intro n h; omega
  | succ fuel ih =>
    intro n h
    by_cases h10 : n < 10
    · simp only [natDigitsGo, h10, if_true]
      refine ⟨by simp, ?_, ?_⟩
      · intro c hc
        rcases List.mem_singleton.mp hc with rfl
        exact digitChar_isDigit h10
      · show digitsVal [digitChar n] = n
        unfold digitsVal
        simp only [List.foldl_cons, List.foldl_nil]
        rw [show (0 : Nat) * 10 + ((digitChar n).toNat - 48) = (digitChar n).toNat - 48 by omega]
        rw [digitChar_toNat h10]
        omega
    · have hdiv : n / 10 < fuel := by
        have := Nat.div_lt_self (by omega : 0 < n) (by omega : 1 < 10)
        omega
      obtain ⟨hne, hdig, hval⟩ := ih (n / 10) hdiv
      simp only [natDigitsGo, h10, if_false]
      refine ⟨by simp [hne], ?_, ?_⟩
      · intro c hc
        rcases List.mem_append.mp hc with hm | hm
        · exact hdig c hm
        · rcases List.mem_singleton.mp hm with rfl
          exact digitChar_isDigit (Nat.mod_lt n (by omega))
      · rw [digitsVal_append_one, hval, digitChar_toNat (Nat.mod_lt n (by omega))]
        omega

theorem natDigits_spec (n : Nat) :
    natDigits n ≠ [] ∧ (∀ c ∈ natDigits n, c.isDigit = true) ∧ digitsVal (natDigits n) = n :=
  natDigitsGo_spec (n + 1) n (by omega)

theorem takeWhile_all_append {p : Char → Bool} (l r : List Char)
    (hl : ∀ c ∈ l, p c = true) (hr : ∀ c, r.head? = some c → p c = false) :
    (l ++ r).takeWhile p = l ∧ (l ++ r).dropWhile p = r := by
  induction l with
  | nil =>
    simp only [List.nil_append]
    cases r with
    | nil => exact ⟨rfl, rfl⟩
    | cons c r' =>
      have := hr c rfl
      constructor
      · rw [List.takeWhile_cons, this]
        simp
      · rw [List.dropWhile_cons, this]
        simp
  | cons c l' ih =>
    have hc : p c = true := hl c (List.mem_cons_self c l')
    obtain ⟨ht, hd⟩ := ih (fun x hx => hl x (List.mem_cons_of_mem c hx))
    constructor
    · rw [List.cons_append, List.takeWhile_cons, hc]
      simp only [if_true, ht]
    · rw [List.cons_append, List.dropWhile_cons, hc]
      simp only [if_true, hd]

theorem parseNatNum_digits (n : Nat) (rest : List Char) (hrest : numSafe rest) :
    parseNatNum (natDigits n ++ rest) = some (n, rest) := by
  obtain ⟨hne, hdig, hval⟩ := natDigits_spec n
  obtain ⟨ht, _⟩ := takeWhile_all_append (natDigits n) rest hdig hrest
  unfold parseNatNum
  rw [ht, if_neg (by simp [hne]), hval, List.drop_left]

theorem hexVal_hexDigitChar {m : Nat} (h : m < 16) : hexVal (hexDigitChar m) = some m := by
  interval_cases m <;> decide

theorem escapeChar_length_pos (c : Char) : 1 ≤ (escapeChar c).length := by
  unfold escapeChar
  split_ifs <;> simp

theorem escString_length_ge : ∀ cs : List Char, cs.length ≤ (escString cs).length := by
  intro cs
  induction cs with
  | nil => simp [escString]
  | cons c cs ih =>
    show (c :: cs).length ≤ (escapeChar c ++ escString cs).length
    rw [List.length_append, List.length_cons]
    have := escapeChar_length_pos c
    omega

theorem parseStringBody_print :
    ∀ (cs : List Char) (fuel : Nat) (rest : List Char), cs.length < fuel →
      parseStringBody fuel (escString cs ++ ('"' :: rest)) = some (cs, rest) := by
  intro cs
  induction cs with
  | nil =>
    intro fuel rest hf
    obtain ⟨f, rfl⟩ : ∃ g, fuel = g + 1 := ⟨fuel - 1, by omega⟩
    rfl
  | cons c cs ih =>
    intro fuel rest hf
    obtain ⟨f, rfl⟩ : ∃ g, fuel = g + 1 := ⟨fuel - 1, by omega⟩
    have hlen : cs.length < f := by
      have : (c :: cs).length = cs.length + 1 := rfl
      omega
    show parseStringBody (f + 1) ((escapeChar c ++ escString cs) ++ ('"' :: rest)) = _
    rw [List.append_assoc]
    have step : parseStringBody (f + 1) (escapeChar c ++ (escString cs ++ ('"' :: rest))) =
        (parseStringBody f (escString cs ++ ('"' :: rest))).map (fun p => (c :: p.1, p.2)) := by
      by_cases h1 : c = '"'
      · subst h1; rfl
      by_cases h2 : c = '\\'
      · subst h2; rfl
      by_cases h3 : c = '\x08'
      · subst h3; rfl
      by_cases h4 : c = '\x0c'
      · subst h4; rfl
      by_cases h5 : c = '\n'
      · subst h5; rfl
      by_cases h6 : c = '\r'
      · subst h6; rfl
      by_cases h7 : c = '\t'
      · subst h7; rfl
      by_cases h8 : c.toNat < 32
      · -- the \u00XX escape: decode the four hex digits back to the char
        have hesc : escapeChar c = '\\' :: 'u' :: hex4 c.toNat := by
          unfold escapeChar
          rw [if_neg h1, if_neg h2, if_neg h3, if_neg h4, if_neg h5, if_neg h6, if_neg h7,
            if_pos h8]
        rw [hesc]
        show parseStringBody (f + 1)
          ('\\' :: 'u' :: hexDigitChar (c.toNat / 4096 % 16) :: hexDigitChar (c.toNat / 256 % 16) ::
            hexDigitChar (c.toNat / 16 % 16) :: hexDigitChar (c.toNat % 16) ::
            (escString cs ++ ('"' :: rest))) = _
        simp only [parseStringBody, reduceIte,
          hexVal_hexDigitChar (Nat.mod_lt _ (by omega : (0:Nat) < 16))]
        have hcode : ∀ m : Nat, m < 32 →
            ((m / 4096 % 16 * 16 + m / 256 % 16) * 16 + m / 16 % 16) * 16 + m % 16 = m :=
          fun m hm => by omega
        rw [hcode c.toNat h8, if_pos (by omega : c.toNat < 55296), Char.ofNat_toNat]
        rw [if_neg (by decide : ¬('\\' : Char) = '"')]
      · -- plain character
        have hesc : escapeChar c = [c] := by
          unfold escapeChar
          rw [if_neg h1, if_neg h2, if_neg h3, if_neg h4, if_neg h5, if_neg h6, if_neg h7,
            if_neg h8]
        rw [hesc]
        show parseStringBody (f + 1) (c :: (escString cs ++ ('"' :: rest))) = _
        simp only [parseStringBody]
        rw [if_neg h1, if_neg h2, if_neg h8]
    rw [step, ih f rest hlen]
    rfl

theorem parseNumber_intDigits (n : Int) (rest : List Char) (hrest : numSafe rest) :
    parseNumber (intDigits n ++ rest) = some (n, rest) := by
  by_cases hneg : n < 0
  · have : intDigits n = '-' :: natDigits (-n).toNat := by
      unfold intDigits
      rw [if_pos hneg]
    rw [this]
    have hstep : parseNumber ('-' :: (natDigits (-n).toNat ++ rest)) =
        (parseNatNum (natDigits (-n).toNat ++ rest)).map (fun p => (-(p.1 : Int), p.2)) := rfl
    show parseNumber ('-' :: (natDigits (-n).toNat ++ rest)) = _
    rw [hstep, parseNatNum_digits _ rest hrest]
    simp only [Option.map_some']
    congr 2
    have h0 : (0 : Int) ≤ -n := by omega
    rw [Int.toNat_of_nonneg h0]
    omega
  · have : intDigits n = natDigits n.toNat := by
      unfold intDigits
      rw [if_neg hneg]
    rw [this]
    obtain ⟨hne, hdig, _⟩ := natDigits_spec n.toNat
    cases hE : natDigits n.toNat with
    | nil => exact absurd hE hne
    | cons d ds =>
      have hd : d.isDigit = true := by
        rw [hE] at hdig
        exact hdig d (List.mem_cons_self d ds)
      show parseNumber (d :: (ds ++ rest)) = _
      unfold parseNumber
      split
      next c2 rest2 heq =>
        injection heq with hq1 hq2
        subst hq1
        subst hq2
        rw [if_neg (by intro hh; subst hh; exact absurd hd (by decide))]
        rw [show d :: (ds ++ rest) = (d :: ds) ++ rest from rfl, ← hE,
          parseNatNum_digits _ rest hrest]
        simp only [Option.map_some', Option.some.injEq, Prod.mk.injEq]
        exact ⟨by omega, trivial⟩
      next heq => cases heq

theorem parseVal_digit_head (f : Nat) (c : Char) (cs : List Char) (h : c.isDigit = true) :
    parseVal (f + 1) (c :: cs) =
      (parseNumber (c :: cs)).map (fun p => (JsValue.num p.1, p.2)) := by
  have hne : ∀ x : Char, x.isDigit = false → ¬c = x := by
    intro x hx hcx
    subst hcx
    rw [h] at hx
    cases hx
  simp only [parseVal]
  rw [skipWs_not_ws _ (digit_not_ws h)]
  split
  next heq => cases heq
  next c2 rest2 heq =>
    injection heq with hq1 hq2
    subst hq1
    subst hq2
    rw [if_neg (hne _ (by decide)), if_neg (hne _ (by decide)), if_neg (hne _ (by decide)),
      if_neg (hne _ (by decide)), if_neg (hne _ (by decide)), if_neg (hne _ (by decide))]

theorem parseVal_ws_append (f : Nat) {w : List Char} (cs : List Char) (h : WsList w) :
    parseVal f (w ++ cs) = parseVal f cs := by
  cases f with
  | zero => rfl
  | succ f =>
    simp only [parseVal]
    rw [skipWs_ws_append cs h]

theorem parseElems_ws_append (f : Nat) {w : List Char} (cs : List Char) (h : WsList w) :
    parseElems f (w ++ cs) = parseElems f cs := by
  cases f with
  | zero => rfl
  | succ f =>
    simp only [parseElems]
    rw [parseVal_ws_append f cs h]

theorem parseMembers_ws_append (f : Nat) {w : List Char} (cs : List Char) (h : WsList w) :
    parseMembers f (w ++ cs) = parseMembers f cs := by
  cases f with
  | zero => rfl
  | succ f =>
    simp only [parseMembers]
    rw [skipWs_ws_append cs h]

theorem printVal_head (ind : List Char) (v : JsValue) :
    ∃ c cs, printVal ind v = c :: cs ∧ isJsonWs c = false ∧ c ≠ ']' ∧ c ≠ '\x7d' := by
  cases v with
  | str s => refine ⟨'"', _, rfl, ?_, ?_, ?_⟩ <;> decide
  | num n =>
    by_cases hneg : n < 0
    · refine ⟨'-', natDigits (-n).toNat, ?_, ?ha, ?hb, ?hc⟩
      case ha => decide
      case hb => decide
      case hc => decide
      show intDigits n = _
      unfold intDigits
      rw [if_pos hneg]
    · obtain ⟨hne, hdig, _⟩ := natDigits_spec n.toNat
      cases hE : natDigits n.toNat with
      | nil => exact absurd hE hne
      | cons d ds =>
        have hd : d.isDigit = true := by
          rw [hE] at hdig
          exact hdig d (List.mem_cons_self d ds)
        refine ⟨d, ds, ?_, digit_not_ws hd, ?_, ?_⟩
        · show intDigits n = _
          unfold intDigits
          rw [if_neg hneg, hE]
        · intro hh; subst hh; exact absurd hd (by decide)
        · intro hh; subst hh; exact absurd hd (by decide)
  | bool b =>
    cases b with
    | true => refine ⟨'t', _, rfl, ?_, ?_, ?_⟩ <;> decide
    | false => refine ⟨'f', _, rfl, ?_, ?_, ?_⟩ <;> decide
  | null => refine ⟨'n', _, rfl, ?_, ?_, ?_⟩ <;> decide
  | arr vs =>
    cases vs with
    | nil => refine ⟨'[', _, rfl, ?_, ?_, ?_⟩ <;> decide
    | cons v vs => refine ⟨'[', _, rfl, ?_, ?_, ?_⟩ <;> decide
  | obj ms =>
    cases ms with
    | nil => refine ⟨'\x7b', _, rfl, ?_, ?_, ?_⟩ <;> decide
    | cons m ms =>
      obtain ⟨k, v⟩ := m
      refine ⟨'\x7b', _, rfl, ?_, ?_, ?_⟩ <;> decide

mutual
theorem jsonSize_le_printVal : ∀ (v : JsValue) (ind : List Char),
    jsonSize v ≤ (printVal ind v).length
  | .str s, ind => by
    show 1 ≤ ('"' :: (escString s.data ++ ['"'])).length
    simp
  | .num n, ind => by
    show 1 ≤ (intDigits n).length
    unfold intDigits
    split
    · simp
    · obtain ⟨hne, _, _⟩ := natDigits_spec n.toNat
      cases hE : natDigits n.toNat with
      | nil => exact absurd hE hne
      | cons d ds => simp [hE]
  | .bool b, ind => by cases b <;> simp [printVal, jsonSize]
  | .null, ind => by simp [printVal, jsonSize]
  | .arr [], ind => by simp [printVal, jsonSize, sizeElems]
  | .arr (v :: vs), ind => by
    have h1 := jsonSize_le_printVal v (ind ++ jsonGap)
    have h2 := sizeElems_le_printElems vs (ind ++ jsonGap)
    show 1 + (jsonSize v + 1 + sizeElems vs) ≤
      ('[' :: '\n' :: ((ind ++ jsonGap) ++ (printVal (ind ++ jsonGap) v ++
        (printElems (ind ++ jsonGap) vs ++ ('\n' :: (ind ++ [']'])))))).length
    simp only [List.length_cons, List.length_append]
    omega
  | .obj [], ind => by simp [printVal, jsonSize, sizeMembers]
  | .obj ((k, v) :: ms), ind => by
    have h1 := jsonSize_le_printVal v (ind ++ jsonGap)
    have h2 := sizeMembers_le_printMembers ms (ind ++ jsonGap)
    show 1 + (jsonSize v + 1 + sizeMembers ms) ≤
      ('\x7b' :: '\n' :: ((ind ++ jsonGap) ++ (quoteString k ++ (':' :: ' ' ::
        (printVal (ind ++ jsonGap) v ++
          (printMembers (ind ++ jsonGap) ms ++ ('\n' :: (ind ++ ['\x7d'])))))))).length
    simp only [List.length_cons, List.length_append]
    omega
theorem sizeElems_le_printElems : ∀ (vs : List JsValue) (ind : List Char),
    sizeElems vs ≤ (printElems ind vs).length
  | [], ind => by simp [printElems, sizeElems]
  | v :: vs, ind => by
    have h1 := jsonSize_le_printVal v ind
    have h2 := sizeElems_le_printElems vs ind
    show jsonSize v + 1 + sizeElems vs ≤
      (',' :: '\n' :: (ind ++ (printVal ind v ++ printElems ind vs))).length
    simp only [List.length_cons, List.length_append]
    omega
theorem sizeMembers_le_printMembers : ∀ (ms : List (String × JsValue)) (ind : List Char),
    sizeMembers ms ≤ (printMembers ind ms).length
  | [], ind => by simp [printMembers, sizeMembers]
  | (k, v) :: ms, ind => by
    have h1 := jsonSize_le_printVal v ind
    have h2 := sizeMembers_le_printMembers ms ind
    show jsonSize v + 1 + sizeMembers ms ≤
      (',' :: '\n' :: (ind ++ (quoteString k ++ (':' :: ' ' ::
        (printVal ind v ++ printMembers ind ms))))).length
    simp only [List.length_cons, List.length_append]
    omega
end

theorem ws_not_digit {c : Char} (h : isJsonWs c = true) : c.isDigit = false := by
  unfold isJsonWs at h
  rcases of_decide_eq_true h with rfl | rfl | rfl | rfl <;> decide

theorem numSafe_cons {c : Char} (x : List Char) (h : c.isDigit = false) :
    numSafe (c :: x) := by
  intro d hd
  simp only [List.head?_cons, Option.some.injEq] at hd
  subst hd
  exact h

theorem parseVal_succ_lbracket (f : Nat) (cs : List Char) :
    parseVal (f + 1) ('[' :: cs) =
      (match skipWs cs with
       | ']' :: r2 => some (JsValue.arr [], r2)
       | cs2 => (parseElems f cs2).map (fun p => (JsValue.arr p.1, p.2))) := rfl

theorem parseVal_succ_lbrace (f : Nat) (cs : List Char) :
    parseVal (f + 1) ('\x7b' :: cs) =
      (match skipWs cs with
       | '\x7d' :: r2 => some (JsValue.obj [], r2)
       | cs2 => (parseMembers f cs2).map (fun p => (JsValue.obj p.1, p.2))) := rfl

theorem arrMatch_default (f : Nat) {c : Char} (Y : List Char) (h : c ≠ ']') :
    (match c :: Y with
     | ']' :: r2 => some (JsValue.arr [], r2)
     | cs2 => (parseElems f cs2).map (fun p => (JsValue.arr p.1, p.2))) =
      (parseElems f (c :: Y)).map (fun p => (JsValue.arr p.1, p.2)) := by
  split
  next heq =>
    injection heq with h1 _
    exact absurd h1 h
  next => rfl

theorem objMatch_default (f : Nat) {c : Char} (Y : List Char) (h : c ≠ '\x7d') :
    (match c :: Y with
     | '\x7d' :: r2 => some (JsValue.obj [], r2)
     | cs2 => (parseMembers f cs2).map (fun p => (JsValue.obj p.1, p.2))) =
      (parseMembers f (c :: Y)).map (fun p => (JsValue.obj p.1, p.2)) := by
  split
  next heq =>
    injection heq with h1 _
    exact absurd h1 h
  next => rfl

theorem parseElems_succ_of_parseVal {f : Nat} {cs r : List Char} {v : JsValue}
    (h : parseVal f cs = some (v, r)) :
    parseElems (f + 1) cs =
      (match skipWs r with
       | ',' :: r2 => (parseElems f r2).map (fun p => (v :: p.1, p.2))
       | ']' :: r2 => some ([v], r2)
       | _ => none) := by
  simp only [parseElems, h]

theorem elemsMatch_comma (f : Nat) (r2 : List Char) (v : JsValue) :
    (match (',' :: r2 : List Char) with
     | ',' :: r2 => (parseElems f r2).map (fun p => (v :: p.1, p.2))
     | ']' :: r2 => some ([v], r2)
     | _ => none) = (parseElems f r2).map (fun p => (v :: p.1, p.2)) := rfl

theorem elemsMatch_rbracket (f : Nat) (r2 : List Char) (v : JsValue) :
    (match (']' :: r2 : List Char) with
     | ',' :: r2 => (parseElems f r2).map (fun p => (v :: p.1, p.2))
     | ']' :: r2 => some ([v], r2)
     | _ => none) = some ([v], r2) := rfl

theorem jsonSize_pos (v : JsValue) : 1 ≤ jsonSize v := by
  cases v <;> simp only [jsonSize] <;> omega

theorem wsList_nl : WsList ['\n'] := by
  intro c hc
  fin_cases hc
  rfl

theorem wsList_sp : WsList [' '] := by
  intro c hc
  fin_cases hc
  rfl

theorem skipWs_cons_ws (c : Char) (cs : List Char) (h : isJsonWs c = true) :
    skipWs (c :: cs) = skipWs cs := by
  simp only [skipWs, h, if_true]

theorem parseVal_ws_cons (f : Nat) (c : Char) (cs : List Char) (h : isJsonWs c = true) :
    parseVal f (c :: cs) = parseVal f cs := by
  have h2 := parseVal_ws_append f cs (show WsList [c] by
    intro x hx
    rcases List.mem_singleton.mp hx with rfl
    exact h)
  exact h2

theorem parseElems_ws_cons (f : Nat) (c : Char) (cs : List Char) (h : isJsonWs c = true) :
    parseElems f (c :: cs) = parseElems f cs := by
  have h2 := parseElems_ws_append f cs (show WsList [c] by
    intro x hx
    rcases List.mem_singleton.mp hx with rfl
    exact h)
  exact h2

theorem parseMembers_ws_cons (f : Nat) (c : Char) (cs : List Char) (h : isJsonWs c = true) :
    parseMembers f (c :: cs) = parseMembers f cs := by
  have h2 := parseMembers_ws_append f cs (show WsList [c] by
    intro x hx
    rcases List.mem_singleton.mp hx with rfl
    exact h)
  exact h2

theorem parseMembers_succ (f : Nat) (r r3 r4 : List Char) (kd : List Char) (v : JsValue)
    (hstr : parseStringBody (r.length + 1) r = some (kd, ':' :: r3))
    (hval : parseVal f r3 = some (v, r4)) :
    parseMembers (f + 1) ('"' :: r) =
      (match skipWs r4 with
       | ',' :: r5 => (parseMembers f r5).map (fun p => ((String.mk kd, v) :: p.1, p.2))
       | '\x7d' :: r5 => some ([(String.mk kd, v)], r5)
       | _ => none) := by
  have h0 : parseMembers (f + 1) ('"' :: r) =
      (match parseStringBody (r.length + 1) r with
       | none => none
       | some (k, r2) =>
         match skipWs r2 with
         | ':' :: r3x =>
           match parseVal f r3x with
           | none => none
           | some (v2, r4x) =>
             match skipWs r4x with
             | ',' :: r5 => (parseMembers f r5).map (fun p => ((String.mk k, v2) :: p.1, p.2))
             | '\x7d' :: r5 => some ([(String.mk k, v2)], r5)
             | _ => none
         | _ => none) := rfl
  rw [h0, hstr]
  show (match parseVal f r3 with
        | none => none
        | some (v2, r4x) =>
          match skipWs r4x with
          | ',' :: r5 =>
            (parseMembers f r5).map
              (fun p : List (String × JsValue) × List Char => ((String.mk kd, v2) :: p.1, p.2))
          | '\x7d' :: r5 => some ([(String.mk kd, v2)], r5)
          | _ => none) =
      (match skipWs r4 with
       | ',' :: r5 =>
         (parseMembers f r5).map
           (fun p : List (String × JsValue) × List Char => ((String.mk kd, v) :: p.1, p.2))
       | '\x7d' :: r5 => some ([(String.mk kd, v)], r5)
       | _ => none)
  rw [hval]

theorem membersMatch_comma (f : Nat) (r5 : List Char) (k : String) (v : JsValue) :
    (match (',' :: r5 : List Char) with
     | ',' :: r5 => (parseMembers f r5).map (fun p => ((k, v) :: p.1, p.2))
     | '\x7d' :: r5 => some ([(k, v)], r5)
     | _ => none) = (parseMembers f r5).map (fun p => ((k, v) :: p.1, p.2)) := rfl

theorem membersMatch_rbrace (f : Nat) (r5 : List Char) (k : String) (v : JsValue) :
    (match ('\x7d' :: r5 : List Char) with
     | ',' :: r5 => (parseMembers f r5).map (fun p => ((k, v) :: p.1, p.2))
     | '\x7d' :: r5 => some ([(k, v)], r5)
     | _ => none) = some ([(k, v)], r5) := rfl

mutual
theorem parseVal_print : ∀ (v : JsValue) (fuel : Nat) (ind rest : List Char),
    jsonSize v ≤ fuel → WsList ind → numSafe rest →
    parseVal fuel (printVal ind v ++ rest) = some (v, rest)
  | .str s, fuel, ind, rest, hsz, hind, hrest => by
    obtain ⟨f, rfl⟩ : ∃ g, fuel = g + 1 := ⟨fuel - 1, by
      have h1 : jsonSize (.str s) = 1 := rfl
      omega⟩
    show parseVal (f + 1) (('"' :: (escString s.data ++ ['"'])) ++ rest) = _
    rw [List.cons_append, List.append_assoc, List.singleton_append]
    have hb : parseVal (f + 1) ('"' :: (escString s.data ++ ('"' :: rest))) =
        (parseStringBody ((escString s.data ++ ('"' :: rest)).length + 1)
          (escString s.data ++ ('"' :: rest))).map
          (fun p => (JsValue.str ⟨p.1⟩, p.2)) := rfl
    rw [hb, parseStringBody_print s.data _ rest (by
      have h2 := escString_length_ge s.data
      simp only [List.length_append, List.length_cons]
      omega)]
    rfl
  | .num n, fuel, ind, rest, hsz, hind, hrest => by
    obtain ⟨f, rfl⟩ : ∃ g, fuel = g + 1 := ⟨fuel - 1, by
      have h1 : jsonSize (.num n) = 1 := rfl
      omega⟩
    show parseVal (f + 1) (intDigits n ++ rest) = _
    by_cases hneg : n < 0
    · have hid : intDigits n = '-' :: natDigits (-n).toNat := by
        unfold intDigits
        rw [if_pos hneg]
      rw [hid, List.cons_append]
      have hstep : parseVal (f + 1) ('-' :: (natDigits (-n).toNat ++ rest)) =
          (parseNumber ('-' :: (natDigits (-n).toNat ++ rest))).map
            (fun p => (JsValue.num p.1, p.2)) := rfl
      rw [hstep]
      rw [show ('-' :: (natDigits (-n).toNat ++ rest) : List Char) = intDigits n ++ rest by
        rw [hid, List.cons_append]]
      rw [parseNumber_intDigits n rest hrest]
      rfl
    · have hid : intDigits n = natDigits n.toNat := by
        unfold intDigits
        rw [if_neg hneg]
      obtain ⟨hne, hdig, _⟩ := natDigits_spec n.toNat
      cases hE : natDigits n.toNat with
      | nil => exact absurd hE hne
      | cons d ds =>
        have hd : d.isDigit = true := by
          rw [hE] at hdig
          exact hdig d (List.mem_cons_self d ds)
        rw [hid, hE, List.cons_append, parseVal_digit_head f d _ hd]
        rw [show (d :: (ds ++ rest) : List Char) = intDigits n ++ rest by
          rw [hid, hE, List.cons_append]]
        rw [parseNumber_intDigits n rest hrest]
        rfl
  | .bool true, fuel, ind, rest, hsz, hind, hrest => by
    obtain ⟨f, rfl⟩ : ∃ g, fuel = g + 1 := ⟨fuel - 1, by
      have h1 : jsonSize (.bool true) = 1 := rfl
      omega⟩
    rfl
  | .bool false, fuel, ind, rest, hsz, hind, hrest => by
    obtain ⟨f, rfl⟩ : ∃ g, fuel = g + 1 := ⟨fuel - 1, by
      have h1 : jsonSize (.bool false) = 1 := rfl
      omega⟩
    rfl
  | .null, fuel, ind, rest, hsz, hind, hrest => by
    obtain ⟨f, rfl⟩ : ∃ g, fuel = g + 1 := ⟨fuel - 1, by
      have h1 : jsonSize .null = 1 := rfl
      omega⟩
    rfl
  | .arr [], fuel, ind, rest, hsz, hind, hrest => by
    obtain ⟨f, rfl⟩ : ∃ g, fuel = g + 1 := ⟨fuel - 1, by
      have h1 : jsonSize (.arr []) = 1 := rfl
      omega⟩
    rfl
  | .arr (v :: vs), fuel, ind, rest, hsz, hind, hrest => by
    obtain ⟨f, rfl⟩ : ∃ g, fuel = g + 1 := ⟨fuel - 1, by
      have h1 : 1 ≤ jsonSize (.arr (v :: vs)) := jsonSize_pos _
      omega⟩
    simp only [printVal, List.cons_append, List.append_assoc, List.singleton_append,
      List.nil_append]
    rw [parseVal_succ_lbracket]
    obtain ⟨c0, pvr, hpv, hc0ws, hc0rb, _⟩ := printVal_head (ind ++ jsonGap) v
    have hskip : skipWs ('\n' :: (ind ++ (jsonGap ++ (printVal (ind ++ jsonGap) v ++
        (printElems (ind ++ jsonGap) vs ++ ('\n' :: (ind ++ (']' :: rest)))))))) =
        c0 :: (pvr ++ (printElems (ind ++ jsonGap) vs ++ ('\n' :: (ind ++ (']' :: rest))))) := by
      rw [skipWs_cons_ws '\n' _ (by decide), skipWs_ws_append _ hind,
        skipWs_ws_append _ wsList_gap, hpv, List.cons_append, skipWs_not_ws _ hc0ws]
    rw [hskip, arrMatch_default f _ hc0rb]
    rw [show c0 :: (pvr ++ (printElems (ind ++ jsonGap) vs ++ ('\n' :: (ind ++ (']' :: rest))))) =
        printVal (ind ++ jsonGap) v ++
          (printElems (ind ++ jsonGap) vs ++ ('\n' :: (ind ++ (']' :: rest)))) from by
      rw [hpv]
      rfl]
    have h2 : parseElems f (printVal (ind ++ jsonGap) v ++ (printElems (ind ++ jsonGap) vs ++
        ('\n' :: (ind ++ (']' :: rest))))) = some (v :: vs, rest) := by
      have h3 : parseElems f (printVal (ind ++ jsonGap) v ++ (printElems (ind ++ jsonGap) vs ++
          (('\n' :: ind) ++ (']' :: rest)))) = some (v :: vs, rest) :=
        parseElems_print (v :: vs) f (ind ++ jsonGap) ('\n' :: ind) rest
          (by
            have h1 : jsonSize (.arr (v :: vs)) = 1 + sizeElems (v :: vs) := rfl
            omega)
          (wsList_append hind wsList_gap) (wsList_cons rfl hind) hrest
      rw [List.cons_append] at h3
      exact h3
    rw [h2]
    rfl
  | .obj [], fuel, ind, rest, hsz, hind, hrest => by
    obtain ⟨f, rfl⟩ : ∃ g, fuel = g + 1 := ⟨fuel - 1, by
      have h1 : jsonSize (.obj []) = 1 := rfl
      omega⟩
    rfl
  | .obj ((k, v) :: ms), fuel, ind, rest, hsz, hind, hrest => by
    obtain ⟨f, rfl⟩ : ∃ g, fuel = g + 1 := ⟨fuel - 1, by
      have h1 : 1 ≤ jsonSize (.obj ((k, v) :: ms)) := jsonSize_pos _
      omega⟩
    obtain ⟨f2, rfl⟩ : ∃ f2, f = f2 + 1 := ⟨f - 1, by
      have h1 : jsonSize (.obj ((k, v) :: ms)) = 1 + (jsonSize v + 1 + sizeMembers ms) := rfl
      have h2 : 1 ≤ jsonSize v := jsonSize_pos v
      omega⟩
    simp only [printVal, quoteString, List.cons_append, List.append_assoc,
      List.singleton_append, List.nil_append]
    rw [parseVal_succ_lbrace]
    have hskip : skipWs ('\n' :: (ind ++ (jsonGap ++ ('"' :: (escString k.data ++ ('"' :: (':' ::
        ' ' :: (printVal (ind ++ jsonGap) v ++ (printMembers (ind ++ jsonGap) ms ++
          ('\n' :: (ind ++ ('\x7d' :: rest)))))))))))) =
        '"' :: (escString k.data ++ ('"' :: (':' :: ' ' ::
          (printVal (ind ++ jsonGap) v ++ (printMembers (ind ++ jsonGap) ms ++
            ('\n' :: (ind ++ ('\x7d' :: rest)))))))) := by
      rw [skipWs_cons_ws '\n' _ (by decide), skipWs_ws_append _ hind,
        skipWs_ws_append _ wsList_gap, skipWs_not_ws _ (by decide)]
    rw [hskip, objMatch_default (f2 + 1) _ (by decide)]
    have hstr : parseStringBody ((escString k.data ++ ('"' :: (':' :: ' ' ::
        (printVal (ind ++ jsonGap) v ++ (printMembers (ind ++ jsonGap) ms ++
          ('\n' :: (ind ++ ('\x7d' :: rest)))))))).length + 1)
        (escString k.data ++ ('"' :: (':' :: ' ' ::
          (printVal (ind ++ jsonGap) v ++ (printMembers (ind ++ jsonGap) ms ++
            ('\n' :: (ind ++ ('\x7d' :: rest)))))))) =
        some (k.data, ':' :: (' ' :: (printVal (ind ++ jsonGap) v ++
          (printMembers (ind ++ jsonGap) ms ++ ('\n' :: (ind ++ ('\x7d' :: rest))))))) :=
      parseStringBody_print k.data _ _ (by
        have h2 := escString_length_ge k.data
        simp only [List.length_append, List.length_cons]
        omega)
    have hval : parseVal f2 (' ' :: (printVal (ind ++ jsonGap) v ++
        (printMembers (ind ++ jsonGap) ms ++ ('\n' :: (ind ++ ('\x7d' :: rest)))))) =
        some (v, printMembers (ind ++ jsonGap) ms ++ ('\n' :: (ind ++ ('\x7d' :: rest)))) := by
      rw [parseVal_ws_cons f2 ' ' _ (by decide)]
      apply parseVal_print v f2 (ind ++ jsonGap) _
        (by
          have h1 : jsonSize (.obj ((k, v) :: ms)) =
            1 + (jsonSize v + 1 + sizeMembers ms) := rfl
          omega)
        (wsList_append hind wsList_gap)
      cases ms with
      | nil => exact numSafe_cons _ (by decide)
      | cons m2 ms2 =>
        obtain ⟨k2, v2⟩ := m2
        exact numSafe_cons _ (by decide)
    rw [parseMembers_succ f2 _ _ _ k.data v hstr hval]
    cases ms with
    | nil =>
      have hskip2 : skipWs (printMembers (ind ++ jsonGap) ([] : List (String × JsValue)) ++
          ('\n' :: (ind ++ ('\x7d' :: rest)))) = '\x7d' :: rest := by
        show skipWs (([] : List Char) ++ ('\n' :: (ind ++ ('\x7d' :: rest)))) = _
        rw [List.nil_append, skipWs_cons_ws '\n' _ (by decide), skipWs_ws_append _ hind,
          skipWs_not_ws _ (by decide)]
      rw [hskip2, membersMatch_rbrace, stringMk_data]
      rfl
    | cons m2 ms2 =>
      obtain ⟨k2, v2⟩ := m2
      have hskip2 : skipWs (printMembers (ind ++ jsonGap) ((k2, v2) :: ms2) ++
          ('\n' :: (ind ++ ('\x7d' :: rest)))) =
          ',' :: ('\n' :: (((ind ++ jsonGap) ++ (quoteString k2 ++ (':' :: ' ' ::
            (printVal (ind ++ jsonGap) v2 ++ printMembers (ind ++ jsonGap) ms2)))) ++
              ('\n' :: (ind ++ ('\x7d' :: rest))))) :=
        skipWs_not_ws _ (by decide)
      rw [hskip2, membersMatch_comma, parseMembers_ws_cons f2 '\n' _ (by decide),
        List.append_assoc, parseMembers_ws_append f2 _ (wsList_append hind wsList_gap),
        List.append_assoc]
      rw [show quoteString k2 ++ ((':' :: ' ' :: (printVal (ind ++ jsonGap) v2 ++
          printMembers (ind ++ jsonGap) ms2)) ++ ('\n' :: (ind ++ ('\x7d' :: rest)))) =
          '"' :: (escString k2.data ++ ('"' :: (':' :: ' ' ::
            (printVal (ind ++ jsonGap) v2 ++ (printMembers (ind ++ jsonGap) ms2 ++
              ('\n' :: (ind ++ ('\x7d' :: rest)))))))) from by
        show ('"' :: (escString k2.data ++ ['"'])) ++ _ = _
        rw [List.cons_append, List.append_assoc, List.singleton_append, List.cons_append,
          List.cons_append, List.append_assoc]]
      have h3 : parseMembers f2 ('"' :: (escString k2.data ++ ('"' :: (':' :: ' ' ::
          (printVal (ind ++ jsonGap) v2 ++ (printMembers (ind ++ jsonGap) ms2 ++
            ('\n' :: (ind ++ ('\x7d' :: rest))))))))) = some ((k2, v2) :: ms2, rest) := by
        have h4 : parseMembers f2 ('"' :: (escString k2.data ++ ('"' :: (':' :: ' ' ::
            (printVal (ind ++ jsonGap) v2 ++ (printMembers (ind ++ jsonGap) ms2 ++
              (('\n' :: ind) ++ ('\x7d' :: rest)))))))) = some ((k2, v2) :: ms2, rest) :=
          parseMembers_print ((k2, v2) :: ms2) f2 (ind ++ jsonGap) ('\n' :: ind) rest
            (by
              have h1 : jsonSize (.obj ((k, v) :: (k2, v2) :: ms2)) =
                1 + (jsonSize v + 1 + (jsonSize v2 + 1 + sizeMembers ms2)) := rfl
              have h5 : sizeMembers ((k2, v2) :: ms2) =
                jsonSize v2 + 1 + sizeMembers ms2 := rfl
              have h6 : 1 ≤ jsonSize v := jsonSize_pos v
              omega)
            (wsList_append hind wsList_gap) (wsList_cons rfl hind) hrest
        rw [List.cons_append] at h4
        exact h4
      rw [h3, stringMk_data]
      rfl
theorem parseElems_print : ∀ (vs : List JsValue) (f : Nat) (ind w rest : List Char),
    sizeElems vs ≤ f → WsList ind → WsList w → numSafe rest →
    (match vs with
     | [] => True
     | v :: vs' =>
       parseElems f (printVal ind v ++ (printElems ind vs' ++ (w ++ (']' :: rest)))) =
         some (v :: vs', rest))
  | [], f, ind, w, rest, hsz, hind, hw, hrest => trivial
  | v :: vs', f, ind, w, rest, hsz, hind, hw, hrest => by
    show parseElems f (printVal ind v ++ (printElems ind vs' ++ (w ++ (']' :: rest)))) =
      some (v :: vs', rest)
    obtain ⟨f2, rfl⟩ : ∃ f2, f = f2 + 1 := ⟨f - 1, by
      have h1 : sizeElems (v :: vs') = jsonSize v + 1 + sizeElems vs' := rfl
      have h2 : 1 ≤ jsonSize v := jsonSize_pos v
      omega⟩
    have hrest2 : numSafe (printElems ind vs' ++ (w ++ (']' :: rest))) := by
      cases vs' with
      | nil =>
        show numSafe (([] : List Char) ++ (w ++ (']' :: rest)))
        rw [List.nil_append]
        cases w with
        | nil => exact numSafe_cons _ (by decide)
        | cons cw w2 =>
          exact numSafe_cons _ (ws_not_digit (hw cw (List.mem_cons_self cw w2)))
      | cons v2 vs2 => exact numSafe_cons _ (by decide)
    have hval : parseVal f2 (printVal ind v ++ (printElems ind vs' ++ (w ++ (']' :: rest)))) =
        some (v, printElems ind vs' ++ (w ++ (']' :: rest))) :=
      parseVal_print v f2 ind _
        (by
          have h1 : sizeElems (v :: vs') = jsonSize v + 1 + sizeElems vs' := rfl
          omega)
        hind hrest2
    rw [parseElems_succ_of_parseVal hval]
    cases vs' with
    | nil =>
      have hskip : skipWs (printElems ind ([] : List JsValue) ++ (w ++ (']' :: rest))) =
          ']' :: rest := by
        show skipWs (([] : List Char) ++ (w ++ (']' :: rest))) = _
        rw [List.nil_append, skipWs_ws_append _ hw, skipWs_not_ws _ (by decide)]
      rw [hskip, elemsMatch_rbracket]
    | cons v2 vs2 =>
      have hskip : skipWs (printElems ind (v2 :: vs2) ++ (w ++ (']' :: rest))) =
          ',' :: ('\n' :: ((ind ++ (printVal ind v2 ++ printElems ind vs2)) ++
            (w ++ (']' :: rest)))) :=
        skipWs_not_ws _ (by decide)
      rw [hskip, elemsMatch_comma, parseElems_ws_cons f2 '\n' _ (by decide), List.append_assoc,
        parseElems_ws_append f2 _ hind, List.append_assoc]
      have h2 : parseElems f2 (printVal ind v2 ++ (printElems ind vs2 ++
          (w ++ (']' :: rest)))) = some (v2 :: vs2, rest) :=
        parseElems_print (v2 :: vs2) f2 ind w rest
          (by
            have h1 : sizeElems (v :: v2 :: vs2) =
              jsonSize v + 1 + (jsonSize v2 + 1 + sizeElems vs2) := rfl
            have h3 : sizeElems (v2 :: vs2) = jsonSize v2 + 1 + sizeElems vs2 := rfl
            have h4 : 1 ≤ jsonSize v := jsonSize_pos v
            omega)
          hind hw hrest
      rw [h2]
      rfl
theorem parseMembers_print : ∀ (ms : List (String × JsValue)) (f : Nat) (ind w rest : List Char),
    sizeMembers ms ≤ f → WsList ind → WsList w → numSafe rest →
    (match ms with
     | [] => True
     | (k, v) :: ms' =>
       parseMembers f ('"' :: (escString k.data ++ ('"' :: (':' :: ' ' ::
         (printVal ind v ++ (printMembers ind ms' ++ (w ++ ('\x7d' :: rest)))))))) =
         some ((k, v) :: ms', rest))
  | [], f, ind, w, rest, hsz, hind, hw, hrest => trivial
  | (k, v) :: ms', f, ind, w, rest, hsz, hind, hw, hrest => by
    show parseMembers f ('"' :: (escString k.data ++ ('"' :: (':' :: ' ' ::
      (printVal ind v ++ (printMembers ind ms' ++ (w ++ ('\x7d' :: rest)))))))) =
      some ((k, v) :: ms', rest)
    obtain ⟨f2, rfl⟩ : ∃ f2, f = f2 + 1 := ⟨f - 1, by
      have h1 : sizeMembers ((k, v) :: ms') = jsonSize v + 1 + sizeMembers ms' := rfl
      have h2 : 1 ≤ jsonSize v := jsonSize_pos v
      omega⟩
    have hrest2 : numSafe (printMembers ind ms' ++ (w ++ ('\x7d' :: rest))) := by
      cases ms' with
      | nil =>
        show numSafe (([] : List Char) ++ (w ++ ('\x7d' :: rest)))
        rw [List.nil_append]
        cases w with
        | nil => exact numSafe_cons _ (by decide)
        | cons cw w2 =>
          exact numSafe_cons _ (ws_not_digit (hw cw (List.mem_cons_self cw w2)))
      | cons m2 ms2 =>
        obtain ⟨k2, v2⟩ := m2
        exact numSafe_cons _ (by decide)
    have hstr : parseStringBody ((escString k.data ++ ('"' :: (':' :: ' ' ::
        (printVal ind v ++ (printMembers ind ms' ++ (w ++ ('\x7d' :: rest))))))).length + 1)
        (escString k.data ++ ('"' :: (':' :: ' ' ::
          (printVal ind v ++ (printMembers ind ms' ++ (w ++ ('\x7d' :: rest))))))) =
        some (k.data, ':' :: (' ' :: (printVal ind v ++
          (printMembers ind ms' ++ (w ++ ('\x7d' :: rest)))))) :=
      parseStringBody_print k.data _ _ (by
        have h2 := escString_length_ge k.data
        simp only [List.length_append, List.length_cons]
        omega)
    have hval : parseVal f2 (' ' :: (printVal ind v ++
        (printMembers ind ms' ++ (w ++ ('\x7d' :: rest))))) =
        some (v, printMembers ind ms' ++ (w ++ ('\x7d' :: rest))) := by
      rw [parseVal_ws_cons f2 ' ' _ (by decide)]
      exact parseVal_print v f2 ind _
        (by
          have h1 : sizeMembers ((k, v) :: ms') = jsonSize v + 1 + sizeMembers ms' := rfl
          omega)
        hind hrest2
    rw [parseMembers_succ f2 _ _ _ k.data v hstr hval]
    cases ms' with
    | nil =>
      have hskip : skipWs (printMembers ind ([] : List (String × JsValue)) ++
          (w ++ ('\x7d' :: rest))) = '\x7d' :: rest := by
        show skipWs (([] : List Char) ++ (w ++ ('\x7d' :: rest))) = _
        rw [List.nil_append, skipWs_ws_append _ hw, skipWs_not_ws _ (by decide)]
      rw [hskip, membersMatch_rbrace, stringMk_data]
    | cons m2 ms2 =>
      obtain ⟨k2, v2⟩ := m2
      have hskip : skipWs (printMembers ind ((k2, v2) :: ms2) ++ (w ++ ('\x7d' :: rest))) =
          ',' :: ('\n' :: ((ind ++ (quoteString k2 ++ (':' :: ' ' ::
            (printVal ind v2 ++ printMembers ind ms2)))) ++ (w ++ ('\x7d' :: rest)))) :=
        skipWs_not_ws _ (by decide)
      rw [hskip, membersMatch_comma, parseMembers_ws_cons f2 '\n' _ (by decide),
        List.append_assoc, parseMembers_ws_append f2 _ hind, List.append_assoc]
      rw [show quoteString k2 ++ ((':' :: ' ' :: (printVal ind v2 ++
          printMembers ind ms2)) ++ (w ++ ('\x7d' :: rest))) =
          '"' :: (escString k2.data ++ ('"' :: (':' :: ' ' ::
            (printVal ind v2 ++ (printMembers ind ms2 ++ (w ++ ('\x7d' :: rest))))))) from by
        show ('"' :: (escString k2.data ++ ['"'])) ++ _ = _
        rw [List.cons_append, List.append_assoc, List.singleton_append, List.cons_append,
          List.cons_append, List.append_assoc]]
      have h3 : parseMembers f2 ('"' :: (escString k2.data ++ ('"' :: (':' :: ' ' ::
          (printVal ind v2 ++ (printMembers ind ms2 ++ (w ++ ('\x7d' :: rest)))))))) =
          some ((k2, v2) :: ms2, rest) :=
        parseMembers_print ((k2, v2) :: ms2) f2 ind w rest
          (by
            have h1 : sizeMembers ((k, v) :: (k2, v2) :: ms2) =
              jsonSize v + 1 + (jsonSize v2 + 1 + sizeMembers ms2) := rfl
            have h3 : sizeMembers ((k2, v2) :: ms2) = jsonSize v2 + 1 + sizeMembers ms2 := rfl
            have h4 : 1 ≤ jsonSize v := jsonSize_pos v
            omega)
          hind hw hrest
      rw [h3, stringMk_data]
      rfl
end

/-- Reading back a printed JSON value recovers it exactly. -/
theorem jsonParse_print (v : JsValue) : jsonParse (String.mk (printVal [] v)) = some v := by
  have h := parseVal_print v ((printVal [] v).length + 1) [] []
    (by have := jsonSize_le_printVal v []; omega)
    wsList_nil (by intro c hc; cases hc)
  rw [List.append_nil] at h
  unfold jsonParse
  rw [show (String.mk (printVal [] v)).data = printVal [] v from rfl, h]
  rfl

/-- The export/import pair is the identity on the JSON tree of any
dungeon value. -/
theorem importDungeon_exportDungeon (d : Dungeon) :
    importDungeon (exportDungeon d) = some (dungeonToJs d) :=
  jsonParse_print (dungeonToJs d)

/-! ## C6: export/import round trip -/

/-- Claim C6: for every generated Dungeon `d`,
`importDungeon (exportDungeon d)` succeeds and returns a value
structurally equal to `d` — exactly the JSON tree of `d`, with all
floors, rooms, corridors, entrances/exits and identifiers intact. -/
theorem c6_export_import (registry : List (String × RoomTypeDef)) (monsters : List Monster)
    (items : List Item) (opts : DungeonOptions) (createdAt : String) (o : Nat → FloorO)
    (d : Dungeon) (h : generateDungeon registry monsters items opts createdAt o = some d) :
    importDungeon (exportDungeon d) = some (dungeonToJs d) :=
  importDungeon_exportDungeon d

set_option maxHeartbeats 1000000 in
/-- Claim C6 witness: a concrete generated dungeon whose export re-imports
to its own JSON tree. -/
theorem c6_witness :
    generateDungeon builtinRoomTypes [] [] ⟨"d", 1, 3, 1, "generic", "small"⟩ "t"
      (fun _ => zFloorO) = some c9dungeon ∧
    importDungeon (exportDungeon c9dungeon) = some (dungeonToJs c9dungeon) :=
  ⟨by decide, c6_export_import builtinRoomTypes [] [] ⟨"d", 1, 3, 1, "generic", "small"⟩ "t"
    (fun _ => zFloorO) c9dungeon (by decide)⟩

/-! ## C4: import malformation handling -/

/-- Claim C4 counterexample: `importDungeon` performs no structural
validation — the well-formed JSON text of a plain array is returned
as-is, so the caller does receive a non-Dungeon value; and for text that
is not JSON at all the caught parse error yields `null` (modelled
`none`), not a distinct descriptive invalid-dungeon-data error. -/
theorem c4_counterexample :
    importDungeon "[2, 3]" = some (JsValue.arr [JsValue.num 2, JsValue.num 3]) ∧
    importDungeon "nonsense" = none :=
  ⟨rfl, rfl⟩

/-- Claim C4 amended: on malformed input `importDungeon` returns `null`
(no exception escapes, and the caller receives no partially-constructed
object), while any parseable input — dungeon-shaped or not — is returned
without validation; in particular everything `exportDungeon` produces
re-imports fully. -/
theorem c4_amended :
    (∀ v : JsValue, importDungeon (String.mk (printVal [] v)) = some v) ∧
    importDungeon "\x7b\"floors\": " = none ∧
    importDungeon "[1," = none :=
  ⟨fun v => jsonParse_print v, rfl, rfl⟩

/-! ## Connection phase: room lookup, record pushing and reachability -/

/-- A successful id lookup for any id present in the room list. -/
theorem find_id_of_mem :
    ∀ (rooms : List Room) (uid : Nat), uid ∈ rooms.map (·.id) →
      ∃ r, rooms.find? (fun r => r.id = uid) = some r ∧ r ∈ rooms ∧ r.id = uid := by
  intro rooms uid
  induction rooms with
  | nil => intro h; simp at h
  | cons a l ih =>
    intro h
    by_cases ha : a.id = uid
    · exact ⟨a, by simp [List.find?_cons, ha], List.mem_cons_self a l, ha⟩
    · have h' : uid ∈ l.map (·.id) := by
        simp only [List.map_cons, List.mem_cons] at h
        rcases h with h | h
        · exact absurd h.symm ha
        · exact h
      obtain ⟨r, h1, h2, h3⟩ := ih h'
      exact ⟨r, by simp [List.find?_cons, ha, h1], List.mem_cons_of_mem a h2, h3⟩

/-- Soundness of a successful id lookup. -/
theorem find_id_sound {rooms : List Room} {uid : Nat} {r : Room}
    (h : rooms.find? (fun r => r.id = uid) = some r) : r ∈ rooms ∧ r.id = uid :=
  ⟨List.mem_of_find?_eq_some h, by have := List.find?_some h; simpa using this⟩

/-- Pushing a connection record changes no geometric field. -/
theorem pushConnection_geom (rooms : List Room) (rid : Nat) (c : Conn) :
    (pushConnection rooms rid c).map roomGeom = rooms.map roomGeom := by
  simp only [pushConnection, List.map_map]
  apply List.map_congr_left
  intro r _
  by_cases h : r.id = rid <;> simp [Function.comp, roomGeom, h]

/-- Pushing a connection record changes no id. -/
theorem pushConnection_ids (rooms : List Room) (rid : Nat) (c : Conn) :
    (pushConnection rooms rid c).map (·.id) = rooms.map (·.id) := by
  simp only [pushConnection, List.map_map]
  apply List.map_congr_left
  intro r _
  by_cases h : r.id = rid <;> simp [Function.comp, h]

/-- Membership shape of the record-pushed room list. -/
theorem mem_pushConnection {rooms : List Room} {rid : Nat} {c : Conn} {r' : Room}
    (h : r' ∈ pushConnection rooms rid c) :
    ∃ r ∈ rooms,
      r' = if r.id = rid then { r with connections := r.connections ++ [c] } else r := by
  simp only [pushConnection, List.mem_map] at h
  obtain ⟨r, hr, hr'⟩ := h
  exact ⟨r, hr, hr'.symm⟩

/-- The update applied by `pushConnection` keeps the room id. -/
theorem pushUpd_id (r : Room) (rid : Nat) (c : Conn) :
    (if r.id = rid then { r with connections := r.connections ++ [c] } else r).id = r.id := by
  split <;> rfl

/-- The update applied by `pushConnection` keeps the geometry. -/
theorem pushUpd_geom (r : Room) (rid : Nat) (c : Conn) :
    roomGeom (if r.id = rid then { r with connections := r.connections ++ [c] } else r) =
      roomGeom r := by
  split <;> rfl

/-- The components equated by equal geometries. -/
theorem geom_fields {r r' : Room} (h : roomGeom r = roomGeom r') :
    r.id = r'.id ∧ r.type = r'.type ∧ r.x = r'.x ∧ r.y = r'.y ∧
      r.width = r'.width ∧ r.height = r'.height := by
  simp only [roomGeom, Prod.mk.injEq] at h
  exact h

/-- Geometry-map equality forces the id maps to agree. -/
theorem ids_of_geom {l1 l2 : List Room} (h : l1.map roomGeom = l2.map roomGeom) :
    l1.map (·.id) = l2.map (·.id) := by
  have h1 : ∀ l : List Room, l.map (·.id) = (l.map roomGeom).map (·.1) := by
    intro l
    rw [List.map_map]
    apply List.map_congr_left
    intro r _
    rfl
  rw [h1, h1, h]

/-- Transfer of an in-bounds fact along geometry-map equality. -/
theorem roomBoundsOK_of_geom {l1 l2 : List Room} (h : l1.map roomGeom = l2.map roomGeom)
    {gw gh : Int} (hb : ∀ r ∈ l1, roomBoundsOK gw gh r) : ∀ r ∈ l2, roomBoundsOK gw gh r := by
  intro r hr
  have : roomGeom r ∈ l2.map roomGeom := List.mem_map_of_mem _ hr
  rw [← h] at this
  obtain ⟨r1, hr1, hg⟩ := List.mem_map.mp this
  obtain ⟨_, _, hx, hy, hw, hh⟩ := geom_fields hg
  have := hb r1 hr1
  simp only [roomBoundsOK] at this ⊢
  omega

/-- Reachability is monotone in the edge list. -/
theorem Reach.mono {E E2 : List (Nat × Nat)} {a b : Nat} (h : Reach E a b) :
    Reach (E ++ E2) a b := by
  induction h with
  | refl => exact Reach.refl _
  | stepF _ he ih => exact Reach.stepF ih (List.mem_append_left _ he)
  | stepB _ he ih => exact Reach.stepB ih (List.mem_append_left _ he)

/-- Reachability is transitive. -/
theorem Reach.trans {E : List (Nat × Nat)} {a b c : Nat}
    (h1 : Reach E a b) (h2 : Reach E b c) : Reach E a c := by
  induction h2 with
  | refl => exact h1
  | stepF _ he ih => exact Reach.stepF ih he
  | stepB _ he ih => exact Reach.stepB ih he

/-- Reachability is symmetric (edges are traversable both ways). -/
theorem Reach.symm {E : List (Nat × Nat)} {a b : Nat} (h : Reach E a b) : Reach E b a := by
  induction h with
  | refl => exact Reach.refl _
  | stepF _ he ih => exact Reach.trans (Reach.stepB (Reach.refl _) he) ih
  | stepB _ he ih => exact Reach.trans (Reach.stepF (Reach.refl _) he) ih

/-- `pairOK` on a populated accumulator, unfolded. -/
theorem pairOK_some {rooms : List Room} {connected unconnected : List Nat}
    {d : Nat} {bf bt : Room} :
    pairOK rooms connected unconnected (some (d, bf, bt)) ↔
      bf ∈ rooms ∧ bf.id ∈ connected ∧ bt ∈ rooms ∧ bt.id ∈ unconnected := Iff.rfl

/-- The inner pair scan never fails when the ids it walks have rooms, and
its result pair is sound; it returns an empty accumulator only if it was
given one and had nothing to walk. -/
theorem scanUnconnected_spec (rooms : List Room) (connected unconnected : List Nat)
    (cRoom : Room) (hcr : cRoom ∈ rooms) (hcc : cRoom.id ∈ connected) :
    ∀ (us : List Nat) (best : Option (Nat × Room × Room)),
      (∀ uid ∈ us, uid ∈ unconnected) →
      (∀ uid ∈ us, uid ∈ rooms.map (·.id)) →
      pairOK rooms connected unconnected best →
      ∃ best2, scanUnconnected rooms cRoom us best = some best2 ∧
        pairOK rooms connected unconnected best2 ∧
        (best2 = none → best = none ∧ us = []) := by
  intro us
  induction us with
  | nil =>
    intro best _ _ hb
    exact ⟨best, rfl, hb, fun h => ⟨h, rfl⟩⟩
  | cons uid rest ih =>
    intro best hu hid hb
    obtain ⟨r, hfind, hrmem, hrid⟩ :=
      find_id_of_mem rooms uid (hid uid (List.mem_cons_self _ _))
    have hru : r.id ∈ unconnected := by
      rw [hrid]; exact hu uid (List.mem_cons_self _ _)
    have hu' : ∀ v ∈ rest, v ∈ unconnected := fun v hv => hu v (List.mem_cons_of_mem _ hv)
    have hid' : ∀ v ∈ rest, v ∈ rooms.map (·.id) :=
      fun v hv => hid v (List.mem_cons_of_mem _ hv)
    simp only [scanUnconnected]
    rw [hfind]
    cases best with
    | none =>
      obtain ⟨best2, h1, h2, h3⟩ :=
        ih (some (calculateDistance cRoom r, cRoom, r)) hu' hid'
          (pairOK_some.mpr ⟨hcr, hcc, hrmem, hru⟩)
      exact ⟨best2, h1, h2, fun hb2 => absurd ((h3 hb2).1) (by simp)⟩
    | some t =>
      obtain ⟨minDist, bf, bt⟩ := t
      by_cases hlt : calculateDistance cRoom r < minDist
      · obtain ⟨best2, h1, h2, h3⟩ :=
          ih (some (calculateDistance cRoom r, cRoom, r)) hu' hid'
            (pairOK_some.mpr ⟨hcr, hcc, hrmem, hru⟩)
        refine ⟨best2, ?_, h2, fun hb2 => absurd ((h3 hb2).1) (by simp)⟩
        show scanUnconnected rooms cRoom rest
          (if calculateDistance cRoom r < minDist
            then some (calculateDistance cRoom r, cRoom, r)
            else some (minDist, bf, bt)) = some best2
        rw [if_pos hlt]
        exact h1
      · obtain ⟨best2, h1, h2, h3⟩ := ih (some (minDist, bf, bt)) hu' hid' hb
        refine ⟨best2, ?_, h2, fun hb2 => absurd ((h3 hb2).1) (by simp)⟩
        show scanUnconnected rooms cRoom rest
          (if calculateDistance cRoom r < minDist
            then some (calculateDistance cRoom r, cRoom, r)
            else some (minDist, bf, bt)) = some best2
        rw [if_neg hlt]
        exact h1

/-- The outer pair scan never fails when all walked ids have rooms; its
result is sound and is populated as soon as both sides are nonempty. -/
theorem scanConnected_spec (rooms : List Room) (connected unconnected : List Nat)
    (hidu : ∀ uid ∈ unconnected, uid ∈ rooms.map (·.id)) :
    ∀ (cs : List Nat) (best : Option (Nat × Room × Room)),
      (∀ cid ∈ cs, cid ∈ connected) →
      (∀ cid ∈ cs, cid ∈ rooms.map (·.id)) →
      pairOK rooms connected unconnected best →
      ∃ best2, scanConnected rooms unconnected cs best = some best2 ∧
        pairOK rooms connected unconnected best2 ∧
        (best2 = none → best = none ∧ (cs = [] ∨ unconnected = [])) := by
  intro cs
  induction cs with
  | nil =>
    intro best _ _ hb
    exact ⟨best, rfl, hb, fun h => ⟨h, Or.inl rfl⟩⟩
  | cons cid rest ih =>
    intro best hc hid hb
    obtain ⟨r, hfind, hrmem, hrid⟩ :=
      find_id_of_mem rooms cid (hid cid (List.mem_cons_self _ _))
    have hrc : r.id ∈ connected := by
      rw [hrid]; exact hc cid (List.mem_cons_self _ _)
    obtain ⟨bmid, h1, h2, h3⟩ :=
      scanUnconnected_spec rooms connected unconnected r hrmem hrc unconnected best
        (fun v hv => hv) hidu hb
    obtain ⟨best2, h4, h5, h6⟩ := ih bmid
      (fun v hv => hc v (List.mem_cons_of_mem _ hv))
      (fun v hv => hid v (List.mem_cons_of_mem _ hv)) h2
    refine ⟨best2, ?_, h5, ?_⟩
    · simp only [scanConnected]
      rw [hfind]
      show (match scanUnconnected rooms r unconnected best with
        | none => none
        | some b2 => scanConnected rooms unconnected rest b2) = some best2
      rw [h1]
      exact h4
    · intro hb2
      obtain ⟨hmid, _⟩ := h6 hb2
      obtain ⟨hbn, hun⟩ := h3 hmid
      exact ⟨hbn, Or.inr hun⟩

/-- Image of a room under a `pushConnection` pass. -/
theorem mem_pushConnection_of_mem {rooms : List Room} (rid : Nat) (c : Conn) {r : Room}
    (h : r ∈ rooms) :
    (if r.id = rid then { r with connections := r.connections ++ [c] } else r) ∈
      pushConnection rooms rid c :=
  List.mem_map_of_mem _ h

/-- One connection step preserves the record bookkeeping: the fresh
corridor gets exactly one record on each endpoint and the records of the
older corridors are untouched. -/
theorem recordsOK_step (roomsState : List Room) (corridors : List Corridor)
    (fromRoom toRoom : Room) (counter : Nat) (corridor : Corridor)
    (hfrom : fromRoom ∈ roomsState) (hto : toRoom ∈ roomsState)
    (hne : fromRoom.id ≠ toRoom.id)
    (hcid : corridor.id = counter)
    (hcf : corridor.fromE.room = fromRoom.id) (hct : corridor.toE.room = toRoom.id)
    (hOK : corridorRecordsOK roomsState corridors)
    (hfresh : ∀ c ∈ corridors, c.id < counter) :
    corridorRecordsOK
      (pushConnection (pushConnection roomsState fromRoom.id ⟨toRoom.id, corridor.id⟩)
        toRoom.id ⟨fromRoom.id, corridor.id⟩)
      (corridors ++ [corridor]) := by
  have hmem2 : ∀ r' ∈ pushConnection (pushConnection roomsState fromRoom.id
      ⟨toRoom.id, corridor.id⟩) toRoom.id ⟨fromRoom.id, corridor.id⟩,
      ∃ r ∈ roomsState, r'.id = r.id ∧
        r'.connections = r.connections ++
          (if r.id = fromRoom.id then [(⟨toRoom.id, corridor.id⟩ : Conn)]
           else if r.id = toRoom.id then [(⟨fromRoom.id, corridor.id⟩ : Conn)] else []) := by
    intro r' hr'
    obtain ⟨r1, hr1, hr'eq⟩ := mem_pushConnection hr'
    obtain ⟨r, hr, hr1eq⟩ := mem_pushConnection hr1
    subst hr'eq
    subst hr1eq
    refine ⟨r, hr, by rw [pushUpd_id, pushUpd_id], ?_⟩
    rw [pushUpd_id]
    by_cases h1 : r.id = fromRoom.id
    · rw [if_pos h1, if_pos h1, if_neg (show ¬r.id = toRoom.id by rw [h1]; exact hne)]
    · rw [if_neg h1, if_neg h1]
      by_cases h2 : r.id = toRoom.id
      · rw [if_pos h2, if_pos h2]
      · rw [if_neg h2, if_neg h2, List.append_nil]
  have hmem2' : ∀ r ∈ roomsState,
      ∃ r' ∈ pushConnection (pushConnection roomsState fromRoom.id
        ⟨toRoom.id, corridor.id⟩) toRoom.id ⟨fromRoom.id, corridor.id⟩, r'.id = r.id := by
    intro r hr
    exact ⟨_, mem_pushConnection_of_mem toRoom.id _
      (mem_pushConnection_of_mem fromRoom.id _ hr), by rw [pushUpd_id, pushUpd_id]⟩
  constructor
  · intro c' hc'
    rcases List.mem_append.mp hc' with hcold | hcnew
    · obtain ⟨hne', hex1, hex2, hfilter⟩ := hOK.1 c' hcold
      have hidne : corridor.id ≠ c'.id := by
        have := hfresh c' hcold
        omega
      refine ⟨hne', ?_, ?_, ?_⟩
      · obtain ⟨r1, hr1, hid1⟩ := hex1
        obtain ⟨r1', hr1', hid1'⟩ := hmem2' r1 hr1
        exact ⟨r1', hr1', by rw [hid1', hid1]⟩
      · obtain ⟨r2, hr2, hid2⟩ := hex2
        obtain ⟨r2', hr2', hid2'⟩ := hmem2' r2 hr2
        exact ⟨r2', hr2', by rw [hid2', hid2]⟩
      · intro r' hr'
        obtain ⟨r, hr, hid, hconn⟩ := hmem2 r' hr'
        rw [hconn, List.filter_append, hid, hfilter r hr]
        have h2 : (if r.id = fromRoom.id then [(⟨toRoom.id, corridor.id⟩ : Conn)]
            else if r.id = toRoom.id then [(⟨fromRoom.id, corridor.id⟩ : Conn)]
            else []).filter (fun conn => conn.via = c'.id) = [] := by
          split
          · simp [List.filter_cons, hidne]
          · split
            · simp [List.filter_cons, hidne]
            · rfl
        rw [h2, List.append_nil]
    · rw [List.mem_singleton.mp hcnew]
      refine ⟨by rw [hcf, hct]; exact hne, ?_, ?_, ?_⟩
      · obtain ⟨r1', hr1', hid1'⟩ := hmem2' fromRoom hfrom
        exact ⟨r1', hr1', by rw [hid1', hcf]⟩
      · obtain ⟨r2', hr2', hid2'⟩ := hmem2' toRoom hto
        exact ⟨r2', hr2', by rw [hid2', hct]⟩
      · intro r' hr'
        obtain ⟨r, hr, hid, hconn⟩ := hmem2 r' hr'
        have hold : r.connections.filter (fun conn => conn.via = corridor.id) = [] := by
          rw [List.filter_eq_nil_iff]
          intro conn hcm
          obtain ⟨c'', hc''m, hc''id⟩ := hOK.2 r hr conn hcm
          have := hfresh c'' hc''m
          simp only [decide_eq_true_eq]
          omega
        rw [hconn, List.filter_append, hold, List.nil_append, hid, hcf, hct]
        by_cases h1 : r.id = fromRoom.id
        · rw [if_pos h1]
          simp [List.filter_cons]
        · rw [if_neg h1]
          by_cases h2 : r.id = toRoom.id
          · rw [if_pos h2]
            simp [List.filter_cons]
          · rw [if_neg h2]
            rfl
  · intro r' hr' conn hcm
    obtain ⟨r, hr, hid, hconn⟩ := hmem2 r' hr'
    rw [hconn] at hcm
    rcases List.mem_append.mp hcm with hm | hm
    · obtain ⟨c'', hc''m, hcid''⟩ := hOK.2 r hr conn hm
      exact ⟨c'', List.mem_append_left _ hc''m, hcid''⟩
    · have hvia : conn.via = corridor.id := by
        split at hm
        · rw [List.mem_singleton.mp hm]
        · split at hm
          · rw [List.mem_singleton.mp hm]
          · cases hm
      exact ⟨corridor, List.mem_append_right _ (List.mem_singleton_self _), hvia.symm⟩

/-- The room center x stays within the room's columns. -/
theorem centerX_bounds {gw gh : Int} {r : Room} (h : roomBoundsOK gw gh r) :
    r.x ≤ centerX r ∧ centerX r ≤ r.x + r.width - 1 := by
  simp only [roomBoundsOK] at h
  unfold centerX
  rw [Int.fdiv_eq_ediv _ (by decide)]
  omega

/-- The room center y stays within the room's lines. -/
theorem centerY_bounds {gw gh : Int} {r : Room} (h : roomBoundsOK gw gh r) :
    r.y ≤ centerY r ∧ centerY r ≤ r.y + r.height - 1 := by
  simp only [roomBoundsOK] at h
  unfold centerY
  rw [Int.fdiv_eq_ediv _ (by decide)]
  omega

/-- Cells of the horizontal walk lie between the endpoints. -/
theorem xSweep_mem {x1 x2 y : Int} {p : Int × Int} (h : p ∈ xSweep x1 x2 y) :
    ((x1 ≤ p.1 ∧ p.1 ≤ x2) ∨ (x2 ≤ p.1 ∧ p.1 ≤ x1)) ∧ p.2 = y := by
  simp only [xSweep] at h
  obtain ⟨i, hig, rfl⟩ := List.mem_map.mp h
  rw [List.mem_range] at hig
  refine ⟨?_, rfl⟩
  show (x1 ≤ x1 + (if x1 < x2 then 1 else -1) * ((i : Int) + 1) ∧
      x1 + (if x1 < x2 then 1 else -1) * ((i : Int) + 1) ≤ x2) ∨
    (x2 ≤ x1 + (if x1 < x2 then 1 else -1) * ((i : Int) + 1) ∧
      x1 + (if x1 < x2 then 1 else -1) * ((i : Int) + 1) ≤ x1)
  by_cases hlt : x1 < x2
  · rw [if_pos hlt]
    omega
  · rw [if_neg hlt]
    omega

/-- Cells of the vertical walk lie between the endpoints. -/
theorem ySweep_mem {x y1 y2 : Int} {p : Int × Int} (h : p ∈ ySweep x y1 y2) :
    ((y1 ≤ p.2 ∧ p.2 ≤ y2) ∨ (y2 ≤ p.2 ∧ p.2 ≤ y1)) ∧ p.1 = x := by
  simp only [ySweep] at h
  obtain ⟨i, hig, rfl⟩ := List.mem_map.mp h
  rw [List.mem_range] at hig
  refine ⟨?_, rfl⟩
  show (y1 ≤ y1 + (if y1 < y2 then 1 else -1) * ((i : Int) + 1) ∧
      y1 + (if y1 < y2 then 1 else -1) * ((i : Int) + 1) ≤ y2) ∨
    (y2 ≤ y1 + (if y1 < y2 then 1 else -1) * ((i : Int) + 1) ∧
      y1 + (if y1 < y2 then 1 else -1) * ((i : Int) + 1) ≤ y1)
  by_cases hlt : y1 < y2
  · rw [if_pos hlt]
    omega
  · rw [if_neg hlt]
    omega

/-- Every corridor path cell lies in the bounding box of the two
endpoints. -/
theorem generateCorridorPath_mem {x1 y1 x2 y2 : Int} {p : Int × Int}
    (h : p ∈ generateCorridorPath x1 y1 x2 y2) :
    ((x1 ≤ p.1 ∧ p.1 ≤ x2) ∨ (x2 ≤ p.1 ∧ p.1 ≤ x1)) ∧
      ((y1 ≤ p.2 ∧ p.2 ≤ y2) ∨ (y2 ≤ p.2 ∧ p.2 ≤ y1)) := by
  simp only [generateCorridorPath, List.mem_cons, List.mem_append] at h
  rcases h with rfl | h | h
  · dsimp only
    omega
  · obtain ⟨hx, hy⟩ := xSweep_mem h
    omega
  · obtain ⟨hy, hx⟩ := ySweep_mem h
    omega

/-- A corridor created from two in-bounds rooms has an in-bounds path. -/
theorem createCorridor_pathOK {gw gh : Int} {r1 r2 : Room} (counter : Nat) (o : CorrO)
    (h1 : roomBoundsOK gw gh r1) (h2 : roomBoundsOK gw gh r2) :
    pathOK gw gh (createCorridor r1 r2 counter o) := by
  intro p hp
  obtain ⟨hx1a, hx1b⟩ := centerX_bounds h1
  obtain ⟨hy1a, hy1b⟩ := centerY_bounds h1
  obtain ⟨hx2a, hx2b⟩ := centerX_bounds h2
  obtain ⟨hy2a, hy2b⟩ := centerY_bounds h2
  simp only [roomBoundsOK] at h1 h2
  have hm := generateCorridorPath_mem
    (show p ∈ generateCorridorPath (centerX r1) (centerY r1) (centerX r2) (centerY r2) from hp)
  omega

/-- The connection loop: with sound bookkeeping at entry it succeeds,
preserves the room geometry, adds one corridor per joined room, makes
every id reachable from the root, keeps the connection records exact and
the corridor ids fresh, and keeps all corridor paths in bounds. -/
theorem connectGo_spec (corrO : Nat → CorrO) (root : Nat) :
    ∀ (fuel : Nat) (roomsState : List Room) (connected unconnected : List Nat)
      (corridors : List Corridor) (counter iter : Nat),
      (roomsState.map (·.id)).Nodup →
      (connected ++ unconnected).Perm (roomsState.map (·.id)) →
      unconnected.length ≤ fuel →
      (∀ a ∈ connected, Reach (corridorEdges corridors) root a) →
      corridors.length + 1 = connected.length →
      corridorRecordsOK roomsState corridors →
      (∀ c ∈ corridors, c.id < counter) →
      ∃ rooms2 corridors2 counter2,
        connectGo corrO fuel roomsState connected unconnected corridors counter iter =
          some (rooms2, corridors2, counter2) ∧
        rooms2.map roomGeom = roomsState.map roomGeom ∧
        corridors2.length + 1 = connected.length + unconnected.length ∧
        (∀ a, a ∈ connected ∨ a ∈ unconnected → Reach (corridorEdges corridors2) root a) ∧
        corridorRecordsOK rooms2 corridors2 ∧
        (∀ c ∈ corridors2, c.id < counter2) ∧
        (∀ gw gh : Int, (∀ r ∈ roomsState, roomBoundsOK gw gh r) →
          (∀ c ∈ corridors, pathOK gw gh c) → ∀ c ∈ corridors2, pathOK gw gh c) := by
  intro fuel
  induction fuel with
  | zero =>
    intro roomsState connected unconnected corridors counter iter
      hnodup hperm hfuel hreach hcount hOK hfresh
    have hun : unconnected = [] := List.length_eq_zero.mp (Nat.le_zero.mp hfuel)
    subst hun
    refine ⟨roomsState, corridors, counter, rfl, rfl, by simpa using hcount, ?_, hOK, hfresh,
      fun gw gh _ hp => hp⟩
    intro a ha
    rcases ha with h | h
    · exact hreach a h
    · cases h
  | succ fuel ih =>
    intro roomsState connected unconnected corridors counter iter
      hnodup hperm hfuel hreach hcount hOK hfresh
    cases unconnected with
    | nil =>
      refine ⟨roomsState, corridors, counter, rfl, rfl, by simpa using hcount, ?_, hOK, hfresh,
        fun gw gh _ hp => hp⟩
      intro a ha
      rcases ha with h | h
      · exact hreach a h
      · cases h
    | cons u0 urest =>
      have hidu : ∀ uid ∈ u0 :: urest, uid ∈ roomsState.map (·.id) :=
        fun uid h => hperm.mem_iff.mp (List.mem_append_right _ h)
      have hidc : ∀ cid ∈ connected, cid ∈ roomsState.map (·.id) :=
        fun cid h => hperm.mem_iff.mp (List.mem_append_left _ h)
      obtain ⟨best2, hscan, hOKb, hnone⟩ :=
        scanConnected_spec roomsState connected (u0 :: urest) hidu connected none
          (fun c h => h) hidc trivial
      cases best2 with
      | none =>
        obtain ⟨_, hcs⟩ := hnone rfl
        rcases hcs with hc | hu
        · rw [hc] at hcount
          exact absurd hcount (by simp)
        · exact absurd hu (by simp)
      | some t =>
        obtain ⟨d, fromRoom, toRoom⟩ := t
        obtain ⟨hfm, hfc, htm, htu⟩ := pairOK_some.mp hOKb
        have hnodup2 : (connected ++ (u0 :: urest)).Nodup := hperm.nodup_iff.mpr hnodup
        have hne : fromRoom.id ≠ toRoom.id := by
          intro he
          rw [List.nodup_append] at hnodup2
          exact hnodup2.2.2 hfc (he.symm ▸ htu)
        have hstep : connectGo corrO (fuel + 1) roomsState connected (u0 :: urest)
            corridors counter iter =
          connectGo corrO fuel
            (pushConnection (pushConnection roomsState fromRoom.id ⟨toRoom.id, counter⟩)
              toRoom.id ⟨fromRoom.id, counter⟩)
            (connected ++ [toRoom.id]) ((u0 :: urest).erase toRoom.id)
            (corridors ++ [createCorridor fromRoom toRoom counter (corrO iter)])
            (counter + 1) (iter + 1) := by
          simp only [connectGo, List.isEmpty_cons, Bool.false_eq_true, if_false, hscan]
          rfl
        have hids2 : (pushConnection (pushConnection roomsState fromRoom.id
            ⟨toRoom.id, counter⟩) toRoom.id ⟨fromRoom.id, counter⟩).map (·.id) =
            roomsState.map (·.id) := by
          rw [pushConnection_ids, pushConnection_ids]
        have hgeom2 : (pushConnection (pushConnection roomsState fromRoom.id
            ⟨toRoom.id, counter⟩) toRoom.id ⟨fromRoom.id, counter⟩).map roomGeom =
            roomsState.map roomGeom := by
          rw [pushConnection_geom, pushConnection_geom]
        have hperm2 : ((connected ++ [toRoom.id]) ++ (u0 :: urest).erase toRoom.id).Perm
            ((pushConnection (pushConnection roomsState fromRoom.id ⟨toRoom.id, counter⟩)
              toRoom.id ⟨fromRoom.id, counter⟩).map (·.id)) := by
          rw [hids2]
          refine List.Perm.trans ?_ hperm
          rw [List.append_assoc]
          exact List.Perm.append_left _ ((List.perm_cons_erase htu).symm)
        have hfuel2 : ((u0 :: urest).erase toRoom.id).length ≤ fuel := by
          rw [List.length_erase_of_mem htu]
          simp only [List.length_cons] at hfuel ⊢
          omega
        have hE : corridorEdges (corridors ++ [createCorridor fromRoom toRoom counter (corrO iter)]) =
            corridorEdges corridors ++ [(fromRoom.id, toRoom.id)] := by
          simp only [corridorEdges, List.map_append, List.map_cons, List.map_nil]
          rfl
        have hreach2 : ∀ a ∈ connected ++ [toRoom.id],
            Reach (corridorEdges (corridors ++
              [createCorridor fromRoom toRoom counter (corrO iter)])) root a := by
          intro a ha
          rw [hE]
          rcases List.mem_append.mp ha with h | h
          · exact (hreach a h).mono
          · rw [List.mem_singleton.mp h]
            exact Reach.stepF ((hreach _ hfc).mono)
              (List.mem_append_right _ (List.mem_singleton_self _))
        have hcount2 : (corridors ++ [createCorridor fromRoom toRoom counter (corrO iter)]).length + 1 =
            (connected ++ [toRoom.id]).length := by
          simp only [List.length_append, List.length_cons, List.length_nil]
          omega
        have hOK2 := recordsOK_step roomsState corridors fromRoom toRoom counter
          (createCorridor fromRoom toRoom counter (corrO iter)) hfm htm hne rfl rfl rfl hOK hfresh
        have hfresh2 : ∀ c ∈ corridors ++ [createCorridor fromRoom toRoom counter (corrO iter)],
            c.id < counter + 1 := by
          intro c hc
          rcases List.mem_append.mp hc with h | h
          · have := hfresh c h
            omega
          · rw [List.mem_singleton.mp h]
            show counter < counter + 1
            omega
        have hnodup2' : ((pushConnection (pushConnection roomsState fromRoom.id
            ⟨toRoom.id, counter⟩) toRoom.id ⟨fromRoom.id, counter⟩).map (·.id)).Nodup := by
          rw [hids2]
          exact hnodup
        obtain ⟨rooms3, corridors3, counter3, heq, hgeom3, hcount3, hreach3, hOK3, hfresh3, hpaths3⟩ :=
          ih (pushConnection (pushConnection roomsState fromRoom.id ⟨toRoom.id, counter⟩)
              toRoom.id ⟨fromRoom.id, counter⟩)
            (connected ++ [toRoom.id]) ((u0 :: urest).erase toRoom.id)
            (corridors ++ [createCorridor fromRoom toRoom counter (corrO iter)])
            (counter + 1) (iter + 1) hnodup2' hperm2 hfuel2 hreach2 hcount2 hOK2 hfresh2
        refine ⟨rooms3, corridors3, counter3, by rw [hstep]; exact heq,
          hgeom3.trans hgeom2, ?_, ?_, hOK3, hfresh3, ?_⟩
        · rw [hcount3, List.length_append, List.length_erase_of_mem htu]
          simp only [List.length_cons, List.length_nil]
          omega
        · intro a ha
          apply hreach3
          rcases ha with h | h
          · exact Or.inl (List.mem_append_left _ h)
          · by_cases hat : a = toRoom.id
            · exact Or.inl (List.mem_append_right _ (hat ▸ List.mem_singleton_self _))
            · exact Or.inr ((List.mem_erase_of_ne hat).mpr h)
        · intro gw gh hb hp
          apply hpaths3 gw gh (roomBoundsOK_of_geom hgeom2.symm hb)
          intro c hc
          rcases List.mem_append.mp hc with h | h
          · exact hp c h
          · rw [List.mem_singleton.mp h]
            exact createCorridor_pathOK counter (corrO iter) (hb fromRoom hfm) (hb toRoom htm)

/-- `connectRooms` on a nonempty list of distinct fresh rooms without
records: it succeeds, keeps the geometry, builds a spanning tree
(`n - 1` corridors, all rooms mutually reachable), keeps the records
exact, and keeps all corridor paths inside any grid bounding the rooms. -/
theorem connectRooms_spec (corrO : Nat → CorrO) (rooms : List Room) (counter : Nat)
    (hnodup : (rooms.map (·.id)).Nodup)
    (hconn0 : ∀ r ∈ rooms, r.connections = [])
    (hne : rooms ≠ []) :
    ∃ rooms2 corridors counter2,
      connectRooms corrO rooms counter = some (rooms2, corridors, counter2) ∧
      rooms2.map roomGeom = rooms.map roomGeom ∧
      corridors.length + 1 = rooms.length ∧
      (∀ r1 ∈ rooms2, ∀ r2 ∈ rooms2, Reach (corridorEdges corridors) r1.id r2.id) ∧
      corridorRecordsOK rooms2 corridors ∧
      (∀ gw gh : Int, (∀ r ∈ rooms, roomBoundsOK gw gh r) → ∀ c ∈ corridors, pathOK gw gh c) := by
  cases rooms with
  | nil => exact absurd rfl hne
  | cons r0 rest =>
    have hOK0 : corridorRecordsOK (r0 :: rest) [] := by
      constructor
      · intro c hc
        cases hc
      · intro r hr conn hcm
        rw [hconn0 r hr] at hcm
        cases hcm
    obtain ⟨rooms2, corridors2, counter2, heq, hgeom, hcount, hreach, hOK, hfresh, hpaths⟩ :=
      connectGo_spec corrO r0.id (rest.length + 1) (r0 :: rest) [r0.id] (rest.map (·.id))
        [] counter 0 hnodup (by simp) (by simp)
        (by
          intro a ha
          rw [List.mem_singleton.mp ha]
          exact Reach.refl _)
        rfl hOK0 (fun c hc => absurd hc (List.not_mem_nil c))
    have hroot : ∀ r ∈ rooms2, Reach (corridorEdges corridors2) r0.id r.id := by
      intro r hr
      apply hreach
      have : r.id ∈ rooms2.map (·.id) := List.mem_map_of_mem _ hr
      rw [ids_of_geom hgeom] at this
      simp only [List.map_cons, List.mem_cons] at this
      rcases this with h | h
      · exact Or.inl (h ▸ List.mem_singleton_self _)
      · exact Or.inr (List.mem_map.mpr (by
          obtain ⟨r', hr', hid⟩ := List.mem_map.mp (by simpa using h)
          exact ⟨r', hr', hid⟩))
    refine ⟨rooms2, corridors2, counter2, heq, hgeom, ?_, ?_, hOK, ?_⟩
    · simp only [List.length_singleton, List.length_map, List.length_cons, List.length_nil]
        at hcount ⊢
      omega
    · intro r1 hr1 r2 hr2
      exact Reach.trans (hroot r1 hr1).symm (hroot r2 hr2)
    · intro gw gh hb
      exact hpaths gw gh hb (fun c hc => absurd hc (List.not_mem_nil c))

/-- `applyHook` changes neither the id nor the connection list. -/
theorem applyHook_id_conn (td : RoomTypeDef) (room : Room) :
    (applyHook td room).id = room.id ∧ (applyHook td room).connections = room.connections := by
  unfold applyHook
  split <;> exact ⟨rfl, rfl⟩

/-- The placement loop keeps ids fresh and distinct, leaves connection
lists empty, never decreases the counter, and places at most as many
rooms as requested. -/
theorem placeRoomsGo_basic (registry : List (String × RoomTypeDef)) (monsters : List Monster)
    (items : List Item) (level : Int) (roomO : Nat → RoomO) :
    ∀ (rem : Nat) (i : Nat) (grid : Grid) (counter : Nat) (acc : List Room),
      (∀ r ∈ acc, r.id < counter ∧ r.connections = []) →
      (acc.map (·.id)).Nodup →
      ∀ placed grid2 counter2,
        placeRoomsGo registry monsters items level roomO i rem grid counter acc =
          some (placed, grid2, counter2) →
        (∀ r ∈ placed, r.id < counter2 ∧ r.connections = []) ∧
        (placed.map (·.id)).Nodup ∧ counter ≤ counter2 ∧
        placed.length ≤ acc.length + rem := by
  intro rem
  induction rem with
  | zero =>
    intro i grid counter acc hacc hnodup placed grid2 counter2 h
    simp only [placeRoomsGo, Option.some.injEq, Prod.mk.injEq] at h
    obtain ⟨h1, _, h3⟩ := h
    subst h1
    subst h3
    exact ⟨hacc, hnodup, Nat.le_refl _, by omega⟩
  | succ rem ih =>
    intro i grid counter acc hacc hnodup placed grid2 counter2 h
    simp only [placeRoomsGo] at h
    cases hsel : selectWeightedRoomType registry (roomO i).typeR with
    | none => rw [hsel] at h; exact absurd h (by simp)
    | some roomType =>
      rw [hsel] at h
      dsimp only at h
      cases hlook : lookupType registry roomType with
      | none => rw [hlook] at h; exact absurd h (by simp)
      | some typeDef =>
        rw [hlook] at h
        dsimp only at h
        cases hpos : findRoomPosition grid
            (randomInRange typeDef.minSize.width typeDef.maxSize.width (roomO i).wR)
            (randomInRange typeDef.minSize.height typeDef.maxSize.height (roomO i).hR)
            (roomO i).posR with
        | none =>
          rw [hpos] at h
          obtain ⟨c1, c2, c3, c4⟩ := ih (i + 1) grid counter acc hacc hnodup placed grid2 counter2 h
          exact ⟨c1, c2, c3, by omega⟩
        | some xy =>
          rw [hpos] at h
          obtain ⟨x, y⟩ := xy
          dsimp only at h
          cases hcts : generateRoomContents roomType level monsters items (roomO i).contentsO with
          | none => rw [hcts] at h; exact absurd h (by simp)
          | some contents =>
            rw [hcts] at h
            dsimp only at h
            have hacc2 : ∀ r ∈ acc ++ [applyHook typeDef
                { id := counter, type := roomType, x := x, y := y,
                  width := randomInRange typeDef.minSize.width typeDef.maxSize.width (roomO i).wR,
                  height := randomInRange typeDef.minSize.height typeDef.maxSize.height (roomO i).hR,
                  level := level, contents := contents,
                  features := generateRoomFeatures typeDef (roomO i).featR,
                  description := generateRoomDescription roomType (roomO i).descR,
                  connections := [], ambience := none, lighting := none }],
                r.id < counter + 1 ∧ r.connections = [] := by
              intro r hr
              rcases List.mem_append.mp hr with hm | hm
              · obtain ⟨ha, hb⟩ := hacc r hm
                exact ⟨by omega, hb⟩
              · rw [List.mem_singleton.mp hm]
                obtain ⟨ha, hb⟩ := applyHook_id_conn typeDef _
                rw [ha, hb]
                exact ⟨Nat.lt_succ_self _, rfl⟩
            have hnodup2 : ((acc ++ [applyHook typeDef
                { id := counter, type := roomType, x := x, y := y,
                  width := randomInRange typeDef.minSize.width typeDef.maxSize.width (roomO i).wR,
                  height := randomInRange typeDef.minSize.height typeDef.maxSize.height (roomO i).hR,
                  level := level, contents := contents,
                  features := generateRoomFeatures typeDef (roomO i).featR,
                  description := generateRoomDescription roomType (roomO i).descR,
                  connections := [], ambience := none, lighting := none }]).map (·.id)).Nodup := by
              rw [List.map_append]
              rw [List.nodup_append]
              refine ⟨hnodup, List.nodup_singleton _, ?_⟩
              intro a ha hb
              simp only [List.map_cons, List.map_nil, List.mem_singleton] at hb
              rw [(applyHook_id_conn typeDef _).1] at hb
              dsimp only at hb
              obtain ⟨r, hr, hrid⟩ := List.mem_map.mp ha
              have := (hacc r hr).1
              omega
            obtain ⟨c1, c2, c3, c4⟩ := ih (i + 1) _ (counter + 1) _ hacc2 hnodup2
              placed grid2 counter2 h
            refine ⟨c1, c2, by omega, ?_⟩
            rw [List.length_append] at c4
            simp only [List.length_cons, List.length_nil] at c4
            omega

/-- Full inversion of a successful `generateFloor` call: the placement and
connection results it was assembled from. -/
theorem generateFloor_inv (registry : List (String × RoomTypeDef)) (monsters : List Monster)
    (items : List Item) (floorNumber : Nat) (roomsCount : Int) (level : Int)
    (theme size : String) (o : FloorO) (counter : Nat) (f : Floor) (c3 : Nat)
    (h : generateFloor registry monsters items floorNumber roomsCount level theme size o counter =
      some (f, c3)) :
    ∃ placed grid2 counter2 rooms2 corridors counter4 first last,
      placeRooms registry monsters items
        (createGrid (getGridSize size).width (getGridSize size).height)
        roomsCount level o.roomO (counter + 1) = some (placed, grid2, counter2) ∧
      connectRooms o.corrO placed counter2 = some (rooms2, corridors, counter4) ∧
      rooms2.head? = some first ∧ rooms2.getLast? = some last ∧ c3 = counter4 ∧
      f.rooms = rooms2 ∧ f.corridors = corridors ∧
      f.entrances = [⟨"stairs_down", first.id, "A staircase leading down into the dungeon"⟩] ∧
      f.exits = [⟨"stairs_up", last.id, "A staircase leading up to the surface"⟩] := by
  simp only [generateFloor] at h
  cases hp : placeRooms registry monsters items
      (createGrid (getGridSize size).width (getGridSize size).height) roomsCount level
      o.roomO (counter + 1) with
  | none => rw [hp] at h; exact absurd h (by simp)
  | some pr =>
    rw [hp] at h
    obtain ⟨placed, grid2, counter2⟩ := pr
    dsimp only at h
    cases hc : connectRooms o.corrO placed counter2 with
    | none => rw [hc] at h; exact absurd h (by simp)
    | some cr =>
      rw [hc] at h
      obtain ⟨rooms2, corridors, counter4⟩ := cr
      dsimp only at h
      simp only [setEntrancesAndExits] at h
      cases hh : rooms2.head? with
      | none => rw [hh] at h; exact absurd h (by simp)
      | some first =>
        cases hl : rooms2.getLast? with
        | none => rw [hh, hl] at h; exact absurd h (by simp)
        | some last =>
          rw [hh, hl] at h
          simp only [Option.some.injEq, Prod.mk.injEq] at h
          obtain ⟨hf, hcn⟩ := h
          subst hf
          exact ⟨placed, grid2, counter2, rooms2, corridors, counter4, first, last,
            rfl, hc, hh, hl, hcn.symm, rfl, rfl, by simp, by simp⟩

/-- Claim C1: every successfully generated floor has at least one room,
exactly one corridor fewer than rooms, and its corridor graph connects
every pair of rooms (a spanning tree). -/
theorem c1_spanning_tree (registry : List (String × RoomTypeDef)) (monsters : List Monster)
    (items : List Item) (floorNumber : Nat) (roomsCount : Int) (level : Int)
    (theme size : String) (o : FloorO) (counter : Nat) (f : Floor) (cNext : Nat)
    (h : generateFloor registry monsters items floorNumber roomsCount level theme size o counter =
      some (f, cNext)) :
    f.rooms ≠ [] ∧ f.corridors.length + 1 = f.rooms.length ∧
    ∀ r1 ∈ f.rooms, ∀ r2 ∈ f.rooms, Reach (corridorEdges f.corridors) r1.id r2.id := by
  obtain ⟨placed, grid2, counter2, rooms2, corridors, counter4, first, last,
    hp, hc, hh, hl, hcn, hfr, hfc, hfe, hfx⟩ := generateFloor_inv _ _ _ _ _ _ _ _ _ _ _ _ h
  obtain ⟨hfresh, hnodup, hcle, hlen⟩ :=
    placeRoomsGo_basic registry monsters items level o.roomO roomsCount.toNat 0
      (createGrid (getGridSize size).width (getGridSize size).height) (counter + 1) []
      (fun r hr => absurd hr (List.not_mem_nil r)) List.nodup_nil placed grid2 counter2 hp
  have hpne : placed ≠ [] := by
    intro hnil
    rw [hnil] at hc
    exact absurd hc (by simp [connectRooms])
  obtain ⟨rooms2', corridors', counter4', heq, hgeom, hcount, hreach, hOK, hpaths⟩ :=
    connectRooms_spec o.corrO placed counter2 hnodup (fun r hr => (hfresh r hr).2) hpne
  rw [heq] at hc
  simp only [Option.some.injEq, Prod.mk.injEq] at hc
  obtain ⟨h1, h2, h3⟩ := hc
  rw [← h1] at hfr
  rw [← h2] at hfc
  have hlen2 : rooms2'.length = placed.length := by
    have := congrArg List.length hgeom
    simpa using this
  refine ⟨?_, ?_, ?_⟩
  · rw [hfr]
    intro hnil
    rw [hnil] at hlen2
    exact hpne (List.length_eq_zero.mp hlen2.symm)
  · rw [hfr, hfc, hcount, hlen2]
  · rw [hfr, hfc]
    exact hreach

/-- Claim C10: on every successfully generated floor the connection
records are exact — each corridor joins two distinct existing rooms and
the records carrying its id are exactly one on each endpoint, pointing at
the opposite endpoint — and symmetric: every record on a room is mirrored
by a record on the room it points to, through the same corridor. -/
theorem c10_connection_records (registry : List (String × RoomTypeDef))
    (monsters : List Monster) (items : List Item) (floorNumber : Nat) (roomsCount : Int)
    (level : Int) (theme size : String) (o : FloorO) (counter : Nat) (f : Floor) (cNext : Nat)
    (h : generateFloor registry monsters items floorNumber roomsCount level theme size o counter =
      some (f, cNext)) :
    corridorRecordsOK f.rooms f.corridors ∧
    ∀ r ∈ f.rooms, ∀ conn ∈ r.connections, ∃ r2 ∈ f.rooms, r2.id = conn.toRoom ∧
      (⟨r.id, conn.via⟩ : Conn) ∈ r2.connections := by
  obtain ⟨placed, grid2, counter2, rooms2, corridors, counter4, first, last,
    hp, hc, hh, hl, hcn, hfr, hfc, hfe, hfx⟩ := generateFloor_inv _ _ _ _ _ _ _ _ _ _ _ _ h
  obtain ⟨hfresh, hnodup, hcle, hlen⟩ :=
    placeRoomsGo_basic registry monsters items level o.roomO roomsCount.toNat 0
      (createGrid (getGridSize size).width (getGridSize size).height) (counter + 1) []
      (fun r hr => absurd hr (List.not_mem_nil r)) List.nodup_nil placed grid2 counter2 hp
  have hpne : placed ≠ [] := by
    intro hnil
    rw [hnil] at hc
    exact absurd hc (by simp [connectRooms])
  obtain ⟨rooms2', corridors', counter4', heq, hgeom, hcount, hreach, hOK, hpaths⟩ :=
    connectRooms_spec o.corrO placed counter2 hnodup (fun r hr => (hfresh r hr).2) hpne
  rw [heq] at hc
  simp only [Option.some.injEq, Prod.mk.injEq] at hc
  obtain ⟨h1, h2, h3⟩ := hc
  rw [← h1] at hfr
  rw [← h2] at hfc
  rw [hfr, hfc]
  refine ⟨hOK, ?_⟩
  intro r hr conn hcm
  obtain ⟨c, hcmem, hcvia⟩ := hOK.2 r hr conn hcm
  obtain ⟨hcne, hex1, hex2, hfilter⟩ := hOK.1 c hcmem
  have hconnf : conn ∈ r.connections.filter (fun conn => conn.via = c.id) :=
    List.mem_filter.mpr ⟨hcm, by simp [hcvia]⟩
  rw [hfilter r hr] at hconnf
  by_cases hA : r.id = c.fromE.room
  · rw [if_pos hA] at hconnf
    have hconn : conn = ⟨c.toE.room, c.id⟩ := List.mem_singleton.mp hconnf
    obtain ⟨r2, hr2, hr2id⟩ := hex2
    refine ⟨r2, hr2, by rw [hr2id, hconn], ?_⟩
    have hf2 := hfilter r2 hr2
    rw [if_neg (by rw [hr2id]; exact fun he => hcne he.symm), if_pos hr2id] at hf2
    have : (⟨c.fromE.room, c.id⟩ : Conn) ∈ r2.connections.filter (fun conn => conn.via = c.id) := by
      rw [hf2]
      exact List.mem_singleton_self _
    have hm2 := List.mem_of_mem_filter this
    rw [hconn]
    show (⟨r.id, c.id⟩ : Conn) ∈ r2.connections
    rw [hA]
    exact hm2
  · rw [if_neg hA] at hconnf
    by_cases hB : r.id = c.toE.room
    · rw [if_pos hB] at hconnf
      have hconn : conn = ⟨c.fromE.room, c.id⟩ := List.mem_singleton.mp hconnf
      obtain ⟨r2, hr2, hr2id⟩ := hex1
      refine ⟨r2, hr2, by rw [hr2id, hconn], ?_⟩
      have hf2 := hfilter r2 hr2
      rw [if_pos hr2id] at hf2
      have : (⟨c.toE.room, c.id⟩ : Conn) ∈ r2.connections.filter (fun conn => conn.via = c.id) := by
        rw [hf2]
        exact List.mem_singleton_self _
      have hm2 := List.mem_of_mem_filter this
      rw [hconn]
      show (⟨r.id, c.id⟩ : Conn) ∈ r2.connections
      rw [hB]
      exact hm2
    · rw [if_neg hB] at hconnf
      cases hconnf

/-- Claim C8: a `generateDungeon` call with one floor, five rooms per
floor and the small 10×10 grid over the builtin room types yields exactly
one floor, with between 1 and 5 achieved rooms, exactly one corridor
fewer than rooms, and exactly one entrance at the first placed room and
one exit at the last. -/
theorem c8_small_floor_scenario (monsters : List Monster) (items : List Item)
    (name theme createdAt : String) (level : Int) (o : Nat → FloorO) (D : Dungeon)
    (h : generateDungeon builtinRoomTypes monsters items
      ⟨name, level, 1, 5, theme, "small"⟩ createdAt o = some D) :
    ∃ f, D.floors = [f] ∧
      1 ≤ f.rooms.length ∧ f.rooms.length ≤ 5 ∧
      f.corridors.length + 1 = f.rooms.length ∧
      f.entrances.length = 1 ∧ f.exits.length = 1 ∧
      (∀ e ∈ f.entrances, f.rooms.head?.map (·.id) = some e.roomId ∧ e.type = "stairs_down") ∧
      (∀ e ∈ f.exits, f.rooms.getLast?.map (·.id) = some e.roomId ∧ e.type = "stairs_up") := by
  unfold generateDungeon at h
  have htn : ((⟨name, level, 1, 5, theme, "small"⟩ : DungeonOptions).floors).toNat = 1 := rfl
  rw [htn] at h
  simp only [generateFloorsGo] at h
  cases hf : generateFloor builtinRoomTypes monsters items (0 + 1)
      (⟨name, level, 1, 5, theme, "small"⟩ : DungeonOptions).roomsPerFloor
      ((⟨name, level, 1, 5, theme, "small"⟩ : DungeonOptions).level + ((0 : Nat) : Int))
      (⟨name, level, 1, 5, theme, "small"⟩ : DungeonOptions).theme
      (⟨name, level, 1, 5, theme, "small"⟩ : DungeonOptions).size (o 0) 1 with
  | none => rw [hf] at h; exact absurd h (by simp)
  | some fc =>
    rw [hf] at h
    obtain ⟨floor, counter2⟩ := fc
    dsimp only at h
    simp only [generateFloorsGo, Option.some.injEq] at h
    obtain ⟨placed, grid2, counterB, rooms2, corridors, counterC, first, last,
      hp, hc, hh, hl, hcn, hfr, hfc, hfe, hfx⟩ :=
      generateFloor_inv _ _ _ _ _ _ _ _ _ _ _ _ hf
    obtain ⟨hfresh, hnodup, hcle, hlen⟩ :=
      placeRoomsGo_basic builtinRoomTypes monsters items
        ((⟨name, level, 1, 5, theme, "small"⟩ : DungeonOptions).level + ((0 : Nat) : Int))
        (o 0).roomO ((5 : Int)).toNat 0
        (createGrid (getGridSize "small").width (getGridSize "small").height) (1 + 1) []
        (fun r hr => absurd hr (List.not_mem_nil r)) List.nodup_nil placed grid2 counterB hp
    have hpne : placed ≠ [] := by
      intro hnil
      rw [hnil] at hc
      exact absurd hc (by simp [connectRooms])
    obtain ⟨rooms2', corridors', counterC', heq, hgeom, hcount, hreach, hOK, hpaths⟩ :=
      connectRooms_spec (o 0).corrO placed counterB hnodup
        (fun r hr => (hfresh r hr).2) hpne
    rw [heq] at hc
    simp only [Option.some.injEq, Prod.mk.injEq] at hc
    obtain ⟨h1, h2, h3⟩ := hc
    rw [← h1] at hfr hh hl
    rw [← h2] at hfc
    have hlen2 : rooms2'.length = placed.length := by
      have := congrArg List.length hgeom
      simpa using this
    have hple : placed.length ≤ 5 := by
      simpa using hlen
    have hppos : 1 ≤ placed.length := by
      cases hpl : placed with
      | nil => exact absurd hpl hpne
      | cons a l => simp [hpl]
    refine ⟨floor, ?_, ?_, ?_, ?_, ?_, ?_, ?_, ?_⟩
    · rw [← h]
      simp
    · rw [hfr, hlen2]
      exact hppos
    · rw [hfr, hlen2]
      exact hple
    · rw [hfr, hfc, hcount, hlen2]
    · rw [hfe]
      rfl
    · rw [hfx]
      rfl
    · intro e he
      rw [hfe] at he
      rw [List.mem_singleton.mp he]
      rw [hfr, hh]
      exact ⟨rfl, rfl⟩
    · intro e he
      rw [hfx] at he
      rw [List.mem_singleton.mp he]
      rw [hfr, hl]
      exact ⟨rfl, rfl⟩

set_option maxHeartbeats 1000000 in
/-- Claim C1, witness instance: a concrete one-room small floor built
with the all-zero oracle satisfies the spanning-tree property. -/
theorem c1_witness :
    ∃ f c2, generateFloor builtinRoomTypes [] [] 1 1 1 "generic" "small" zFloorO 0 =
        some (f, c2) ∧
      (f.rooms ≠ [] ∧ f.corridors.length + 1 = f.rooms.length ∧
       ∀ r1 ∈ f.rooms, ∀ r2 ∈ f.rooms, Reach (corridorEdges f.corridors) r1.id r2.id) := by
  cases hF : generateFloor builtinRoomTypes [] [] 1 1 1 "generic" "small" zFloorO 0 with
  | none => exact absurd hF (by decide)
  | some fc =>
    exact ⟨fc.1, fc.2, rfl, c1_spanning_tree _ _ _ _ _ _ _ _ _ _ _ _ hF⟩

set_option maxHeartbeats 1000000 in
/-- Claim C10, witness instance: the concrete two-room floor of the
buffer counterexample has exact and symmetric connection records. -/
theorem c10_witness :
    ∃ f c2, generateFloor builtinRoomTypes [] [] 1 2 1 "generic" "small" cexFloorO 0 =
        some (f, c2) ∧
      (corridorRecordsOK f.rooms f.corridors ∧
       ∀ r ∈ f.rooms, ∀ conn ∈ r.connections, ∃ r2 ∈ f.rooms, r2.id = conn.toRoom ∧
         (⟨r.id, conn.via⟩ : Conn) ∈ r2.connections) := by
  cases hF : generateFloor builtinRoomTypes [] [] 1 2 1 "generic" "small" cexFloorO 0 with
  | none => exact absurd hF (by decide)
  | some fc =>
    exact ⟨fc.1, fc.2, rfl, c10_connection_records _ _ _ _ _ _ _ _ _ _ _ _ hF⟩

set_option maxHeartbeats 1600000 in
/-- Claim C8, witness instance: the concrete scenario dungeon (one floor,
five rooms requested, small grid, all-zero oracle) satisfies the scenario
properties. -/
theorem c8_witness :
    ∃ D, generateDungeon builtinRoomTypes [] [] ⟨"d", 1, 1, 5, "generic", "small"⟩ "t"
        (fun _ => zFloorO) = some D ∧
      (∃ f, D.floors = [f] ∧
        1 ≤ f.rooms.length ∧ f.rooms.length ≤ 5 ∧
        f.corridors.length + 1 = f.rooms.length ∧
        f.entrances.length = 1 ∧ f.exits.length = 1 ∧
        (∀ e ∈ f.entrances, f.rooms.head?.map (·.id) = some e.roomId ∧ e.type = "stairs_down") ∧
        (∀ e ∈ f.exits, f.rooms.getLast?.map (·.id) = some e.roomId ∧ e.type = "stairs_up")) := by
  cases hD : generateDungeon builtinRoomTypes [] [] ⟨"d", 1, 1, 5, "generic", "small"⟩ "t"
      (fun _ => zFloorO) with
  | none => exact absurd hD (by decide)
  | some D =>
    exact ⟨D, rfl, c8_small_floor_scenario [] [] "d" "generic" "t" 1 (fun _ => zFloorO) D hD⟩

/-! ## Placement geometry: the buffer and bounds invariant -/

/-- The roulette scan only returns keys of the walked list. -/
theorem selectWeightedGo_mem (den : Nat) :
    ∀ (l : List (String × RoomTypeDef)) (num : Int) (t : String),
      selectWeightedGo den l num = some t → t ∈ l.map (·.1) := by
  intro l
  induction l with
  | nil => intro num t h; exact absurd h (by simp [selectWeightedGo])
  | cons p rest ih =>
    intro num t h
    obtain ⟨t0, d0⟩ := p
    simp only [selectWeightedGo] at h
    split at h
    · rw [Option.some.injEq] at h
      rw [← h]
      exact List.mem_cons_self _ _
    · exact List.mem_cons_of_mem _ (ih _ t h)

/-- A selected room type is a key of the registry. -/
theorem selectWeighted_mem (registry : List (String × RoomTypeDef)) (q : U01) (t : String)
    (h : selectWeightedRoomType registry q = some t) : t ∈ registry.map (·.1) := by
  simp only [selectWeightedRoomType] at h
  split at h
  · next t' heq =>
    rw [Option.some.injEq] at h
    exact h ▸ selectWeightedGo_mem _ _ _ _ heq
  · cases registry with
    | nil => exact absurd h (by simp)
    | cons p rest =>
      simp only [List.head?, Option.map_some'] at h
      rw [Option.some.injEq] at h
      rw [← h]
      exact List.mem_map_of_mem _ (List.mem_cons_self _ _)

/-- A registry key lookup succeeds and, on a well-formed registry, yields
a well-formed type definition. -/
theorem lookupType_wf (registry : List (String × RoomTypeDef)) (gw gh : Int)
    (hwf : RegistryWf registry gw gh) (t : String) (td : RoomTypeDef)
    (h : lookupType registry t = some td) : RoomTypeWf td gw gh := by
  simp only [lookupType] at h
  cases hfind : registry.find? (fun p => p.1 = t) with
  | none => rw [hfind] at h; exact absurd h (by simp)
  | some p =>
    rw [hfind, Option.map_some', Option.some.injEq] at h
    have hmem := List.mem_of_find?_eq_some hfind
    rw [← h]
    exact hwf p hmem

/-- `applyHook` keeps the geometry. -/
theorem applyHook_geom (td : RoomTypeDef) (room : Room) :
    roomGeom (applyHook td room) = roomGeom room := by
  unfold applyHook
  split <;> rfl

/-- `applyHook` keeps the room rectangle. -/
theorem applyHook_rect (td : RoomTypeDef) (room : Room) (m : Int) :
    roomRect (applyHook td room) m = roomRect room m := by
  unfold applyHook
  split <;> rfl

/-- `applyHook` keeps cell membership. -/
theorem applyHook_inRect (td : RoomTypeDef) (room : Room) (cx cy : Int) :
    inRect (applyHook td room) cx cy ↔ inRect room cx cy := by
  unfold applyHook
  split <;> exact Iff.rfl

/-- Equal geometries give equal rectangles. -/
theorem roomRect_geom {a b : Room} (h : roomGeom a = roomGeom b) (m : Int) :
    roomRect a m = roomRect b m := by
  obtain ⟨_, _, hx, hy, hw, hh⟩ := geom_fields h
  unfold roomRect
  rw [hx, hy, hw, hh]

/-- Separation of the expanded candidate from a bare placed room yields
the full buffer relation in both directions. -/
theorem buffered_of_sep {B r : Room}
    (core : (roomRect B 1).disjointB (roomRect r 0) = true) :
    (Buffered B r ∧ Buffered r B) := by
  simp only [IRect.disjointB, roomRect, decide_eq_true_eq] at core
  refine ⟨⟨?_, ?_⟩, ⟨?_, ?_⟩⟩ <;>
    simp only [IRect.disjointB, roomRect, decide_eq_true_eq] <;> omega

/-- The cell function of a marked grid. -/
theorem markGrid_cells (grid : Grid) (room : Room) (cx cy : Int) :
    (markGrid grid room).cells cy cx =
      if room.y ≤ cy ∧ cy < room.y + room.height ∧ room.x ≤ cx ∧ cx < room.x + room.width
      then some room.id else grid.cells cy cx := rfl

/-- `markGrid` keeps the grid dimensions. -/
theorem markGrid_dims (grid : Grid) (room : Room) :
    (markGrid grid room).width = grid.width ∧ (markGrid grid room).height = grid.height :=
  ⟨rfl, rfl⟩

/-- What acceptance by `canPlaceRoom` means: the rectangle stays strictly
inside the grid and every grid cell of the rectangle expanded by the
1-cell margin ring is free. -/
theorem canPlaceRoom_spec {grid : Grid} {x y width height : Int}
    (h : canPlaceRoom grid x y width height = true)
    (hw : 1 ≤ width) (hh : 1 ≤ height) :
    x + width < grid.width ∧ y + height < grid.height ∧
    ∀ cx cy : Int, x - 1 ≤ cx → cx ≤ x + width → y - 1 ≤ cy → cy ≤ y + height →
      0 ≤ cx → cx < grid.width → 0 ≤ cy → cy < grid.height →
      grid.cells cy cx = none := by
  unfold canPlaceRoom at h
  split at h
  · exact absurd h (by simp)
  · next hbnd =>
    push_neg at hbnd
    refine ⟨by omega, by omega, ?_⟩
    intro cx cy h1 h2 h3 h4 h5 h6 h7 h8
    have hdy : (cy - y + 1).toNat < (height + 2).toNat := by omega
    have hdx : (cx - x + 1).toNat < (width + 2).toNat := by omega
    have hy2 := List.all_eq_true.mp h _ (List.mem_range.mpr hdy)
    have hx2 := List.all_eq_true.mp hy2 _ (List.mem_range.mpr hdx)
    have hcy : y + ((cy - y + 1).toNat : Int) - 1 = cy := by omega
    have hcx : x + ((cx - x + 1).toNat : Int) - 1 = cx := by omega
    dsimp only at hx2
    rw [hcx, hcy] at hx2
    rw [if_pos ⟨h7, h8, h5, h6⟩] at hx2
    exact Option.isNone_iff_eq_none.mp hx2

/-- A position accepted by the attempt loop passed `canPlaceRoom` and has
both coordinates at least 1. -/
theorem findRoomPositionGo_spec {grid : Grid} {width height : Int} {posR : Nat → U01 × U01}
    (hMx : 0 ≤ grid.width - width - 2) (hMy : 0 ≤ grid.height - height - 2) :
    ∀ (rem att : Nat) (x y : Int),
      findRoomPositionGo grid width height posR att rem = some (x, y) →
      canPlaceRoom grid x y width height = true ∧ 1 ≤ x ∧ 1 ≤ y := by
  intro rem
  induction rem with
  | zero => intro att x y h; exact absurd h (by simp [findRoomPositionGo])
  | succ rem ih =>
    intro att x y h
    simp only [findRoomPositionGo] at h
    split at h
    · next hcan =>
      simp only [Option.some.injEq, Prod.mk.injEq] at h
      obtain ⟨hx, hy⟩ := h
      subst hx
      subst hy
      refine ⟨hcan, ?_, ?_⟩
      · have := jsFloorMulInt_nonneg (posR att).1 (grid.width - width - 2) hMx
        omega
      · have := jsFloorMulInt_nonneg (posR att).2 (grid.height - height - 2) hMy
        omega
    · exact ih (att + 1) x y h

/-- Equal geometries transfer the in-bounds property. -/
theorem roomBoundsOK_geom {gw gh : Int} {a b : Room} (h : roomGeom a = roomGeom b)
    (hb : roomBoundsOK gw gh b) : roomBoundsOK gw gh a := by
  obtain ⟨_, _, hx, hy, hww, hhh⟩ := geom_fields h
  simp only [roomBoundsOK] at hb ⊢
  omega

/-- The fresh grid satisfies the placement invariant with no rooms. -/
theorem placedInv_init (gw gh : Nat) (registry : List (String × RoomTypeDef)) :
    PlacedInv (gw : Int) (gh : Int) registry (createGrid gw gh) [] := by
  refine ⟨rfl, rfl, ?_, ?_, ?_, ?_, List.Pairwise.nil⟩
  · intro r hr
    exact absurd hr (List.not_mem_nil r)
  · intro r hr
    exact absurd hr (List.not_mem_nil r)
  · intro r hr
    exact absurd hr (List.not_mem_nil r)
  · intro cx cy hs
    simp [createGrid] at hs

/-- `applyHook` keeps the type tag and the rectangle fields. -/
theorem applyHook_fields (td : RoomTypeDef) (room : Room) :
    (applyHook td room).type = room.type ∧ (applyHook td room).x = room.x ∧
    (applyHook td room).y = room.y ∧ (applyHook td room).width = room.width ∧
    (applyHook td room).height = room.height := by
  unfold applyHook
  split <;> exact ⟨rfl, rfl, rfl, rfl, rfl⟩

/-- The placement loop preserves the buffer-and-bounds invariant. -/
theorem placeRoomsGo_inv (registry : List (String × RoomTypeDef)) (monsters : List Monster)
    (items : List Item) (level : Int) (roomO : Nat → RoomO) (gw gh : Int)
    (hwf : RegistryWf registry gw gh) :
    ∀ (rem i : Nat) (grid : Grid) (counter : Nat) (acc : List Room),
      PlacedInv gw gh registry grid acc →
      ∀ placed grid2 counter2,
        placeRoomsGo registry monsters items level roomO i rem grid counter acc =
          some (placed, grid2, counter2) →
        PlacedInv gw gh registry grid2 placed := by
  intro rem
  induction rem with
  | zero =>
    intro i grid counter acc hinv placed grid2 counter2 h
    simp only [placeRoomsGo, Option.some.injEq, Prod.mk.injEq] at h
    obtain ⟨h1, h2, _⟩ := h
    subst h1
    subst h2
    exact hinv
  | succ rem ih =>
    intro i grid counter acc hinv placed grid2 counter2 h
    simp only [placeRoomsGo] at h
    cases hsel : selectWeightedRoomType registry (roomO i).typeR with
    | none => rw [hsel] at h; exact absurd h (by simp)
    | some roomType =>
      rw [hsel] at h
      dsimp only at h
      cases hlook : lookupType registry roomType with
      | none => rw [hlook] at h; exact absurd h (by simp)
      | some typeDef =>
        rw [hlook] at h
        dsimp only at h
        have hwfd := lookupType_wf registry gw gh hwf roomType typeDef hlook
        obtain ⟨hmw1, hmw2, hmw3, hmh1, hmh2, hmh3⟩ := hwfd
        obtain ⟨W, hW⟩ : ∃ v,
            randomInRange typeDef.minSize.width typeDef.maxSize.width (roomO i).wR = v :=
          ⟨_, rfl⟩
        obtain ⟨H, hH⟩ : ∃ v,
            randomInRange typeDef.minSize.height typeDef.maxSize.height (roomO i).hR = v :=
          ⟨_, rfl⟩
        rw [hW, hH] at h
        have hWb : (typeDef.minSize.width : Int) ≤ W ∧ W ≤ (typeDef.maxSize.width : Int) := by
          rw [← hW]
          exact randomInRange_mem _ _ _ (by exact_mod_cast hmw2)
        have hHb : (typeDef.minSize.height : Int) ≤ H ∧ H ≤ (typeDef.maxSize.height : Int) := by
          rw [← hH]
          exact randomInRange_mem _ _ _ (by exact_mod_cast hmh2)
        have hW1 : 1 ≤ W := by
          have : (1 : Int) ≤ (typeDef.minSize.width : Int) := by exact_mod_cast hmw1
          omega
        have hH1 : 1 ≤ H := by
          have : (1 : Int) ≤ (typeDef.minSize.height : Int) := by exact_mod_cast hmh1
          omega
        have hWgw : W + 2 ≤ gw := by omega
        have hHgh : H + 2 ≤ gh := by omega
        obtain ⟨hgw, hgh, hbounds, htypes, hmark, hcover, hpair⟩ := hinv
        cases hpos : findRoomPosition grid W H (roomO i).posR with
        | none =>
          rw [hpos] at h
          exact ih (i + 1) grid counter acc
            ⟨hgw, hgh, hbounds, htypes, hmark, hcover, hpair⟩ placed grid2 counter2 h
        | some xy =>
          rw [hpos] at h
          obtain ⟨x, y⟩ := xy
          dsimp only at h
          simp only [findRoomPosition] at hpos
          obtain ⟨hcan, hx1, hy1⟩ :=
            findRoomPositionGo_spec (by rw [hgw]; omega) (by rw [hgh]; omega) 100 0 x y hpos
          obtain ⟨hxw, hyh, hfree⟩ := canPlaceRoom_spec hcan (by omega) (by omega)
          rw [hgw] at hxw
          rw [hgh] at hyh
          have hsep : ∀ r ∈ acc,
              x + W < r.x ∨ r.x + r.width - 1 < x - 1 ∨
              y + H < r.y ∨ r.y + r.height - 1 < y - 1 := by
            intro r hr
            by_contra hnd
            push_neg at hnd
            obtain ⟨hb1, hb2, hb3, hb4⟩ := hnd
            have hrb := hbounds r hr
            simp only [roomBoundsOK] at hrb
            by_cases hcx : x - 1 ≤ r.x
            · by_cases hcy : y - 1 ≤ r.y
              · have hcell := hmark r hr r.x r.y (by simp only [inRect]; omega)
                rw [hfree r.x r.y (by omega) (by omega) (by omega) (by omega)
                  (by omega) (by rw [hgw]; omega) (by omega) (by rw [hgh]; omega)] at hcell
                exact Option.noConfusion hcell
              · have hcell := hmark r hr r.x (y - 1) (by simp only [inRect]; omega)
                rw [hfree r.x (y - 1) (by omega) (by omega) (by omega) (by omega)
                  (by omega) (by rw [hgw]; omega) (by omega) (by rw [hgh]; omega)] at hcell
                exact Option.noConfusion hcell
            · by_cases hcy : y - 1 ≤ r.y
              · have hcell := hmark r hr (x - 1) r.y (by simp only [inRect]; omega)
                rw [hfree (x - 1) r.y (by omega) (by omega) (by omega) (by omega)
                  (by omega) (by rw [hgw]; omega) (by omega) (by rw [hgh]; omega)] at hcell
                exact Option.noConfusion hcell
              · have hcell := hmark r hr (x - 1) (y - 1) (by simp only [inRect]; omega)
                rw [hfree (x - 1) (y - 1) (by omega) (by omega) (by omega) (by omega)
                  (by omega) (by rw [hgw]; omega) (by omega) (by rw [hgh]; omega)] at hcell
                exact Option.noConfusion hcell
          cases hcts : generateRoomContents roomType level monsters items (roomO i).contentsO with
          | none => rw [hcts] at h; exact absurd h (by simp)
          | some contents =>
            rw [hcts] at h
            dsimp only at h
            obtain ⟨B, hB⟩ : ∃ B : Room, B =
                { id := counter, type := roomType, x := x, y := y,
                  width := W, height := H, level := level, contents := contents,
                  features := generateRoomFeatures typeDef (roomO i).featR,
                  description := generateRoomDescription roomType (roomO i).descR,
                  connections := [], ambience := none, lighting := none } := ⟨_, rfl⟩
            rw [← hB] at h
            have hBx : B.x = x := by rw [hB]
            have hBy : B.y = y := by rw [hB]
            have hBw : B.width = W := by rw [hB]
            have hBh : B.height = H := by rw [hB]
            have hBt : B.type = roomType := by rw [hB]
            obtain ⟨hAt, hAx, hAy, hAw, hAh⟩ := applyHook_fields typeDef B
            refine ih (i + 1) _ (counter + 1) _
              ⟨(markGrid_dims _ _).1.trans hgw, (markGrid_dims _ _).2.trans hgh,
               ?_, ?_, ?_, ?_, ?_⟩ placed grid2 counter2 h
            · intro r hr
              rcases List.mem_append.mp hr with hm | hm
              · exact hbounds r hm
              · rw [List.mem_singleton.mp hm]
                refine roomBoundsOK_geom (applyHook_geom _ _) ?_
                simp only [roomBoundsOK]
                rw [hBx, hBy, hBw, hBh]
                omega
            · intro r hr
              rcases List.mem_append.mp hr with hm | hm
              · exact htypes r hm
              · rw [List.mem_singleton.mp hm]
                refine ⟨typeDef, ?_, ?_, ?_, ?_, ?_⟩
                · rw [hAt, hBt]
                  exact hlook
                · rw [hAw, hBw]
                  exact hWb.1
                · rw [hAw, hBw]
                  exact hWb.2
                · rw [hAh, hBh]
                  exact hHb.1
                · rw [hAh, hBh]
                  exact hHb.2
            · intro r hr cx cy hinr
              rcases List.mem_append.mp hr with hm | hm
              · have hrb := hbounds r hm
                simp only [roomBoundsOK] at hrb
                have hinr2 := hinr
                simp only [inRect] at hinr2
                rw [markGrid_cells]
                rw [if_neg (by
                  rw [hBx, hBy, hBw, hBh]
                  have := hsep r hm
                  omega)]
                exact hmark r hm cx cy hinr
              · rw [List.mem_singleton.mp hm]
                have hinr2 : inRect B cx cy := by
                  rw [List.mem_singleton.mp hm] at hinr
                  exact (applyHook_inRect _ _ _ _).mp hinr
                simp only [inRect] at hinr2
                rw [markGrid_cells]
                rw [if_pos (by omega)]
                rw [(applyHook_id_conn typeDef B).1]
            · intro cx cy hs
              rw [markGrid_cells] at hs
              by_cases hcnd : B.y ≤ cy ∧ cy < B.y + B.height ∧ B.x ≤ cx ∧ cx < B.x + B.width
              · refine ⟨applyHook typeDef B,
                  List.mem_append_right _ (List.mem_singleton_self _), ?_⟩
                rw [applyHook_inRect]
                simp only [inRect]
                omega
              · rw [if_neg hcnd] at hs
                obtain ⟨r, hr, hir⟩ := hcover cx cy hs
                exact ⟨r, List.mem_append_left _ hr, hir⟩
            · rw [List.pairwise_append]
              refine ⟨hpair, List.pairwise_singleton _ _, ?_⟩
              intro a ha b hb
              rw [List.mem_singleton.mp hb]
              have core : (roomRect (applyHook typeDef B) 1).disjointB (roomRect a 0) = true := by
                rw [applyHook_rect]
                simp only [IRect.disjointB, roomRect, decide_eq_true_eq]
                rw [hBx, hBy, hBw, hBh]
                have := hsep a ha
                omega
              obtain ⟨h1', h2'⟩ := buffered_of_sep core
              exact ⟨h2', h1'⟩

/-- A geometry-respecting pairwise property transfers along geometry-map
equality. -/
theorem pairwise_geom_transfer (Q : Room → Room → Prop)
    (hQ : ∀ a a' b b', roomGeom a = roomGeom a' → roomGeom b = roomGeom b' → Q a b → Q a' b') :
    ∀ l1 l2 : List Room, l1.map roomGeom = l2.map roomGeom →
      List.Pairwise Q l1 → List.Pairwise Q l2 := by
  intro l1
  induction l1 with
  | nil =>
    intro l2 h hp
    cases l2 with
    | nil => exact List.Pairwise.nil
    | cons b t => simp at h
  | cons a t ih =>
    intro l2 h hp
    cases l2 with
    | nil => simp at h
    | cons a' t' =>
      simp only [List.map_cons, List.cons.injEq] at h
      obtain ⟨hh, ht⟩ := h
      obtain ⟨hpa, hpt⟩ := List.pairwise_cons.mp hp
      refine List.pairwise_cons.mpr ⟨?_, ih t' ht hpt⟩
      intro b' hb'
      have hbm : roomGeom b' ∈ t'.map roomGeom := List.mem_map_of_mem _ hb'
      rw [← ht] at hbm
      obtain ⟨b, hb, hbg⟩ := List.mem_map.mp hbm
      exact hQ a a' b b' hh hbg (hpa b hb)

/-- The buffer relation only depends on geometry. -/
theorem buffered_geom {a a' b b' : Room} (ha : roomGeom a = roomGeom a')
    (hb : roomGeom b = roomGeom b') (h : Buffered a b) : Buffered a' b' := by
  unfold Buffered at h ⊢
  rw [← roomRect_geom ha 0, ← roomRect_geom ha 1, ← roomRect_geom hb 0]
  exact h

/-- Claim C2 amended: on a floor generated over a well-formed registry,
distinct rooms have disjoint bare rectangles and each room's
1-cell-expanded rectangle is disjoint from the other's bare rectangle (a
1-cell buffer).  (The two expanded rectangles may still intersect, which
is what refutes the claim as stated.) -/
theorem c2_amended (registry : List (String × RoomTypeDef)) (monsters : List Monster)
    (items : List Item) (floorNumber : Nat) (roomsCount : Int) (level : Int)
    (theme size : String) (o : FloorO) (counter : Nat) (f : Floor) (cNext : Nat)
    (hwf : RegistryWf registry ((getGridSize size).width : Int) ((getGridSize size).height : Int))
    (h : generateFloor registry monsters items floorNumber roomsCount level theme size o counter =
      some (f, cNext)) :
    List.Pairwise (fun r1 r2 => Buffered r1 r2 ∧ Buffered r2 r1) f.rooms := by
  obtain ⟨placed, grid2, counterB, rooms2, corridors, counterC, first, last,
    hp, hc, hh, hl, hcn, hfr, hfc, hfe, hfx⟩ := generateFloor_inv _ _ _ _ _ _ _ _ _ _ _ _ h
  obtain ⟨hfresh, hnodup, hcle, hlen⟩ :=
    placeRoomsGo_basic registry monsters items level o.roomO roomsCount.toNat 0
      (createGrid (getGridSize size).width (getGridSize size).height) (counter + 1) []
      (fun r hr => absurd hr (List.not_mem_nil r)) List.nodup_nil placed grid2 counterB hp
  have hpne : placed ≠ [] := by
    intro hnil
    rw [hnil] at hc
    exact absurd hc (by simp [connectRooms])
  have hinv := placeRoomsGo_inv registry monsters items level o.roomO
    ((getGridSize size).width : Int) ((getGridSize size).height : Int) hwf
    roomsCount.toNat 0
    (createGrid (getGridSize size).width (getGridSize size).height) (counter + 1) []
    (placedInv_init _ _ _) placed grid2 counterB hp
  obtain ⟨_, _, _, _, _, _, hpair⟩ := hinv
  obtain ⟨rooms2', corridors', counterC', heq, hgeom, hcount, hreach, hOK, hpaths⟩ :=
    connectRooms_spec o.corrO placed counterB hnodup (fun r hr => (hfresh r hr).2) hpne
  rw [heq] at hc
  simp only [Option.some.injEq, Prod.mk.injEq] at hc
  obtain ⟨h1, h2, h3⟩ := hc
  rw [← h1] at hfr
  rw [hfr]
  exact pairwise_geom_transfer _
    (fun a a' b b' ha hb q => ⟨buffered_geom ha hb q.1, buffered_geom hb ha q.2⟩)
    placed rooms2' hgeom.symm hpair

/-- Claim C7: on a floor generated over a well-formed registry, every
room's width and height lie within its room type's declared bounds, every
grid cell covered by a room lies inside the grid, and every corridor path
cell lies inside the grid. -/
theorem c7_bounds (registry : List (String × RoomTypeDef)) (monsters : List Monster)
    (items : List Item) (floorNumber : Nat) (roomsCount : Int) (level : Int)
    (theme size : String) (o : FloorO) (counter : Nat) (f : Floor) (cNext : Nat)
    (hwf : RegistryWf registry ((getGridSize size).width : Int) ((getGridSize size).height : Int))
    (h : generateFloor registry monsters items floorNumber roomsCount level theme size o counter =
      some (f, cNext)) :
    (∀ r ∈ f.rooms, ∃ td, lookupType registry r.type = some td ∧
      (td.minSize.width : Int) ≤ r.width ∧ r.width ≤ (td.maxSize.width : Int) ∧
      (td.minSize.height : Int) ≤ r.height ∧ r.height ≤ (td.maxSize.height : Int)) ∧
    (∀ r ∈ f.rooms, ∀ cx cy : Int, inRect r cx cy →
      0 ≤ cx ∧ cx < ((getGridSize size).width : Int) ∧
      0 ≤ cy ∧ cy < ((getGridSize size).height : Int)) ∧
    (∀ c ∈ f.corridors,
      pathOK ((getGridSize size).width : Int) ((getGridSize size).height : Int) c) := by
  obtain ⟨placed, grid2, counterB, rooms2, corridors, counterC, first, last,
    hp, hc, hh, hl, hcn, hfr, hfc, hfe, hfx⟩ := generateFloor_inv _ _ _ _ _ _ _ _ _ _ _ _ h
  obtain ⟨hfresh, hnodup, hcle, hlen⟩ :=
    placeRoomsGo_basic registry monsters items level o.roomO roomsCount.toNat 0
      (createGrid (getGridSize size).width (getGridSize size).height) (counter + 1) []
      (fun r hr => absurd hr (List.not_mem_nil r)) List.nodup_nil placed grid2 counterB hp
  have hpne : placed ≠ [] := by
    intro hnil
    rw [hnil] at hc
    exact absurd hc (by simp [connectRooms])
  have hinv := placeRoomsGo_inv registry monsters items level o.roomO
    ((getGridSize size).width : Int) ((getGridSize size).height : Int) hwf
    roomsCount.toNat 0
    (createGrid (getGridSize size).width (getGridSize size).height) (counter + 1) []
    (placedInv_init _ _ _) placed grid2 counterB hp
  obtain ⟨_, _, hbounds, htypes, _, _, _⟩ := hinv
  obtain ⟨rooms2', corridors', counterC', heq, hgeom, hcount, hreach, hOK, hpaths⟩ :=
    connectRooms_spec o.corrO placed counterB hnodup (fun r hr => (hfresh r hr).2) hpne
  rw [heq] at hc
  simp only [Option.some.injEq, Prod.mk.injEq] at hc
  obtain ⟨h1, h2, h3⟩ := hc
  rw [← h1] at hfr
  rw [← h2] at hfc
  have hmemg : ∀ r ∈ rooms2', ∃ r1 ∈ placed, roomGeom r1 = roomGeom r := by
    intro r hr
    have : roomGeom r ∈ rooms2'.map roomGeom := List.mem_map_of_mem _ hr
    rw [hgeom] at this
    exact List.mem_map.mp this
  refine ⟨?_, ?_, ?_⟩
  · rw [hfr]
    intro r hr
    obtain ⟨r1, hr1, hg⟩ := hmemg r hr
    obtain ⟨td, htd, hb1, hb2, hb3, hb4⟩ := htypes r1 hr1
    obtain ⟨_, ht, _, _, hw', hh'⟩ := geom_fields hg
    exact ⟨td, ht ▸ htd, hw' ▸ hb1, hw' ▸ hb2, hh' ▸ hb3, hh' ▸ hb4⟩
  · rw [hfr]
    intro r hr cx cy hinr
    obtain ⟨r1, hr1, hg⟩ := hmemg r hr
    have hb := hbounds r1 hr1
    obtain ⟨_, _, hx, hy, hw', hh'⟩ := geom_fields hg
    simp only [roomBoundsOK] at hb
    simp only [inRect] at hinr
    omega
  · rw [hfc]
    exact hpaths _ _ hbounds

set_option maxHeartbeats 1000000 in
/-- Claim C2 amended, witness instance: the two-room counterexample floor
satisfies the buffer relation in both directions (while its expanded
rectangles do intersect). -/
theorem c2_amended_witness :
    RegistryWf builtinRoomTypes ((getGridSize "small").width : Int)
      ((getGridSize "small").height : Int) ∧
    ∃ f c2, generateFloor builtinRoomTypes [] [] 1 2 1 "generic" "small" cexFloorO 0 =
        some (f, c2) ∧
      List.Pairwise (fun r1 r2 => Buffered r1 r2 ∧ Buffered r2 r1) f.rooms := by
  refine ⟨by unfold RegistryWf RoomTypeWf; decide, ?_⟩
  cases hF : generateFloor builtinRoomTypes [] [] 1 2 1 "generic" "small" cexFloorO 0 with
  | none => exact absurd hF (by decide)
  | some fc =>
    exact ⟨fc.1, fc.2, rfl, c2_amended _ _ _ _ _ _ _ _ _ _ _ _
      (by unfold RegistryWf RoomTypeWf; decide) hF⟩

set_option maxHeartbeats 1000000 in
/-- Claim C7, witness instance: the two-room counterexample floor
respects the type size bounds and the grid bounds for room cells and
corridor path cells. -/
theorem c7_witness :
    RegistryWf builtinRoomTypes ((getGridSize "small").width : Int)
      ((getGridSize "small").height : Int) ∧
    ∃ f c2, generateFloor builtinRoomTypes [] [] 1 2 1 "generic" "small" cexFloorO 0 =
        some (f, c2) ∧
      ((∀ r ∈ f.rooms, ∃ td, lookupType builtinRoomTypes r.type = some td ∧
        (td.minSize.width : Int) ≤ r.width ∧ r.width ≤ (td.maxSize.width : Int) ∧
        (td.minSize.height : Int) ≤ r.height ∧ r.height ≤ (td.maxSize.height : Int)) ∧
      (∀ r ∈ f.rooms, ∀ cx cy : Int, inRect r cx cy →
        0 ≤ cx ∧ cx < ((getGridSize "small").width : Int) ∧
        0 ≤ cy ∧ cy < ((getGridSize "small").height : Int)) ∧
      (∀ c ∈ f.corridors,
        pathOK ((getGridSize "small").width : Int) ((getGridSize "small").height : Int) c)) := by
  refine ⟨by unfold RegistryWf RoomTypeWf; decide, ?_⟩
  cases hF : generateFloor builtinRoomTypes [] [] 1 2 1 "generic" "small" cexFloorO 0 with
  | none => exact absurd hF (by decide)
  | some fc =>
    exact ⟨fc.1, fc.2, rfl, c7_bounds _ _ _ _ _ _ _ _ _ _ _ _
      (by unfold RegistryWf RoomTypeWf; decide) hF⟩
